import Mathlib

/-!
Shallow embedding of the BusTub buffer-pool core: the LRU-K replacer
(src/buffer/lru_k_replacer.cpp, latest revision) and the buffer pool manager
(src/buffer/buffer_pool_manager.cpp), together with theorems checking the
natural-language specification against this embedding.

C++ `size_t` values are embedded as `Nat` with explicit wrap-around modulo
2^64 wherever the source performs arithmetic on them; `frame_id_t` and
`page_id_t` (signed integers) are embedded as `Int`.
-/

namespace Bustub

/-- Modulus of the C++ `size_t` type: 2 to the power 64. -/
def MOD64 : Nat := 18446744073709551616

/-- Largest `size_t` value (2^64 minus 1), used by the source as the sentinel
for an infinite backward k-distance (`std::numeric_limits<size_t>::max()`). -/
def SIZE_MAX : Nat := 18446744073709551615

/-- Wrapping 64-bit increment: the effect of `x++` on a `size_t` variable. -/
def inc64 (x : Nat) : Nat := (x + 1) % MOD64

/-- Wrapping 64-bit decrement: the effect of `x -= 1` on a `size_t` variable. -/
def dec64 (x : Nat) : Nat := (x + (MOD64 - 1)) % MOD64

/-- Wrapping 64-bit subtraction: the effect of `a - b` on `size_t` operands. -/
def sub64 (a b : Nat) : Nat := (a + (MOD64 - b % MOD64)) % MOD64

theorem sub64_eq_sub {a b : Nat} (hb : b ≤ a) (ha : a < MOD64) : sub64 a b = a - b := by
  unfold sub64 MOD64 at *
  omega

theorem dec64_eq_sub {x : Nat} (h1 : 1 ≤ x) (h2 : x < MOD64) : dec64 x = x - 1 := by
  unfold dec64 MOD64 at *
  omega

theorem inc64_eq_add {x : Nat} (h : x + 1 < MOD64) : inc64 x = x + 1 := by
  unfold inc64 MOD64 at *
  omega

theorem sub64_lt_size_max {a b : Nat} (hb : b ≤ a) (ha : a < SIZE_MAX) :
    sub64 a b < SIZE_MAX := by
  unfold sub64 MOD64 SIZE_MAX at *
  omega

/-- Replace the element at a given index by applying `f`, leaving every other
position (and an out-of-range index) unchanged. -/
def modifyIdx (f : α → α) : List α → Nat → List α
  | [], _ => []
  | a :: rest, 0 => f a :: rest
  | a :: rest, Nat.succ i => a :: modifyIdx f rest i

theorem length_modifyIdx (f : α → α) (l : List α) (i : Nat) :
    (modifyIdx f l i).length = l.length := by
  induction l generalizing i with
  | nil => rfl
  | cons a rest ih =>
    cases i with
    | zero => rfl
    | succ j => simp [modifyIdx, ih]

theorem get?_modifyIdx_self (f : α → α) (l : List α) (i : Nat) :
    (modifyIdx f l i).get? i = (l.get? i).map f := by
  induction l generalizing i with
  | nil => cases i <;> rfl
  | cons a rest ih =>
    cases i with
    | zero => rfl
    | succ j => simpa [modifyIdx] using ih j

theorem get?_modifyIdx_ne (f : α → α) (l : List α) {i j : Nat} (h : i ≠ j) :
    (modifyIdx f l i).get? j = l.get? j := by
  induction l generalizing i j with
  | nil => cases i <;> rfl
  | cons a rest ih =>
    cases i with
    | zero =>
      cases j with
      | zero => exact absurd rfl h
      | succ m => rfl
    | succ n =>
      cases j with
      | zero => rfl
      | succ m =>
        simp only [modifyIdx, List.get?]
        exact ih (fun hnm => h (by omega))

/-- Pair each element of a list with its index, counting upwards from `i`. -/
def idxFrom (i : Nat) : List α → List (Nat × α)
  | [] => []
  | a :: rest => (i, a) :: idxFrom (i + 1) rest

theorem mem_idxFrom_get? {l : List α} {i : Nat} {p : Nat × α}
    (h : p ∈ idxFrom i l) : i ≤ p.1 ∧ l.get? (p.1 - i) = some p.2 := by
  induction l generalizing i with
  | nil => cases h
  | cons a rest ih =>
    simp only [idxFrom, List.mem_cons] at h
    rcases h with h | h
    · subst h
      simp
    · obtain ⟨h1, h2⟩ := ih h
      refine ⟨by omega, ?_⟩
      have hpos : p.1 - i = (p.1 - (i + 1)) + 1 := by omega
      rw [hpos]
      simpa using h2

theorem get?_mem_idxFrom {l : List α} {j : Nat} {a : α}
    (h : l.get? j = some a) (i : Nat) : (i + j, a) ∈ idxFrom i l := by
  induction l generalizing i j with
  | nil => simp at h
  | cons b rest ih =>
    cases j with
    | zero =>
      simp only [List.get?] at h
      cases h
      simp [idxFrom]
    | succ m =>
      simp only [List.get?] at h
      have := ih h (i + 1)
      simp only [idxFrom, List.mem_cons]
      right
      have harith : i + (m + 1) = (i + 1) + m := by omega
      rw [harith]
      exact this

/-- Lookup in an association list with `Int` keys, mirroring
`std::unordered_map::find`. -/
def alookup (q : Int) : List (Int × β) → Option β
  | [] => none
  | (k, v) :: rest => if k = q then some v else alookup q rest

/-- Remove every binding of a key, mirroring `std::unordered_map::erase`. -/
def aerase (q : Int) : List (Int × β) → List (Int × β)
  | [] => []
  | (k, v) :: rest => if k = q then aerase q rest else (k, v) :: aerase q rest

/-- Insert-or-assign a binding, mirroring `map[key] = value`. -/
def ainsert (q : Int) (v : β) (l : List (Int × β)) : List (Int × β) :=
  (q, v) :: aerase q l

theorem alookup_aerase_self (q : Int) (l : List (Int × β)) :
    alookup q (aerase q l) = none := by
  induction l with
  | nil => rfl
  | cons p rest ih =>
    obtain ⟨k, v⟩ := p
    by_cases hk : k = q
    · simp [aerase, hk, ih]
    · simp [aerase, hk, alookup, ih]

theorem alookup_aerase_ne {q q' : Int} (h : q ≠ q') (l : List (Int × β)) :
    alookup q' (aerase q l) = alookup q' l := by
  induction l with
  | nil => rfl
  | cons p rest ih =>
    obtain ⟨k, v⟩ := p
    simp only [aerase, alookup]
    by_cases hk : k = q
    · rw [if_pos hk, ih, if_neg (by rw [hk]; exact h)]
    · rw [if_neg hk]
      by_cases hk' : k = q'
      · simp only [alookup, if_pos hk']
      · simp only [alookup, if_neg hk', ih]

theorem alookup_ainsert_self (q : Int) (v : β) (l : List (Int × β)) :
    alookup q (ainsert q v l) = some v := by
  simp [ainsert, alookup]

theorem alookup_ainsert_ne {q q' : Int} (h : q ≠ q') (v : β) (l : List (Int × β)) :
    alookup q' (ainsert q v l) = alookup q' l := by
  simp [ainsert, alookup, h]
  exact alookup_aerase_ne h l

/-- Error kinds surfaced by replacer operations; the source throws
`std::invalid_argument` with distinct messages for the two situations. -/
inductive ReplacerError where
  | InvalidFrame
  | NotEvictable
deriving DecidableEq, Repr

/-- Embedding of `LRUKNode` (lru_k_replacer, latest revision): a bounded access
history (newest timestamp first, because `Access` pushes at the front), the
evictable flag, and the `exist_` presence flag. -/
structure LRUKNode where
  k : Nat
  fid : Int
  history : List Nat
  is_evictable : Bool
  exist : Bool
deriving DecidableEq, Repr

instance : Inhabited LRUKNode :=
  ⟨{ k := 0, fid := 0, history := [], is_evictable := false, exist := false }⟩

/-- LRUKNode::Evictable. -/
def LRUKNode.Evictable (n : LRUKNode) : Bool := n.is_evictable

/-- LRUKNode::Existence. -/
def LRUKNode.Existence (n : LRUKNode) : Bool := n.exist

/-- LRUKNode::KthDistance: the sentinel `SIZE_MAX` when the history holds fewer
than k entries, otherwise `ts - history_.back()` in `size_t` arithmetic. The
history is stored newest-first, so its back (`getLastD`) is the oldest retained
access. -/
def LRUKNode.KthDistance (n : LRUKNode) (ts : Nat) : Nat :=
  if n.history.length < n.k then SIZE_MAX else sub64 ts (n.history.getLastD 0)

/-- LRUKNode::EarliestTimeStamp: `history_.back()`, the oldest retained access.
Calling `back()` on an empty deque is undefined behaviour in the source; the
embedding returns 0 there, and every theorem that depends on this value assumes
a nonempty history. -/
def LRUKNode.EarliestTimeStamp (n : LRUKNode) : Nat := n.history.getLastD 0

/-- LRUKNode::Access: drop the oldest entry once the history already holds k
items, then push the fresh timestamp at the front and mark the node present. -/
def LRUKNode.Access (n : LRUKNode) (ts : Nat) : LRUKNode :=
  { n with exist := true,
           history := ts :: (if n.k ≤ n.history.length then n.history.dropLast else n.history) }

/-- LRUKNode::SetEvictable. -/
def LRUKNode.SetEvictable (n : LRUKNode) (set_evictable : Bool) : LRUKNode :=
  { n with is_evictable := set_evictable }

/-- LRUKNode::Evict: wipe the history and clear both flags. -/
def LRUKNode.Evict (n : LRUKNode) : LRUKNode :=
  { n with history := [], is_evictable := false, exist := false }

/-- Embedding of `LRUKReplacer`: `node_store_` is kept as a list indexed by
frame id (the constructor inserts exactly the keys `0 .. num_frames - 1`, and
no operation ever adds or removes a key, so a `std::map` keyed by frame id is
exactly a positional list). -/
structure LRUKReplacer where
  node_store : List LRUKNode
  replacer_size : Nat
  k : Nat
  current_timestamp : Nat
  curr_size : Nat
deriving DecidableEq, Repr

/-- LRUKReplacer::LRUKReplacer: one node per frame id in `[0, num_frames)`. -/
def LRUKReplacer.new (num_frames k : Nat) : LRUKReplacer :=
  { node_store := (List.range num_frames).map
      (fun (fid : Nat) => { k := k, fid := Int.ofNat fid, history := [],
                            is_evictable := false, exist := false }),
    replacer_size := num_frames,
    k := k,
    current_timestamp := 0,
    curr_size := 0 }

/-- The scan loop of LRUKReplacer::Evict. The accumulator mirrors the local
variables `victim`, `largest_distance` and `earliest_timestamp`; it is `none`
until the first evictable node is seen, matching the `!victim` disjunct. -/
def evictLoop (ts : Nat) : List (Nat × LRUKNode) → Option (Nat × Nat × Nat) →
    Option (Nat × Nat × Nat)
  | [], acc => acc
  | (fid, node) :: rest, acc =>
    if node.Evictable then
      match acc with
      | none => evictLoop ts rest (some (fid, node.KthDistance ts, node.EarliestTimeStamp))
      | some (v, largest, earliest) =>
        if largest < node.KthDistance ts ∨
            (node.KthDistance ts = largest ∧ node.EarliestTimeStamp < earliest) then
          evictLoop ts rest (some (fid, node.KthDistance ts, node.EarliestTimeStamp))
        else
          evictLoop ts rest (some (v, largest, earliest))
    else
      evictLoop ts rest acc

/-- LRUKReplacer::Evict: scan all nodes for the best evictable victim; on
success wipe the victim node and decrement the evictable counter. -/
def LRUKReplacer.Evict (r : LRUKReplacer) : Option Nat × LRUKReplacer :=
  match evictLoop r.current_timestamp (idxFrom 0 r.node_store) none with
  | none => (none, r)
  | some (v, _, _) =>
    (some v, { r with node_store := modifyIdx LRUKNode.Evict r.node_store v,
                      curr_size := dec64 r.curr_size })

/-- LRUKReplacer::RecordAccess: range-check the frame id, then record the
current timestamp in that node and advance the logical clock. -/
def LRUKReplacer.RecordAccess (r : LRUKReplacer) (frame_id : Int) :
    Except ReplacerError LRUKReplacer :=
  if frame_id < 0 ∨ r.replacer_size ≤ frame_id.toNat then
    .error .InvalidFrame
  else
    .ok { r with
            node_store := modifyIdx (fun n => n.Access r.current_timestamp)
              r.node_store frame_id.toNat,
            current_timestamp := inc64 r.current_timestamp }

/-- LRUKReplacer::SetEvictable: range-check, then flip the flag and adjust the
counter only when the stored flag differs from the requested one. The `none`
branch of the node lookup is unreachable whenever `node_store` holds
`replacer_size` nodes (`std::map::at` would throw there). -/
def LRUKReplacer.SetEvictable (r : LRUKReplacer) (frame_id : Int) (set_evictable : Bool) :
    Except ReplacerError LRUKReplacer :=
  if frame_id < 0 ∨ r.replacer_size ≤ frame_id.toNat then
    .error .InvalidFrame
  else
    match r.node_store.get? frame_id.toNat with
    | none => .error .InvalidFrame
    | some node =>
      if node.Evictable = set_evictable then
        .ok r
      else
        .ok { r with
                node_store := modifyIdx (fun n => n.SetEvictable set_evictable)
                  r.node_store frame_id.toNat,
                curr_size := if set_evictable then inc64 r.curr_size else dec64 r.curr_size }

/-- LRUKReplacer::Remove: silently ignore out-of-range ids; silently ignore
nodes that are not present (`exist_` false); throw `NotEvictable` for a present
non-evictable node; otherwise wipe the node and decrement the counter. -/
def LRUKReplacer.Remove (r : LRUKReplacer) (frame_id : Int) :
    Except ReplacerError LRUKReplacer :=
  if frame_id < 0 ∨ r.replacer_size ≤ frame_id.toNat then
    .ok r
  else
    match r.node_store.get? frame_id.toNat with
    | none => .error .InvalidFrame
    | some node =>
      if node.Existence = false then
        .ok r
      else if node.Evictable = false then
        .error .NotEvictable
      else
        .ok { r with node_store := modifyIdx LRUKNode.Evict r.node_store frame_id.toNat,
                     curr_size := dec64 r.curr_size }

/-- LRUKReplacer::Size. -/
def LRUKReplacer.Size (r : LRUKReplacer) : Nat := r.curr_size

/-- Backward k-distance exactly as the specification words it: plus-infinity
when the node's history has fewer than k entries, otherwise the current logical
time minus the oldest entry still in history. Written from the spec sentence
for comparison against the source's `KthDistance`. -/
def specKDistance (ts : Nat) (n : LRUKNode) : WithTop Nat :=
  if n.history.length < n.k then ⊤ else ((ts - n.history.getLastD 0 : Nat) : WithTop Nat)

theorem getLastD_mem : ∀ (l : List α) (d : α), l ≠ [] → l.getLastD d ∈ l
  | [a], _, _ => by simp [List.getLastD]
  | a :: b :: rest, d, _ => by
    have hmem := getLastD_mem (b :: rest) a (by simp)
    simpa [List.getLastD_cons] using List.mem_cons_of_mem a hmem

/-- Wellformedness of a node as the replacer theorems need it: any evictable
node has a nonempty history whose entries never exceed the logical clock. This
holds for every node in a reachable replacer state, since recorded timestamps
are strictly below the post-increment clock and the buffer pool only marks
accessed frames evictable. -/
def NodeOk (ts : Nat) (n : LRUKNode) : Prop :=
  n.Evictable = true → n.history ≠ [] ∧ ∀ t ∈ n.history, t ≤ ts

instance (ts : Nat) (n : LRUKNode) : Decidable (NodeOk ts n) := by
  unfold NodeOk
  infer_instance

theorem kthDistance_of_full {ts : Nat} {n : LRUKNode} (hts : ts < SIZE_MAX)
    (hne : n.history ≠ []) (hb : ∀ t ∈ n.history, t ≤ ts)
    (hfull : ¬ n.history.length < n.k) :
    n.KthDistance ts = ts - n.history.getLastD 0 ∧ n.KthDistance ts < SIZE_MAX := by
  have hmem : n.history.getLastD 0 ∈ n.history := getLastD_mem n.history 0 hne
  have hle : n.history.getLastD 0 ≤ ts := hb _ hmem
  have hlt : ts < MOD64 := by unfold SIZE_MAX at hts; unfold MOD64; omega
  constructor
  · simp only [LRUKNode.KthDistance, if_neg hfull]
    exact sub64_eq_sub hle hlt
  · simp only [LRUKNode.KthDistance, if_neg hfull]
    exact sub64_lt_size_max hle hts

theorem kthDistance_of_short {ts : Nat} {n : LRUKNode}
    (hshort : n.history.length < n.k) : n.KthDistance ts = SIZE_MAX := by
  simp [LRUKNode.KthDistance, hshort]

/-- The ordering on the source's sentinel-valued distances agrees with the
ordering on the specification's extended-natural distances, for wellformed
evictable nodes. -/
theorem specKDistance_le_iff {ts : Nat} {f g : LRUKNode} (hts : ts < SIZE_MAX)
    (hfok : f.history ≠ [] ∧ ∀ t ∈ f.history, t ≤ ts)
    (hgok : g.history ≠ [] ∧ ∀ t ∈ g.history, t ≤ ts) :
    (specKDistance ts g ≤ specKDistance ts f ↔ g.KthDistance ts ≤ f.KthDistance ts) ∧
    (specKDistance ts g = specKDistance ts f ↔ g.KthDistance ts = f.KthDistance ts) := by
  by_cases hf : f.history.length < f.k <;> by_cases hg : g.history.length < g.k
  · have hfd := @kthDistance_of_short ts f hf
    have hgd := @kthDistance_of_short ts g hg
    rw [specKDistance, specKDistance, if_pos hf, if_pos hg, hfd, hgd]
    simp
  · obtain ⟨hgd, hglt⟩ := kthDistance_of_full hts hgok.1 hgok.2 hg
    have hfd := @kthDistance_of_short ts f hf
    rw [specKDistance, specKDistance, if_pos hf, if_neg hg, hfd, hgd]
    rw [hgd] at hglt
    constructor
    · constructor
      · intro _
        omega
      · intro _
        exact le_top
    · constructor
      · intro hcontra
        exact absurd hcontra WithTop.coe_ne_top
      · intro hcontra
        exact absurd hcontra (by omega)
  · obtain ⟨hfd, hflt⟩ := kthDistance_of_full hts hfok.1 hfok.2 hf
    have hgd := @kthDistance_of_short ts g hg
    rw [specKDistance, specKDistance, if_pos hg, if_neg hf, hfd, hgd]
    rw [hfd] at hflt
    constructor
    · constructor
      · intro hcontra
        exact absurd (top_le_iff.mp hcontra) WithTop.coe_ne_top
      · intro hcontra
        exact absurd hcontra (by omega)
    · constructor
      · intro hcontra
        exact absurd hcontra.symm WithTop.coe_ne_top
      · intro hcontra
        exact absurd hcontra (by omega)
  · obtain ⟨hfd, hflt⟩ := kthDistance_of_full hts hfok.1 hfok.2 hf
    obtain ⟨hgd, hglt⟩ := kthDistance_of_full hts hgok.1 hgok.2 hg
    rw [specKDistance, specKDistance, if_neg hf, if_neg hg, hfd, hgd]
    exact ⟨WithTop.coe_le_coe, WithTop.coe_inj⟩

/-- Optimality of a candidate over a list of indexed nodes, in the source's
sentinel arithmetic: the candidate is an evictable node of the list, and every
evictable node of the list loses to it (strictly smaller distance, or equal
distance and no smaller earliest timestamp). -/
def BestIn (ts : Nat) (l : List (Nat × LRUKNode)) (v kd ets : Nat) : Prop :=
  (∃ node, (v, node) ∈ l ∧ node.Evictable = true ∧ kd = node.KthDistance ts ∧
    ets = node.EarliestTimeStamp) ∧
  ∀ p ∈ l, (p : Nat × LRUKNode).2.Evictable = true →
    (p.2.KthDistance ts < kd ∨ (p.2.KthDistance ts = kd ∧ ets ≤ p.2.EarliestTimeStamp))

theorem bestIn_append_skip {ts : Nat} {l : List (Nat × LRUKNode)} {v kd ets : Nat}
    {q : Nat × LRUKNode} (hb : BestIn ts l v kd ets) (hq : q.2.Evictable = false) :
    BestIn ts (l ++ [q]) v kd ets := by
  obtain ⟨⟨node, hmem, hev, hkd, hets⟩, hall⟩ := hb
  refine ⟨⟨node, List.mem_append_left _ hmem, hev, hkd, hets⟩, ?_⟩
  intro p hp hpev
  rcases List.mem_append.mp hp with hp | hp
  · exact hall p hp hpev
  · simp only [List.mem_singleton] at hp
    subst hp
    rw [hq] at hpev
    cases hpev

theorem evictLoop_spec (ts : Nat) (l : List (Nat × LRUKNode)) :
    ∀ (processed : List (Nat × LRUKNode)) (acc : Option (Nat × Nat × Nat)),
    (acc = none → ∀ p ∈ processed, (p : Nat × LRUKNode).2.Evictable = false) →
    (∀ v kd ets, acc = some (v, kd, ets) → BestIn ts processed v kd ets) →
    ((evictLoop ts l acc = none →
        ∀ p ∈ processed ++ l, (p : Nat × LRUKNode).2.Evictable = false) ∧
     (∀ v kd ets, evictLoop ts l acc = some (v, kd, ets) →
        BestIn ts (processed ++ l) v kd ets)) := by
  induction l with
  | nil =>
    intro processed acc hnone hsome
    simp only [evictLoop, List.append_nil]
    exact ⟨hnone, hsome⟩
  | cons q rest ih =>
    intro processed acc hnone hsome
    obtain ⟨fid, node⟩ := q
    have happ : processed ++ (fid, node) :: rest = (processed ++ [(fid, node)]) ++ rest := by
      simp
    rw [happ]
    by_cases hev : node.Evictable
    · simp only [evictLoop, hev, if_true]
      cases acc with
      | none =>
        apply ih
        · intro hcontra
          cases hcontra
        · intro v kd ets heq
          cases heq
          constructor
          · exact ⟨node, List.mem_append_right _ (List.mem_singleton.mpr rfl), hev, rfl, rfl⟩
          · intro p hp hpev
            rcases List.mem_append.mp hp with hp | hp
            · exact absurd hpev (by simp [hnone rfl p hp])
            · simp only [List.mem_singleton] at hp
              subst hp
              right
              exact ⟨rfl, le_refl _⟩
      | some acc3 =>
        obtain ⟨v0, largest, earliest⟩ := acc3
        have hbest : BestIn ts processed v0 largest earliest := hsome v0 largest earliest rfl
        by_cases hbetter : largest < node.KthDistance ts ∨
            (node.KthDistance ts = largest ∧ node.EarliestTimeStamp < earliest)
        · simp only [if_pos hbetter]
          apply ih
          · intro hcontra
            cases hcontra
          · intro v kd ets heq
            cases heq
            constructor
            · exact ⟨node, List.mem_append_right _ (List.mem_singleton.mpr rfl), hev, rfl, rfl⟩
            · intro p hp hpev
              rcases List.mem_append.mp hp with hp | hp
              · rcases hbest.2 p hp hpev with hlt | ⟨heq2, hle⟩
                · rcases hbetter with hb | ⟨hb1, hb2⟩
                  · exact Or.inl (lt_trans hlt hb)
                  · rw [hb1]
                    exact Or.inl hlt
                · rcases hbetter with hb | ⟨hb1, hb2⟩
                  · rw [heq2]
                    exact Or.inl hb
                  · right
                    refine ⟨by omega, ?_⟩
                    omega
              · simp only [List.mem_singleton] at hp
                subst hp
                right
                exact ⟨rfl, le_refl _⟩
        · simp only [if_neg hbetter]
          apply ih
          · intro hcontra
            cases hcontra
          · intro v kd ets heq
            cases heq
            push_neg at hbetter
            obtain ⟨hble, hbts⟩ := hbetter
            constructor
            · obtain ⟨node0, hmem0, hev0, hkd0, hets0⟩ := hbest.1
              exact ⟨node0, List.mem_append_left _ hmem0, hev0, hkd0, hets0⟩
            · intro p hp hpev
              rcases List.mem_append.mp hp with hp | hp
              · exact hbest.2 p hp hpev
              · simp only [List.mem_singleton] at hp
                subst hp
                rcases Nat.lt_or_ge (node.KthDistance ts) largest with hlt | hge
                · exact Or.inl hlt
                · have heq2 : node.KthDistance ts = largest := le_antisymm hble hge
                  right
                  exact ⟨heq2, hbts heq2⟩
    · simp only [evictLoop, hev, if_false]
      apply ih
      · intro h0 p hp
        rcases List.mem_append.mp hp with hp | hp
        · exact hnone h0 p hp
        · simp only [List.mem_singleton] at hp
          subst hp
          simpa using hev
      · intro v kd ets heq
        exact bestIn_append_skip (hsome v kd ets heq) (by simpa using hev)

/-- Characterization of LRUKReplacer::Evict in the source's own arithmetic:
it returns none exactly when no node is evictable, and any returned victim is
an evictable node that every evictable node loses to. -/
theorem evict_characterization (r : LRUKReplacer) :
    ((r.Evict).1 = none ↔ ∀ n ∈ r.node_store, n.Evictable = false) ∧
    (∀ f, (r.Evict).1 = some f →
      ∃ node, r.node_store.get? f = some node ∧ node.Evictable = true ∧
        ∀ j g, r.node_store.get? j = some g → g.Evictable = true →
          (g.KthDistance r.current_timestamp < node.KthDistance r.current_timestamp ∨
           (g.KthDistance r.current_timestamp = node.KthDistance r.current_timestamp ∧
            node.EarliestTimeStamp ≤ g.EarliestTimeStamp))) := by
  have hmain := evictLoop_spec r.current_timestamp (idxFrom 0 r.node_store) []
    none (fun _ _ hp => absurd hp (List.not_mem_nil _)) (fun v kd ets h => by cases h)
  simp only [List.nil_append] at hmain
  constructor
  · constructor
    · intro h n hn
      unfold LRUKReplacer.Evict at h
      rcases hloop : evictLoop r.current_timestamp (idxFrom 0 r.node_store) none with
        _ | ⟨v, kd, ets⟩
      · obtain ⟨i, hi⟩ := List.mem_iff_get?.mp hn
        have := hmain.1 hloop (i, n) (by simpa using get?_mem_idxFrom hi 0)
        exact this
      · rw [hloop] at h
        simp at h
    · intro hall
      unfold LRUKReplacer.Evict
      rcases hloop : evictLoop r.current_timestamp (idxFrom 0 r.node_store) none with
        _ | ⟨v, kd, ets⟩
      · rfl
      · exfalso
        obtain ⟨node, hmem, hev, _, _⟩ := (hmain.2 v kd ets hloop).1
        have hget := mem_idxFrom_get? hmem
        simp only [Nat.sub_zero] at hget
        have hnmem : node ∈ r.node_store := List.get?_mem hget.2
        rw [hall node hnmem] at hev
        cases hev
  · intro f hf
    unfold LRUKReplacer.Evict at hf
    rcases hloop : evictLoop r.current_timestamp (idxFrom 0 r.node_store) none with
      _ | ⟨v, kd, ets⟩
    · rw [hloop] at hf
      cases hf
    · rw [hloop] at hf
      simp only [Option.some.injEq] at hf
      subst hf
      obtain ⟨⟨node, hmem, hev, hkd, hets⟩, hall⟩ := hmain.2 v kd ets hloop
      have hget := mem_idxFrom_get? hmem
      simp only [Nat.sub_zero] at hget
      refine ⟨node, hget.2, hev, ?_⟩
      intro j g hj hgev
      have hjmem : (j, g) ∈ idxFrom 0 r.node_store := by simpa using get?_mem_idxFrom hj 0
      rcases hall (j, g) hjmem hgev with hlt | ⟨heq, hle⟩
      · have hlt2 : g.KthDistance r.current_timestamp < kd := hlt
        exact Or.inl (by omega)
      · have heq2 : g.KthDistance r.current_timestamp = kd := heq
        have hle2 : ets ≤ g.EarliestTimeStamp := hle
        exact Or.inr ⟨by omega, by omega⟩

theorem getElem?_of_get? {l : List α} {i : Nat} {a : α} (h : l.get? i = some a) :
    l[i]? = some a := by
  rw [List.get?_eq_getElem?] at h
  exact h

theorem evict_effects {r : LRUKReplacer} {f : Nat} (h : (r.Evict).1 = some f) :
    (r.Evict).2 = { r with node_store := modifyIdx LRUKNode.Evict r.node_store f,
                           curr_size := dec64 r.curr_size } := by
  unfold LRUKReplacer.Evict at h ⊢
  rcases hloop : evictLoop r.current_timestamp (idxFrom 0 r.node_store) none with
    _ | ⟨v, kd, ets⟩
  · rw [hloop] at h
    simp at h
  · rw [hloop] at h
    simp only [Option.some.injEq] at h
    subst h
    rfl

/-- Concrete single-frame replacer state used by witnesses: the state of
`LRUKReplacer::new(1, 1)` after one access to frame 0 followed by marking
frame 0 evictable. -/
def witnessReplacer : LRUKReplacer :=
  { node_store := [{ k := 1, fid := 0, history := [0], is_evictable := true, exist := true }],
    replacer_size := 1,
    k := 1,
    current_timestamp := 1,
    curr_size := 1 }

/-- C1: for every replacer state with at least one evictable node (histories of
evictable nodes nonempty and bounded by the logical clock, which is below the
sentinel — true in every reachable buffer-pool state), evict() selects among
the evictable nodes one with maximum backward k-distance at the current logical
time, where the distance is plus-infinity when the history has fewer than k
entries and otherwise T minus the oldest retained entry, and among nodes tied
at the maximum it selects one whose earliest-recorded timestamp (the oldest
retained access) is smallest. -/
theorem c1_evict_max_kdistance_oldest_tiebreak (r : LRUKReplacer)
    (hts : r.current_timestamp < SIZE_MAX)
    (hok : ∀ n ∈ r.node_store, NodeOk r.current_timestamp n)
    (hex : ∃ n ∈ r.node_store, n.Evictable = true) :
    ∃ f node, (r.Evict).1 = some f ∧ r.node_store.get? f = some node ∧
      node.Evictable = true ∧
      (∀ g ∈ r.node_store, g.Evictable = true →
        specKDistance r.current_timestamp g ≤ specKDistance r.current_timestamp node) ∧
      (∀ g ∈ r.node_store, g.Evictable = true →
        specKDistance r.current_timestamp g = specKDistance r.current_timestamp node →
        node.EarliestTimeStamp ≤ g.EarliestTimeStamp) := by
  obtain ⟨hiff, hsucc⟩ := evict_characterization r
  rcases hres : (r.Evict).1 with _ | f
  · exfalso
    obtain ⟨n, hn, hev⟩ := hex
    have hcontra := hiff.mp hres n hn
    rw [hcontra] at hev
    cases hev
  · obtain ⟨node, hget, hev, hall⟩ := hsucc f hres
    have hnodemem : node ∈ r.node_store := List.get?_mem hget
    have hnodeok := hok node hnodemem hev
    refine ⟨f, node, rfl, hget, hev, ?_, ?_⟩
    · intro g hg hgev
      obtain ⟨j, hj⟩ := List.mem_iff_get?.mp hg
      have hgok := hok g hg hgev
      rcases hall j g hj hgev with hlt | ⟨heq, _⟩
      · exact ((specKDistance_le_iff hts hnodeok hgok).1).mpr (le_of_lt hlt)
      · exact le_of_eq (((specKDistance_le_iff hts hnodeok hgok).2).mpr heq)
    · intro g hg hgev heq
      obtain ⟨j, hj⟩ := List.mem_iff_get?.mp hg
      have hgok := hok g hg hgev
      have heqn : g.KthDistance r.current_timestamp = node.KthDistance r.current_timestamp :=
        ((specKDistance_le_iff hts hnodeok hgok).2).mp heq
      rcases hall j g hj hgev with hlt | ⟨_, hle⟩
      · omega
      · exact hle

theorem c1_evict_max_kdistance_oldest_tiebreak_witness :
    witnessReplacer.current_timestamp < SIZE_MAX ∧
    (∀ n ∈ witnessReplacer.node_store, NodeOk witnessReplacer.current_timestamp n) ∧
    (∃ n ∈ witnessReplacer.node_store, n.Evictable = true) ∧
    (∃ f node, (witnessReplacer.Evict).1 = some f ∧
      witnessReplacer.node_store.get? f = some node ∧ node.Evictable = true ∧
      (∀ g ∈ witnessReplacer.node_store, g.Evictable = true →
        specKDistance witnessReplacer.current_timestamp g ≤
          specKDistance witnessReplacer.current_timestamp node) ∧
      (∀ g ∈ witnessReplacer.node_store, g.Evictable = true →
        specKDistance witnessReplacer.current_timestamp g =
          specKDistance witnessReplacer.current_timestamp node →
        node.EarliestTimeStamp ≤ g.EarliestTimeStamp)) :=
  ⟨by decide, by decide, by decide,
    c1_evict_max_kdistance_oldest_tiebreak witnessReplacer (by decide) (by decide) (by decide)⟩

/-- C2: evict() returns none exactly when no evictable node exists; whenever
some node is evictable it returns an evictable frame id, and on success it
wipes the victim's history, clears the victim's evictable flag, and decrements
the evictable count by one; in particular on a replacer with num_frames = 1 and
k = 1, after record_access(0) and set_evictable(0, true) the first evict()
returns some 0 and the next evict() returns none. -/
theorem c2_evict_none_iff_success_effects :
    (∀ r : LRUKReplacer,
      ((r.Evict).1 = none ↔ ∀ n ∈ r.node_store, n.Evictable = false)) ∧
    (∀ (r : LRUKReplacer) (f : Nat), (r.Evict).1 = some f →
      (∃ node, r.node_store.get? f = some node ∧ node.Evictable = true) ∧
      (∃ node, ((r.Evict).2).node_store.get? f = some node ∧ node.history = [] ∧
        node.Evictable = false) ∧
      ((r.Evict).2).curr_size = dec64 r.curr_size ∧
      (1 ≤ r.curr_size → r.curr_size < MOD64 →
        ((r.Evict).2).curr_size = r.curr_size - 1)) ∧
    (∃ r1 r2, (LRUKReplacer.new 1 1).RecordAccess 0 = .ok r1 ∧
      r1.SetEvictable 0 true = .ok r2 ∧
      (r2.Evict).1 = some 0 ∧ (((r2.Evict).2).Evict).1 = none) := by
  refine ⟨?_, ?_, ?_⟩
  · intro r
    exact (evict_characterization r).1
  · intro r f hf
    obtain ⟨node, hget, hev, _⟩ := (evict_characterization r).2 f hf
    have heff := evict_effects hf
    refine ⟨⟨node, hget, hev⟩, ?_, ?_, ?_⟩
    · refine ⟨node.Evict, ?_, rfl, rfl⟩
      rw [heff]
      simp only
      rw [get?_modifyIdx_self, hget]
      rfl
    · rw [heff]
    · intro h1 h2
      rw [heff]
      simp only
      exact dec64_eq_sub h1 h2
  · exact ⟨_, _, rfl, rfl, by decide, by decide⟩

theorem c2_evict_none_iff_success_effects_witness :
    ((witnessReplacer.Evict).1 = some 0) ∧
    ((∃ node, witnessReplacer.node_store.get? 0 = some node ∧ node.Evictable = true) ∧
      (∃ node, ((witnessReplacer.Evict).2).node_store.get? 0 = some node ∧
        node.history = [] ∧ node.Evictable = false) ∧
      ((witnessReplacer.Evict).2).curr_size = dec64 witnessReplacer.curr_size ∧
      (1 ≤ witnessReplacer.curr_size → witnessReplacer.curr_size < MOD64 →
        ((witnessReplacer.Evict).2).curr_size = witnessReplacer.curr_size - 1)) :=
  ⟨by decide, c2_evict_none_iff_success_effects.2.1 witnessReplacer 0 (by decide)⟩

/-- C7 counterexample: the claim that remove() fails with NotEvictable on
every in-range non-evictable node, and wipes-and-decrements on every in-range
evictable node, is false on the source. A node with no recorded access is not
present, and Remove returns silently for it: on a fresh one-frame replacer
remove(0) is a silent no-op rather than a NotEvictable failure, and after
set_evictable(0, true) with no prior access the node is in-range and evictable
yet remove(0) leaves the state (including the evictable counter 1) unchanged. -/
theorem c7_remove_counterexample :
    ((LRUKReplacer.new 1 1).Remove 0 = .ok (LRUKReplacer.new 1 1)) ∧
    (∃ r1, (LRUKReplacer.new 1 1).SetEvictable 0 true = .ok r1 ∧
      (∃ node, r1.node_store.get? 0 = some node ∧ node.Evictable = true) ∧
      r1.Remove 0 = .ok r1 ∧ r1.Size = 1) := by
  refine ⟨rfl, ⟨_, rfl, ?_, rfl, rfl⟩⟩
  exact ⟨_, rfl, rfl⟩

/-- C7 amended: remove(frame_id) is a silent no-op for every frame id outside
the range [0, num_frames) and for every in-range frame id whose node is not
present (no access recorded since the last wipe); for every in-range present
non-evictable node it fails with NotEvictable; and for every in-range present
evictable node it wipes the history, clears the evictable flag, and decrements
the evictable counter by one. -/
theorem c7_remove_amended (r : LRUKReplacer) (fid : Int) :
    ((fid < 0 ∨ r.replacer_size ≤ fid.toNat) → r.Remove fid = .ok r) ∧
    (∀ node, ¬(fid < 0 ∨ r.replacer_size ≤ fid.toNat) →
      r.node_store.get? fid.toNat = some node →
      (node.Existence = false → r.Remove fid = .ok r) ∧
      (node.Existence = true → node.Evictable = false →
        r.Remove fid = .error .NotEvictable) ∧
      (node.Existence = true → node.Evictable = true →
        ∃ r2, r.Remove fid = .ok r2 ∧
          (∃ node2, r2.node_store.get? fid.toNat = some node2 ∧ node2.history = [] ∧
            node2.Evictable = false) ∧
          r2.curr_size = dec64 r.curr_size ∧
          (1 ≤ r.curr_size → r.curr_size < MOD64 → r2.curr_size = r.curr_size - 1))) := by
  constructor
  · intro hrange
    unfold LRUKReplacer.Remove
    rw [if_pos hrange]
  · intro node hrange hget
    unfold LRUKReplacer.Remove
    rw [if_neg hrange]
    refine ⟨?_, ?_, ?_⟩
    · intro hexist
      simp [getElem?_of_get? hget, hexist]
    · intro hexist hev
      simp [getElem?_of_get? hget, hexist, hev]
    · intro hexist hev
      refine ⟨{ r with node_store := modifyIdx LRUKNode.Evict r.node_store fid.toNat,
                       curr_size := dec64 r.curr_size }, ?_, ?_, rfl, ?_⟩
      · simp [getElem?_of_get? hget, hexist, hev]
      · refine ⟨node.Evict, ?_, rfl, rfl⟩
        simp only
        rw [get?_modifyIdx_self, hget]
        rfl
      · intro h1 h2
        simp only
        exact dec64_eq_sub h1 h2

theorem c7_remove_amended_witness :
    (¬((0 : Int) < 0 ∨ witnessReplacer.replacer_size ≤ (0 : Int).toNat)) ∧
    (∃ r2, witnessReplacer.Remove 0 = .ok r2 ∧
      (∃ node2, r2.node_store.get? (0 : Int).toNat = some node2 ∧ node2.history = [] ∧
        node2.Evictable = false) ∧
      r2.curr_size = dec64 witnessReplacer.curr_size ∧
      (1 ≤ witnessReplacer.curr_size → witnessReplacer.curr_size < MOD64 →
        r2.curr_size = witnessReplacer.curr_size - 1)) :=
  ⟨by decide,
    ((c7_remove_amended witnessReplacer 0).2
      { k := 1, fid := 0, history := [0], is_evictable := true, exist := true }
      (by decide) (by decide)).2.2 (by decide) (by decide)⟩

/-- C9: set_evictable is idempotent. For every in-range frame whose node
already carries the requested flag the call returns the state unchanged, and
repeating a successful set_evictable with the same flag returns the
intermediate state unchanged; in particular two consecutive
set_evictable(f, true) calls leave size() with the same value as one call. -/
theorem c9_set_evictable_idempotent :
    (∀ (r : LRUKReplacer) (fid : Int) (b : Bool) (node : LRUKNode),
      ¬(fid < 0 ∨ r.replacer_size ≤ fid.toNat) →
      r.node_store.get? fid.toNat = some node →
      node.Evictable = b →
      r.SetEvictable fid b = .ok r) ∧
    (∀ (r r1 : LRUKReplacer) (fid : Int) (b : Bool),
      r.SetEvictable fid b = .ok r1 →
      r1.SetEvictable fid b = .ok r1) ∧
    (∀ (r r1 r2 : LRUKReplacer) (fid : Int),
      r.SetEvictable fid true = .ok r1 →
      r1.SetEvictable fid true = .ok r2 →
      r2.Size = r1.Size) := by
  have hpart1 : ∀ (r : LRUKReplacer) (fid : Int) (b : Bool) (node : LRUKNode),
      ¬(fid < 0 ∨ r.replacer_size ≤ fid.toNat) →
      r.node_store.get? fid.toNat = some node →
      node.Evictable = b →
      r.SetEvictable fid b = .ok r := by
    intro r fid b node hrange hget hflag
    unfold LRUKReplacer.SetEvictable
    rw [if_neg hrange]
    simp [getElem?_of_get? hget, hflag]
  have hpart2 : ∀ (r r1 : LRUKReplacer) (fid : Int) (b : Bool),
      r.SetEvictable fid b = .ok r1 → r1.SetEvictable fid b = .ok r1 := by
    intro r r1 fid b h
    unfold LRUKReplacer.SetEvictable at h
    by_cases hrange : fid < 0 ∨ r.replacer_size ≤ fid.toNat
    · rw [if_pos hrange] at h
      simp at h
    · rw [if_neg hrange] at h
      rcases hget : r.node_store.get? fid.toNat with _ | node
      · rw [hget] at h
        simp at h
      · simp only [hget] at h
        by_cases hflag : node.Evictable = b
        · rw [if_pos hflag] at h
          simp only [Except.ok.injEq] at h
          subst h
          exact hpart1 r fid b node hrange hget hflag
        · rw [if_neg hflag] at h
          simp only [Except.ok.injEq] at h
          subst h
          apply hpart1 _ fid b (node.SetEvictable b)
          · simpa using hrange
          · simp only
            rw [get?_modifyIdx_self, hget]
            rfl
          · rfl
  refine ⟨hpart1, hpart2, ?_⟩
  intro r r1 r2 fid h1 h2
  have h3 := hpart2 r r1 fid true h1
  rw [h3] at h2
  simp only [Except.ok.injEq] at h2
  subst h2
  rfl

/-- Concrete replacer state for the C9 witness: the state of
`LRUKReplacer::new(1, 1)` after set_evictable(0, true) with no prior access. -/
def witnessReplacerSet : LRUKReplacer :=
  { node_store := [{ k := 1, fid := 0, history := [], is_evictable := true, exist := false }],
    replacer_size := 1,
    k := 1,
    current_timestamp := 0,
    curr_size := 1 }

theorem c9_set_evictable_idempotent_witness :
    ((LRUKReplacer.new 1 1).SetEvictable 0 true = .ok witnessReplacerSet ∧
      witnessReplacerSet.SetEvictable 0 true = .ok witnessReplacerSet) := by
  constructor
  · rfl
  · exact c9_set_evictable_idempotent.2.1 (LRUKReplacer.new 1 1) witnessReplacerSet 0 true rfl

/-- Size in bytes of a page buffer (`BUSTUB_PAGE_SIZE`). -/
def BUSTUB_PAGE_SIZE : Nat := 4096

/-- Embedding of `FrameHeader`: the immutable frame id, the page-sized byte
buffer, the atomic pin count, the dirty flag and the resident page id. -/
structure FrameHeader where
  frame_id : Nat
  data : List Nat
  pin_count : Nat
  is_dirty : Bool
  page_id : Int
deriving DecidableEq, Repr

/-- FrameHeader::Reset: zero the buffer, clear the pin count and dirty flag,
and mark the frame unoccupied. -/
def FrameHeader.Reset (f : FrameHeader) : FrameHeader :=
  { f with data := List.replicate BUSTUB_PAGE_SIZE 0,
           pin_count := 0,
           is_dirty := false,
           page_id := -1 }

/-- FrameHeader::FrameHeader: a fresh header for frame `i`, reset. -/
def FrameHeader.new (i : Nat) : FrameHeader :=
  FrameHeader.Reset
    { frame_id := i, data := List.replicate BUSTUB_PAGE_SIZE 0, pin_count := 0,
      is_dirty := false, page_id := -1 }

/-- Modelled from the spec: the disk scheduler collaborator (the disk scheduler
and disk manager sources are not part of the given sources; the specification
describes only their interface). A write request persists the supplied buffer
under the page id, a read request fills the buffer from the page (zeros for a
never-written page), `increase_disk_space` infallibly ensures capacity for a
page id, and `deallocate_page` records that a page is free to reuse. -/
structure Disk where
  pages : List (Int × List Nat)
  capacity : Int
  deallocated : List Int
deriving DecidableEq, Repr

/-- Modelled from the spec: the content a synchronous read request delivers. -/
def Disk.readPage (d : Disk) (pid : Int) : List Nat :=
  (alookup pid d.pages).getD (List.replicate BUSTUB_PAGE_SIZE 0)

/-- Modelled from the spec: the effect of a synchronous write request. -/
def Disk.writePage (d : Disk) (pid : Int) (b : List Nat) : Disk :=
  { d with pages := ainsert pid b d.pages }

/-- Modelled from the spec: DiskScheduler::IncreaseDiskSpace. -/
def Disk.IncreaseDiskSpace (d : Disk) (pid : Int) : Disk :=
  { d with capacity := max d.capacity (pid + 1) }

/-- Modelled from the spec: DiskScheduler::DeallocatePage records the request. -/
def Disk.DeallocatePage (d : Disk) (pid : Int) : Disk :=
  { d with deallocated := pid :: d.deallocated }

/-- Modelled from the spec: the next-page counter is a
`std::atomic<page_id_t>`; `page_id_t` itself is defined in common/config.h,
which is not among the given sources, as BusTub's 32-bit signed page id type.
Atomic post-increment of a signed integral type wraps with defined
two's-complement semantics at that width, rendered by mapping into
[-2147483648, 2147483648). -/
def wrap32 (x : Int) : Int := (x + 2147483648) % 4294967296 - 2147483648

theorem wrap32_eq_self {x : Int} (h1 : -2147483648 ≤ x) (h2 : x < 2147483648) :
    wrap32 x = x := by
  unfold wrap32
  omega

/-- Embedding of `BufferPoolManager`: the fixed frame array, the page table,
the free-frame list (back = most recently freed), the replacer, the atomic
next-page counter and the disk collaborator. -/
structure BufferPoolManager where
  num_frames : Nat
  next_page_id : Int
  frames : List FrameHeader
  page_table : List (Int × Nat)
  free_frames : List Nat
  replacer : LRUKReplacer
  disk : Disk
deriving DecidableEq, Repr

/-- BufferPoolManager::BufferPoolManager: all frame headers initialized, the
free list filled with every frame id in order, the replacer preallocated. -/
def BufferPoolManager.new (num_frames k_dist : Nat) : BufferPoolManager :=
  { num_frames := num_frames,
    next_page_id := 0,
    frames := (List.range num_frames).map FrameHeader.new,
    page_table := [],
    free_frames := List.range num_frames,
    replacer := LRUKReplacer.new num_frames k_dist,
    disk := { pages := [], capacity := 0, deallocated := [] } }

/-- BufferPoolManager::Size. -/
def BufferPoolManager.Size (st : BufferPoolManager) : Nat := st.num_frames

/-- BufferPoolManager::NewPage: ask the scheduler for capacity at the counter
value, then return the counter post-incrementing it; the atomic
post-increment of the page_id_t counter wraps two's-complement at its width.
Cannot fail. -/
def BufferPoolManager.NewPage (st : BufferPoolManager) : Int × BufferPoolManager :=
  (st.next_page_id,
   { st with disk := st.disk.IncreaseDiskSpace st.next_page_id,
             next_page_id := wrap32 (st.next_page_id + 1) })

/-- BufferPoolManager::GetFrame: page-table lookup. The source returns the
frame header pointer; the embedding returns the frame id indexing `frames`. -/
def BufferPoolManager.GetFrame (st : BufferPoolManager) (page_id : Int) : Option Nat :=
  alookup page_id st.page_table

/-- BufferPoolManager::GetFreeFrame: pop the back of the free list. -/
def BufferPoolManager.GetFreeFrame (st : BufferPoolManager) :
    Option (Nat × BufferPoolManager) :=
  match st.free_frames.getLast? with
  | none => none
  | some fid => some (fid, { st with free_frames := st.free_frames.dropLast })

/-- BufferPoolManager::FlushPage: false when the page is not resident,
otherwise synchronously write the frame buffer to disk and clear the dirty
flag. BUSTUB_ENSURE aborts the process when the frame's recorded page id
differs from the looked-up one; the embedding returns `none` for an abort. -/
def BufferPoolManager.FlushPage (st : BufferPoolManager) (page_id : Int) :
    Option (Bool × BufferPoolManager) :=
  match alookup page_id st.page_table with
  | none => some (false, st)
  | some fid =>
    match st.frames.get? fid with
    | none => none
    | some frame =>
      if frame.page_id = page_id then
        some (true, { st with
          disk := st.disk.writePage page_id frame.data,
          frames := modifyIdx (fun f => { f with is_dirty := false }) st.frames fid })
      else none

/-- BufferPoolManager::SwapIn: synchronously read the page from disk into the
frame buffer, then move the page-table binding from the frame's old page to
the new one. BUSTUB_ENSURE aborts on a negative page id (`none`). -/
def BufferPoolManager.SwapIn (st : BufferPoolManager) (page_id : Int) (fid : Nat) :
    Option BufferPoolManager :=
  if page_id < 0 then none
  else
    match st.frames.get? fid with
    | none => none
    | some frame =>
      some { st with
        frames := modifyIdx (fun f => { f with data := st.disk.readPage page_id })
          st.frames fid,
        page_table := ainsert page_id fid (aerase frame.page_id st.page_table) }

/-- BufferPoolManager::PinFrame: bump the pin count, set the page id, set the
dirty flag when requested, mark the frame non-evictable and record an access.
A replacer exception (only possible for an out-of-range frame id) is an
abort (`none`). -/
def BufferPoolManager.PinFrame (st : BufferPoolManager) (fid : Nat) (page_id : Int)
    (is_dirty : Bool) : Option BufferPoolManager :=
  match st.replacer.SetEvictable (fid : Int) false with
  | .error _ => none
  | .ok r1 =>
    match r1.RecordAccess (fid : Int) with
    | .error _ => none
    | .ok r2 =>
      some { st with
        frames := modifyIdx (fun f =>
          { f with pin_count := inc64 f.pin_count, page_id := page_id,
                   is_dirty := f.is_dirty || is_dirty }) st.frames fid,
        replacer := r2 }

/-- BufferPoolManager::FindFreeOrEvict: prefer a free frame, otherwise ask the
replacer to evict; `none` when out of memory (all frames pinned). -/
def BufferPoolManager.FindFreeOrEvict (st : BufferPoolManager) :
    Option (Nat × BufferPoolManager) :=
  match st.GetFreeFrame with
  | some (fid, st1) => some (fid, st1)
  | none =>
    match st.replacer.Evict with
    | (some fid, r1) => some (fid, { st with replacer := r1 })
    | (none, _) => none

/-- BufferPoolManager::CheckedWritePage: pin on hit; on a miss find a free or
evicted frame, flush it first when dirty, swap the page in, and pin it dirty.
The outer `none` models an abort inside the call (BUSTUB_ENSURE or an escaped
replacer exception); the inner `none` is the out-of-memory result. On success
the returned frame id stands for the issued WritePageGuard. -/
def BufferPoolManager.CheckedWritePage (st : BufferPoolManager) (page_id : Int) :
    Option (Option (Nat × BufferPoolManager)) :=
  match st.GetFrame page_id with
  | some fid =>
    match st.PinFrame fid page_id true with
    | none => none
    | some st1 => some (some (fid, st1))
  | none =>
    match st.FindFreeOrEvict with
    | none => some none
    | some (fid, st1) =>
      match st1.frames.get? fid with
      | none => none
      | some frame =>
        match (if frame.is_dirty then
                 (st1.FlushPage frame.page_id).map (fun x => x.2)
               else some st1) with
        | none => none
        | some st2 =>
          match st2.SwapIn page_id fid with
          | none => none
          | some st3 =>
            match st3.PinFrame fid page_id true with
            | none => none
            | some st4 => some (some (fid, st4))

/-- BufferPoolManager::CheckedReadPage: identical to CheckedWritePage except
that pinning does not set the dirty flag. -/
def BufferPoolManager.CheckedReadPage (st : BufferPoolManager) (page_id : Int) :
    Option (Option (Nat × BufferPoolManager)) :=
  match st.GetFrame page_id with
  | some fid =>
    match st.PinFrame fid page_id false with
    | none => none
    | some st1 => some (some (fid, st1))
  | none =>
    match st.FindFreeOrEvict with
    | none => some none
    | some (fid, st1) =>
      match st1.frames.get? fid with
      | none => none
      | some frame =>
        match (if frame.is_dirty then
                 (st1.FlushPage frame.page_id).map (fun x => x.2)
               else some st1) with
        | none => none
        | some st2 =>
          match st2.SwapIn page_id fid with
          | none => none
          | some st3 =>
            match st3.PinFrame fid page_id false with
            | none => none
            | some st4 => some (some (fid, st4))

/-- BufferPoolManager::DeletePage: true and unchanged when not resident; false
and unchanged when resident and pinned; otherwise flush when dirty, return the
frame to the free list, ask the scheduler to deallocate, remove the frame from
the replacer, erase the page-table entry and reset the header. An escaped
replacer exception or BUSTUB_ENSURE abort is `none`. -/
def BufferPoolManager.DeletePage (st : BufferPoolManager) (page_id : Int) :
    Option (Bool × BufferPoolManager) :=
  match st.GetFrame page_id with
  | none => some (true, st)
  | some fid =>
    match st.frames.get? fid with
    | none => none
    | some frame =>
      if frame.pin_count ≠ 0 then some (false, st)
      else
        match (if frame.is_dirty then
                 (st.FlushPage frame.page_id).map (fun x => x.2)
               else some st) with
        | none => none
        | some st1 =>
          let st2 := { st1 with
            free_frames := st1.free_frames ++ [frame.frame_id],
            disk := st1.disk.DeallocatePage page_id }
          match st2.replacer.Remove (frame.frame_id : Int) with
          | .error _ => none
          | .ok r1 =>
            some (true, { st2 with
              replacer := r1,
              page_table := aerase page_id st2.page_table,
              frames := modifyIdx FrameHeader.Reset st2.frames fid })

/-- BufferPoolManager::FlushAllPages: the source body is
`UNIMPLEMENTED("TODO(P1): Add implementation.")`, which aborts the process
unconditionally, so the embedding never produces a successor state. -/
def BufferPoolManager.FlushAllPages (_ : BufferPoolManager) :
    Option BufferPoolManager :=
  none

/-- BufferPoolManager::GetPinCount: `none` when not resident, otherwise the
frame's pin count. -/
def BufferPoolManager.GetPinCount (st : BufferPoolManager) (page_id : Int) :
    Option Nat :=
  match alookup page_id st.page_table with
  | none => none
  | some fid => (st.frames.get? fid).map (fun f => f.pin_count)

/-- Modelled from the spec: dropping a page guard (the page-guard sources are
not part of the given sources; section 4.3.2 of the specification describes
the drop). Under the pool lock the drop decrements the pin count and, when it
reaches zero, marks the frame evictable in the replacer. A live guard pins its
page, so the page is resident with a positive pin count at the drop; the
other branches keep the state unchanged so that traces stay total. -/
def BufferPoolManager.DropGuard (st : BufferPoolManager) (page_id : Int) :
    Option BufferPoolManager :=
  match alookup page_id st.page_table with
  | none => some st
  | some fid =>
    match st.frames.get? fid with
    | none => none
    | some frame =>
      if frame.pin_count = 0 then some st
      else
        if frame.pin_count - 1 = 0 then
          match st.replacer.SetEvictable (fid : Int) true with
          | .error _ => none
          | .ok r1 =>
            some { st with
              frames := modifyIdx (fun f => { f with pin_count := f.pin_count - 1 })
                st.frames fid,
              replacer := r1 }
        else
          some { st with
            frames := modifyIdx (fun f => { f with pin_count := f.pin_count - 1 })
              st.frames fid }

/-- Modelled from the spec: writing bytes through a held WriteGuard replaces
the pinned frame's buffer contents. A no-op when the page is not resident, a
situation in which no guard can be held. -/
def BufferPoolManager.WriteData (st : BufferPoolManager) (page_id : Int)
    (b : List Nat) : BufferPoolManager :=
  match alookup page_id st.page_table with
  | none => st
  | some fid =>
    { st with frames := modifyIdx (fun f => { f with data := b }) st.frames fid }

/-- One buffer-pool operation in the sequential interleaving model: the public
API calls together with the guard-level actions (writing through a guard and
dropping a guard). -/
inductive BPMOp where
  | newPage
  | checkedReadPage (page_id : Int)
  | checkedWritePage (page_id : Int)
  | writeData (page_id : Int) (bytes : List Nat)
  | dropGuard (page_id : Int)
  | flushPage (page_id : Int)
  | deletePage (page_id : Int)
deriving DecidableEq, Repr

/-- Effect of one operation on the pool state; `none` is an aborted execution.
A failed acquisition (out of memory) and a failed delete leave the state
unchanged. -/
def step (st : BufferPoolManager) : BPMOp → Option BufferPoolManager
  | .newPage => some (st.NewPage).2
  | .checkedReadPage pid =>
    match st.CheckedReadPage pid with
    | none => none
    | some none => some st
    | some (some (_, st1)) => some st1
  | .checkedWritePage pid =>
    match st.CheckedWritePage pid with
    | none => none
    | some none => some st
    | some (some (_, st1)) => some st1
  | .writeData pid b => some (st.WriteData pid b)
  | .dropGuard pid => st.DropGuard pid
  | .flushPage pid =>
    match st.FlushPage pid with
    | none => none
    | some (_, st1) => some st1
  | .deletePage pid =>
    match st.DeletePage pid with
    | none => none
    | some (_, st1) => some st1

/-- Run a sequence of operations from a state. -/
def runOps (st : BufferPoolManager) : List BPMOp → Option BufferPoolManager
  | [] => some st
  | op :: rest =>
    match step st op with
    | none => none
    | some st1 => runOps st1 rest

theorem getLast?_none_iff (l : List α) : l.getLast? = none ↔ l = [] :=
  List.getLast?_eq_none_iff

theorem mem_of_getLast?_some : ∀ {l : List α} {a : α}, l.getLast? = some a → a ∈ l
  | [], _, h => by cases h
  | [x], a, h => by
    simp [List.getLast?] at h
    simp [h]
  | x :: y :: rest, a, h => by
    rw [List.getLast?_cons_cons] at h
    exact List.mem_cons_of_mem x (mem_of_getLast?_some h)

theorem mem_of_mem_dropLast {l : List α} {a : α} (h : a ∈ l.dropLast) : a ∈ l :=
  List.dropLast_subset l h

theorem nodup_dropLast {l : List α} (h : l.Nodup) : l.dropLast.Nodup :=
  (List.dropLast_sublist l).nodup h

theorem getLast_not_mem_dropLast :
    ∀ {l : List α}, l.Nodup → ∀ {a : α}, l.getLast? = some a → a ∉ l.dropLast
  | [], _, _, h => by cases h
  | [x], _, a, h => by simp
  | x :: y :: rest, hnd, a, h => by
    rw [List.getLast?_cons_cons] at h
    intro hmem
    rw [List.dropLast_cons₂] at hmem
    rcases List.mem_cons.mp hmem with hax | hmem2
    · subst hax
      exact (List.nodup_cons.mp hnd).1 (mem_of_getLast?_some h)
    · exact getLast_not_mem_dropLast (List.nodup_cons.mp hnd).2 h hmem2

theorem aerase_of_alookup_none {q : Int} :
    ∀ {l : List (Int × β)}, alookup q l = none → aerase q l = l
  | [], _ => rfl
  | (k, v) :: rest, h => by
    simp only [alookup] at h
    by_cases hk : k = q
    · rw [if_pos hk] at h
      cases h
    · rw [if_neg hk] at h
      simp only [aerase, if_neg hk]
      rw [aerase_of_alookup_none h]

theorem coe_nat_range_not {n fid : Nat} (h : fid < n) :
    ¬((fid : Int) < 0 ∨ n ≤ (fid : Int).toNat) := by
  simp [Int.toNat_ofNat]
  omega

theorem coe_nat_range_lt {n fid : Nat}
    (h : ¬((fid : Int) < 0 ∨ n ≤ (fid : Int).toNat)) : fid < n := by
  simp [Int.toNat_ofNat] at h
  omega

/-- Helper: setting the evictable flag to its current value is the identity. -/
theorem setEvictable_self {node : LRUKNode} {b : Bool} (h : node.Evictable = b) :
    node.SetEvictable b = node := by
  cases node
  simp only [LRUKNode.Evictable] at h
  simp [LRUKNode.SetEvictable, h]

/-- Characterization of a successful LRUKReplacer::SetEvictable call. -/
theorem setEvictable_ok_cases {r r1 : LRUKReplacer} {fid : Nat} {b : Bool}
    (h : r.SetEvictable (fid : Int) b = .ok r1) :
    fid < r.replacer_size ∧
    ∃ node, r.node_store.get? fid = some node ∧
      r1.replacer_size = r.replacer_size ∧
      r1.k = r.k ∧
      r1.current_timestamp = r.current_timestamp ∧
      r1.node_store.length = r.node_store.length ∧
      r1.node_store.get? fid = some (node.SetEvictable b) ∧
      (∀ j, j ≠ fid → r1.node_store.get? j = r.node_store.get? j) := by
  unfold LRUKReplacer.SetEvictable at h
  by_cases hrange : (fid : Int) < 0 ∨ r.replacer_size ≤ (fid : Int).toNat
  · rw [if_pos hrange] at h
    cases h
  · rw [if_neg hrange] at h
    refine ⟨coe_nat_range_lt hrange, ?_⟩
    have htn : ((fid : Int)).toNat = fid := Int.toNat_ofNat fid
    rw [htn] at h
    rcases hget : r.node_store.get? fid with _ | node
    · rw [hget] at h
      cases h
    · rw [hget] at h
      simp only at h
      by_cases hflag : node.Evictable = b
      · rw [if_pos hflag] at h
        simp only [Except.ok.injEq] at h
        subst h
        refine ⟨node, rfl, rfl, rfl, rfl, rfl, ?_, fun j _ => rfl⟩
        rw [hget, setEvictable_self hflag]
      · rw [if_neg hflag] at h
        simp only [Except.ok.injEq] at h
        subst h
        refine ⟨node, rfl, rfl, rfl, rfl, length_modifyIdx _ _ _, ?_, ?_⟩
        · simp only
          rw [get?_modifyIdx_self, hget]
          rfl
        · intro j hj
          simp only
          exact get?_modifyIdx_ne _ _ (fun hh => hj hh.symm)

/-- Characterization of a successful LRUKReplacer::RecordAccess call. -/
theorem recordAccess_ok_cases {r r1 : LRUKReplacer} {fid : Nat}
    (h : r.RecordAccess (fid : Int) = .ok r1) :
    fid < r.replacer_size ∧
    r1.replacer_size = r.replacer_size ∧
    r1.k = r.k ∧
    r1.current_timestamp = inc64 r.current_timestamp ∧
    r1.curr_size = r.curr_size ∧
    r1.node_store.length = r.node_store.length ∧
    (∀ node, r.node_store.get? fid = some node →
      r1.node_store.get? fid = some (node.Access r.current_timestamp)) ∧
    (∀ j, j ≠ fid → r1.node_store.get? j = r.node_store.get? j) := by
  unfold LRUKReplacer.RecordAccess at h
  by_cases hrange : (fid : Int) < 0 ∨ r.replacer_size ≤ (fid : Int).toNat
  · rw [if_pos hrange] at h
    cases h
  · rw [if_neg hrange] at h
    simp only [Except.ok.injEq] at h
    subst h
    have htn : ((fid : Int)).toNat = fid := Int.toNat_ofNat fid
    rw [htn]
    refine ⟨coe_nat_range_lt hrange, rfl, rfl, rfl, rfl, length_modifyIdx _ _ _, ?_, ?_⟩
    · intro node hget
      rw [get?_modifyIdx_self, hget]
      rfl
    · intro j hj
      exact get?_modifyIdx_ne _ _ (fun hh => hj hh.symm)

/-- Characterization of a successful LRUKReplacer::Remove call. -/
theorem remove_ok_cases {r r1 : LRUKReplacer} {fid : Nat}
    (h : r.Remove (fid : Int) = .ok r1) :
    (r.replacer_size ≤ fid ∧ r1 = r) ∨
    (fid < r.replacer_size ∧
      ∃ node, r.node_store.get? fid = some node ∧
        ((node.Existence = false ∧ r1 = r) ∨
         (node.Existence = true ∧ node.Evictable = true ∧
           r1.replacer_size = r.replacer_size ∧
           r1.k = r.k ∧
           r1.current_timestamp = r.current_timestamp ∧
           r1.curr_size = dec64 r.curr_size ∧
           r1.node_store.length = r.node_store.length ∧
           r1.node_store.get? fid = some node.Evict ∧
           (∀ j, j ≠ fid → r1.node_store.get? j = r.node_store.get? j)))) := by
  unfold LRUKReplacer.Remove at h
  have htn : ((fid : Int)).toNat = fid := Int.toNat_ofNat fid
  by_cases hrange : (fid : Int) < 0 ∨ r.replacer_size ≤ (fid : Int).toNat
  · rw [if_pos hrange] at h
    simp only [Except.ok.injEq] at h
    subst h
    rcases hrange with hneg | hle
    · exact absurd hneg (by simp)
    · rw [htn] at hle
      exact Or.inl ⟨hle, rfl⟩
  · rw [if_neg hrange] at h
    rw [htn] at h
    refine Or.inr ⟨coe_nat_range_lt hrange, ?_⟩
    rcases hget : r.node_store.get? fid with _ | node
    · rw [hget] at h
      cases h
    · rw [hget] at h
      simp only at h
      by_cases hexist : node.Existence = false
      · rw [if_pos hexist] at h
        simp only [Except.ok.injEq] at h
        subst h
        exact ⟨node, rfl, Or.inl ⟨hexist, rfl⟩⟩
      · rw [if_neg hexist] at h
        by_cases hev : node.Evictable = false
        · rw [if_pos hev] at h
          cases h
        · rw [if_neg hev] at h
          simp only [Except.ok.injEq] at h
          subst h
          refine ⟨node, rfl, Or.inr ⟨by simpa using hexist, by simpa using hev,
            rfl, rfl, rfl, rfl, length_modifyIdx _ _ _, ?_, ?_⟩⟩
          · simp only
            rw [get?_modifyIdx_self, hget]
            rfl
          · intro j hj
            simp only
            exact get?_modifyIdx_ne _ _ (fun hh => hj hh.symm)

/-- Common body of CheckedWritePage and CheckedReadPage, with the pin-time
dirty flag as a parameter; the two public functions are definitionally equal
to its two instances (see the equations below). -/
def BufferPoolManager.AcquirePage (st : BufferPoolManager) (page_id : Int)
    (dirty : Bool) : Option (Option (Nat × BufferPoolManager)) :=
  match st.GetFrame page_id with
  | some fid =>
    match st.PinFrame fid page_id dirty with
    | none => none
    | some st1 => some (some (fid, st1))
  | none =>
    match st.FindFreeOrEvict with
    | none => some none
    | some (fid, st1) =>
      match st1.frames.get? fid with
      | none => none
      | some frame =>
        match (if frame.is_dirty then
                 (st1.FlushPage frame.page_id).map (fun x => x.2)
               else some st1) with
        | none => none
        | some st2 =>
          match st2.SwapIn page_id fid with
          | none => none
          | some st3 =>
            match st3.PinFrame fid page_id dirty with
            | none => none
            | some st4 => some (some (fid, st4))

theorem checkedWritePage_eq_acquire (st : BufferPoolManager) (pid : Int) :
    st.CheckedWritePage pid = st.AcquirePage pid true := rfl

theorem checkedReadPage_eq_acquire (st : BufferPoolManager) (pid : Int) :
    st.CheckedReadPage pid = st.AcquirePage pid false := rfl

theorem lt_length_of_get?_some {l : List α} {i : Nat} {a : α}
    (h : l.get? i = some a) : i < l.length := by
  by_contra hc
  rw [List.get?_eq_none.mpr (by omega)] at h
  cases h

/-- Characterization of a successful PinFrame. -/
theorem pinFrame_success {st : BufferPoolManager} {fid : Nat} {pid : Int}
    {dirty : Bool} {st1 : BufferPoolManager}
    (h : st.PinFrame fid pid dirty = some st1) :
    ∃ node, st.replacer.node_store.get? fid = some node ∧
      fid < st.replacer.replacer_size ∧
      st1.num_frames = st.num_frames ∧
      st1.next_page_id = st.next_page_id ∧
      st1.page_table = st.page_table ∧
      st1.free_frames = st.free_frames ∧
      st1.disk = st.disk ∧
      st1.frames = modifyIdx (fun f =>
        { f with pin_count := inc64 f.pin_count, page_id := pid,
                 is_dirty := f.is_dirty || dirty }) st.frames fid ∧
      st1.replacer.replacer_size = st.replacer.replacer_size ∧
      st1.replacer.node_store.length = st.replacer.node_store.length ∧
      st1.replacer.node_store.get? fid =
        some ((node.SetEvictable false).Access st.replacer.current_timestamp) ∧
      (∀ j, j ≠ fid → st1.replacer.node_store.get? j = st.replacer.node_store.get? j) := by
  unfold BufferPoolManager.PinFrame at h
  rcases hse : st.replacer.SetEvictable (fid : Int) false with _ | r1
  · rw [hse] at h
    cases h
  · rw [hse] at h
    simp only at h
    rcases hra : r1.RecordAccess (fid : Int) with _ | r2
    · rw [hra] at h
      cases h
    · rw [hra] at h
      simp only [Option.some.injEq] at h
      subst h
      obtain ⟨hlt, node, hget, hsz, hk, hts, hlen, hat, hother⟩ := setEvictable_ok_cases hse
      obtain ⟨hlt2, hsz2, hk2, hts2, hcs2, hlen2, hat2, hother2⟩ := recordAccess_ok_cases hra
      refine ⟨node, hget, hlt, rfl, rfl, rfl, rfl, rfl, rfl, ?_, ?_, ?_, ?_⟩
      · rw [hsz2, hsz]
      · rw [hlen2, hlen]
      · have := hat2 _ hat
        rw [this, hts]
      · intro j hj
        rw [hother2 j hj, hother j hj]

/-- Characterization of a successful FindFreeOrEvict. -/
theorem findFreeOrEvict_success {st : BufferPoolManager} {fid : Nat}
    {st1 : BufferPoolManager} (h : st.FindFreeOrEvict = some (fid, st1)) :
    (st.free_frames.getLast? = some fid ∧
      st1 = { st with free_frames := st.free_frames.dropLast }) ∨
    (st.free_frames = [] ∧ (st.replacer.Evict).1 = some fid ∧
      st1 = { st with replacer := (st.replacer.Evict).2 }) := by
  unfold BufferPoolManager.FindFreeOrEvict BufferPoolManager.GetFreeFrame at h
  rcases hlast : st.free_frames.getLast? with _ | f0
  · rw [hlast] at h
    simp only at h
    rcases hev : st.replacer.Evict with ⟨ofid, r1⟩
    rw [hev] at h
    rcases ofid with _ | v
    · simp at h
    · simp only [Option.some.injEq, Prod.mk.injEq] at h
      obtain ⟨h1, h2⟩ := h
      subst h1
      right
      exact ⟨(getLast?_none_iff _).mp hlast, rfl, h2.symm⟩
  · rw [hlast] at h
    simp only [Option.some.injEq, Prod.mk.injEq] at h
    obtain ⟨h1, h2⟩ := h
    subst h1
    left
    exact ⟨rfl, h2.symm⟩

/-- A failed FindFreeOrEvict means the free list is empty and eviction found
no victim. -/
theorem findFreeOrEvict_none {st : BufferPoolManager} (h : st.FindFreeOrEvict = none) :
    st.free_frames = [] ∧ (st.replacer.Evict).1 = none := by
  unfold BufferPoolManager.FindFreeOrEvict BufferPoolManager.GetFreeFrame at h
  rcases hlast : st.free_frames.getLast? with _ | f0
  · rw [hlast] at h
    simp only at h
    rcases hev : st.replacer.Evict with ⟨ofid, r1⟩
    rw [hev] at h
    rcases ofid with _ | v
    · exact ⟨(getLast?_none_iff _).mp hlast, rfl⟩
    · simp at h
  · rw [hlast] at h
    simp at h

/-- Characterization of a successful FlushPage. -/
theorem flushPage_success {st : BufferPoolManager} {q : Int} {b : Bool}
    {st1 : BufferPoolManager} (h : st.FlushPage q = some (b, st1)) :
    (b = false ∧ alookup q st.page_table = none ∧ st1 = st) ∨
    (b = true ∧ ∃ fid frame, alookup q st.page_table = some fid ∧
      st.frames.get? fid = some frame ∧ frame.page_id = q ∧
      st1 = { st with disk := st.disk.writePage q frame.data,
                      frames := modifyIdx (fun f => { f with is_dirty := false })
                        st.frames fid }) := by
  unfold BufferPoolManager.FlushPage at h
  rcases hq : alookup q st.page_table with _ | fid
  · rw [hq] at h
    simp only [Option.some.injEq, Prod.mk.injEq] at h
    exact Or.inl ⟨h.1.symm, rfl, h.2.symm⟩
  · rw [hq] at h
    simp only at h
    rcases hf : st.frames.get? fid with _ | frame
    · rw [hf] at h
      cases h
    · rw [hf] at h
      simp only at h
      by_cases hpid : frame.page_id = q
      · rw [if_pos hpid] at h
        simp only [Option.some.injEq, Prod.mk.injEq] at h
        exact Or.inr ⟨h.1.symm, fid, frame, rfl, hf, hpid, h.2.symm⟩
      · rw [if_neg hpid] at h
        cases h

/-- Characterization of a successful SwapIn. -/
theorem swapIn_success {st : BufferPoolManager} {pid : Int} {fid : Nat}
    {st1 : BufferPoolManager} (h : st.SwapIn pid fid = some st1) :
    0 ≤ pid ∧ ∃ frame, st.frames.get? fid = some frame ∧
      st1 = { st with
        frames := modifyIdx (fun f => { f with data := st.disk.readPage pid })
          st.frames fid,
        page_table := ainsert pid fid (aerase frame.page_id st.page_table) } := by
  unfold BufferPoolManager.SwapIn at h
  by_cases hneg : pid < 0
  · rw [if_pos hneg] at h
    cases h
  · rw [if_neg hneg] at h
    rcases hf : st.frames.get? fid with _ | frame
    · rw [hf] at h
      cases h
    · rw [hf] at h
      simp only [Option.some.injEq] at h
      exact ⟨by omega, frame, rfl, h.symm⟩

/-- Characterization of a successful DropGuard. -/
theorem dropGuard_success {st : BufferPoolManager} {pid : Int}
    {st1 : BufferPoolManager} (h : st.DropGuard pid = some st1) :
    (alookup pid st.page_table = none ∧ st1 = st) ∨
    (∃ fid frame, alookup pid st.page_table = some fid ∧
      st.frames.get? fid = some frame ∧
      ((frame.pin_count = 0 ∧ st1 = st) ∨
       (frame.pin_count ≠ 0 ∧
         st1.frames = modifyIdx (fun f => { f with pin_count := f.pin_count - 1 })
           st.frames fid ∧
         st1.page_table = st.page_table ∧
         st1.free_frames = st.free_frames ∧
         st1.disk = st.disk ∧
         st1.num_frames = st.num_frames ∧
         st1.next_page_id = st.next_page_id ∧
         ((frame.pin_count - 1 ≠ 0 ∧ st1.replacer = st.replacer) ∨
          (frame.pin_count - 1 = 0 ∧
            ∃ node, st.replacer.node_store.get? fid = some node ∧
              fid < st.replacer.replacer_size ∧
              st1.replacer.replacer_size = st.replacer.replacer_size ∧
              st1.replacer.node_store.length = st.replacer.node_store.length ∧
              st1.replacer.current_timestamp = st.replacer.current_timestamp ∧
              st1.replacer.node_store.get? fid = some (node.SetEvictable true) ∧
              (∀ j, j ≠ fid →
                st1.replacer.node_store.get? j = st.replacer.node_store.get? j)))))) := by
  unfold BufferPoolManager.DropGuard at h
  rcases hq : alookup pid st.page_table with _ | fid
  · rw [hq] at h
    simp only [Option.some.injEq] at h
    exact Or.inl ⟨rfl, h.symm⟩
  · rw [hq] at h
    simp only at h
    rcases hf : st.frames.get? fid with _ | frame
    · rw [hf] at h
      cases h
    · rw [hf] at h
      simp only at h
      by_cases hpin : frame.pin_count = 0
      · rw [if_pos hpin] at h
        simp only [Option.some.injEq] at h
        exact Or.inr ⟨fid, frame, rfl, hf, Or.inl ⟨hpin, h.symm⟩⟩
      · rw [if_neg hpin] at h
        by_cases hpin1 : frame.pin_count - 1 = 0
        · rw [if_pos hpin1] at h
          rcases hse : st.replacer.SetEvictable (fid : Int) true with _ | r1
          · rw [hse] at h
            cases h
          · rw [hse] at h
            simp only [Option.some.injEq] at h
            subst h
            obtain ⟨hlt, node, hget, hsz, hk, hts, hlen, hat, hother⟩ :=
              setEvictable_ok_cases hse
            exact Or.inr ⟨fid, frame, rfl, hf, Or.inr ⟨hpin, rfl, rfl, rfl, rfl, rfl, rfl,
              Or.inr ⟨hpin1, node, hget, hlt, hsz, hlen, hts, hat, hother⟩⟩⟩
        · rw [if_neg hpin1] at h
          simp only [Option.some.injEq] at h
          subst h
          exact Or.inr ⟨fid, frame, rfl, hf, Or.inr ⟨hpin, rfl, rfl, rfl, rfl, rfl, rfl,
            Or.inl ⟨hpin1, rfl⟩⟩⟩

/-- Characterization of a successful DeletePage. -/
theorem deletePage_success {st : BufferPoolManager} {pid : Int} {b : Bool}
    {st1 : BufferPoolManager} (h : st.DeletePage pid = some (b, st1)) :
    (b = true ∧ alookup pid st.page_table = none ∧ st1 = st) ∨
    (∃ fid frame, alookup pid st.page_table = some fid ∧
      st.frames.get? fid = some frame ∧
      ((b = false ∧ frame.pin_count ≠ 0 ∧ st1 = st) ∨
       (b = true ∧ frame.pin_count = 0 ∧
         ∃ stf,
           ((frame.is_dirty = false ∧ stf = st) ∨
            (frame.is_dirty = true ∧ ∃ bb, st.FlushPage frame.page_id = some (bb, stf))) ∧
           ∃ r1, stf.replacer.Remove (frame.frame_id : Int) = .ok r1 ∧
             st1 = { stf with
               free_frames := stf.free_frames ++ [frame.frame_id],
               disk := stf.disk.DeallocatePage pid,
               replacer := r1,
               page_table := aerase pid stf.page_table,
               frames := modifyIdx FrameHeader.Reset stf.frames fid }))) := by
  unfold BufferPoolManager.DeletePage BufferPoolManager.GetFrame at h
  rcases hq : alookup pid st.page_table with _ | fid
  · rw [hq] at h
    simp only [Option.some.injEq, Prod.mk.injEq] at h
    exact Or.inl ⟨h.1.symm, rfl, h.2.symm⟩
  · rw [hq] at h
    simp only at h
    rcases hf : st.frames.get? fid with _ | frame
    · rw [hf] at h
      cases h
    · rw [hf] at h
      simp only at h
      by_cases hpin : frame.pin_count ≠ 0
      · rw [if_pos hpin] at h
        simp only [Option.some.injEq, Prod.mk.injEq] at h
        exact Or.inr ⟨fid, frame, rfl, hf, Or.inl ⟨h.1.symm, hpin, h.2.symm⟩⟩
      · rw [if_neg hpin] at h
        push_neg at hpin
        by_cases hdirty : frame.is_dirty
        · rw [if_pos hdirty] at h
          rcases hfl : st.FlushPage frame.page_id with _ | bst
          · rw [hfl] at h
            cases h
          · obtain ⟨bb, stf⟩ := bst
            rw [hfl] at h
            simp only [Option.map_some'] at h
            rcases hrm : stf.replacer.Remove (frame.frame_id : Int) with _ | r1
            · rw [hrm] at h
              cases h
            · rw [hrm] at h
              simp only [Option.some.injEq, Prod.mk.injEq] at h
              exact Or.inr ⟨fid, frame, rfl, hf, Or.inr ⟨h.1.symm, hpin, stf,
                Or.inr ⟨hdirty, bb, hfl⟩, r1, hrm, h.2.symm⟩⟩
        · rw [if_neg hdirty] at h
          simp only at h
          rcases hrm : st.replacer.Remove (frame.frame_id : Int) with _ | r1
          · rw [hrm] at h
            cases h
          · rw [hrm] at h
            simp only [Option.some.injEq, Prod.mk.injEq] at h
            exact Or.inr ⟨fid, frame, rfl, hf, Or.inr ⟨h.1.symm, hpin, st,
              Or.inl ⟨by simpa using hdirty, rfl⟩, r1, hrm, h.2.symm⟩⟩

/-- Characterization of a successful acquisition (shared by CheckedWritePage
and CheckedReadPage through AcquirePage). -/
theorem acquire_success_cases {st : BufferPoolManager} {pid : Int} {dirty : Bool}
    {fid : Nat} {st4 : BufferPoolManager}
    (h : st.AcquirePage pid dirty = some (some (fid, st4))) :
    (alookup pid st.page_table = some fid ∧ st.PinFrame fid pid dirty = some st4) ∨
    (alookup pid st.page_table = none ∧
      ∃ st1 frame st2 st3,
        st.FindFreeOrEvict = some (fid, st1) ∧
        st1.frames.get? fid = some frame ∧
        ((frame.is_dirty = false ∧ st2 = st1) ∨
         (frame.is_dirty = true ∧ ∃ bb, st1.FlushPage frame.page_id = some (bb, st2))) ∧
        st2.SwapIn pid fid = some st3 ∧
        st3.PinFrame fid pid dirty = some st4) := by
  unfold BufferPoolManager.AcquirePage BufferPoolManager.GetFrame at h
  rcases hq : alookup pid st.page_table with _ | fid0
  · rw [hq] at h
    simp only at h
    rcases hffe : st.FindFreeOrEvict with _ | fst1
    · rw [hffe] at h
      cases h
    · obtain ⟨f0, st1⟩ := fst1
      rw [hffe] at h
      simp only at h
      rcases hf : st1.frames.get? f0 with _ | frame
      · rw [hf] at h
        cases h
      · rw [hf] at h
        simp only at h
        by_cases hdirty : frame.is_dirty
        · rw [if_pos hdirty] at h
          rcases hfl : st1.FlushPage frame.page_id with _ | bst
          · rw [hfl] at h
            cases h
          · obtain ⟨bb, st2⟩ := bst
            rw [hfl] at h
            simp only [Option.map_some'] at h
            rcases hsw : st2.SwapIn pid f0 with _ | st3
            · rw [hsw] at h
              cases h
            · rw [hsw] at h
              simp only at h
              rcases hpf : st3.PinFrame f0 pid dirty with _ | st4x
              · rw [hpf] at h
                cases h
              · rw [hpf] at h
                simp only [Option.some.injEq, Prod.mk.injEq] at h
                obtain ⟨hfid, hst⟩ := h
                subst hfid
                subst hst
                exact Or.inr ⟨rfl, st1, frame, st2, st3, rfl, hf,
                  Or.inr ⟨hdirty, bb, hfl⟩, hsw, hpf⟩
        · rw [if_neg hdirty] at h
          simp only at h
          rcases hsw : st1.SwapIn pid f0 with _ | st3
          · rw [hsw] at h
            cases h
          · rw [hsw] at h
            simp only at h
            rcases hpf : st3.PinFrame f0 pid dirty with _ | st4x
            · rw [hpf] at h
              cases h
            · rw [hpf] at h
              simp only [Option.some.injEq, Prod.mk.injEq] at h
              obtain ⟨hfid, hst⟩ := h
              subst hfid
              subst hst
              exact Or.inr ⟨rfl, st1, frame, st1, st3, rfl, hf,
                Or.inl ⟨by simpa using hdirty, rfl⟩, hsw, hpf⟩
  · rw [hq] at h
    simp only at h
    rcases hpf : st.PinFrame fid0 pid dirty with _ | st1
    · rw [hpf] at h
      cases h
    · rw [hpf] at h
      simp only [Option.some.injEq, Prod.mk.injEq] at h
      obtain ⟨hfid, hst⟩ := h
      subst hfid
      subst hst
      exact Or.inl ⟨rfl, hpf⟩

/-- An out-of-memory acquisition implies a page-table miss with no free frame
and no evictable frame. -/
theorem acquire_oom {st : BufferPoolManager} {pid : Int} {dirty : Bool}
    (h : st.AcquirePage pid dirty = some none) :
    alookup pid st.page_table = none ∧ st.free_frames = [] ∧
    (st.replacer.Evict).1 = none := by
  unfold BufferPoolManager.AcquirePage BufferPoolManager.GetFrame at h
  rcases hq : alookup pid st.page_table with _ | fid0
  · rw [hq] at h
    simp only at h
    rcases hffe : st.FindFreeOrEvict with _ | fst1
    · obtain ⟨h1, h2⟩ := findFreeOrEvict_none hffe
      exact ⟨rfl, h1, h2⟩
    · obtain ⟨f0, st1⟩ := fst1
      rw [hffe] at h
      simp only at h
      rcases hf : st1.frames.get? f0 with _ | frame
      · rw [hf] at h
        cases h
      · rw [hf] at h
        simp only at h
        by_cases hdirty : frame.is_dirty
        · rw [if_pos hdirty] at h
          rcases hfl : st1.FlushPage frame.page_id with _ | bst
          · rw [hfl] at h
            cases h
          · obtain ⟨bb, st2⟩ := bst
            rw [hfl] at h
            simp only [Option.map_some'] at h
            rcases hsw : st2.SwapIn pid f0 with _ | st3
            · rw [hsw] at h
              cases h
            · rw [hsw] at h
              simp only at h
              rcases hpf : st3.PinFrame f0 pid dirty with _ | st4x
              · rw [hpf] at h
                cases h
              · rw [hpf] at h
                cases h
        · rw [if_neg hdirty] at h
          simp only at h
          rcases hsw : st1.SwapIn pid f0 with _ | st3
          · rw [hsw] at h
            cases h
          · rw [hsw] at h
            simp only at h
            rcases hpf : st3.PinFrame f0 pid dirty with _ | st4x
            · rw [hpf] at h
              cases h
            · rw [hpf] at h
              cases h
  · rw [hq] at h
    simp only at h
    rcases hpf : st.PinFrame fid0 pid dirty with _ | st1
    · rw [hpf] at h
      cases h
    · rw [hpf] at h
      cases h

theorem alookup_cons (k : Int) (v : β) (l : List (Int × β)) (q : Int) :
    alookup q ((k, v) :: l) = if k = q then some v else alookup q l := rfl

theorem alookup_aerase_some {k q : Int} {l : List (Int × β)} {v : β}
    (h : alookup q (aerase k l) = some v) : q ≠ k ∧ alookup q l = some v := by
  by_cases hqk : q = k
  · subst hqk
    rw [alookup_aerase_self] at h
    cases h
  · refine ⟨hqk, ?_⟩
    rw [← alookup_aerase_ne (fun he => hqk he.symm) l]
    exact h

theorem nodup_append_singleton {l : List α} {a : α} (h : l.Nodup) (ha : a ∉ l) :
    (l ++ [a]).Nodup := by
  simp [List.nodup_append, h, ha]

theorem get?_modifyIdx_cases {g : α → α} {l : List α} {i j : Nat} {x : α}
    (h : (modifyIdx g l i).get? j = some x) :
    (j ≠ i ∧ l.get? j = some x) ∨ (j = i ∧ ∃ y, l.get? i = some y ∧ x = g y) := by
  by_cases hij : j = i
  · subst hij
    rw [get?_modifyIdx_self] at h
    rcases hy : l.get? j with _ | y
    · rw [hy] at h
      cases h
    · rw [hy] at h
      simp only [Option.map_some', Option.some.injEq] at h
      exact Or.inr ⟨rfl, y, rfl, h.symm⟩
  · rw [get?_modifyIdx_ne _ _ (fun he => hij he.symm)] at h
    exact Or.inl ⟨hij, h⟩

theorem pin_access_evictable (n : LRUKNode) (ts : Nat) :
    ((n.SetEvictable false).Access ts).Evictable = false := rfl

theorem pin_access_existence (n : LRUKNode) (ts : Nat) :
    ((n.SetEvictable false).Access ts).Existence = true := rfl

theorem set_evictable_existence (n : LRUKNode) (b : Bool) :
    (n.SetEvictable b).Existence = n.Existence := rfl

theorem evict_node_evictable (n : LRUKNode) : n.Evict.Evictable = false := rfl

/-- Structural wellformedness of a buffer-pool state. Every conjunct is
established by the constructor and preserved by every successful operation. -/
structure WF (st : BufferPoolManager) : Prop where
  frames_len : st.frames.length = st.num_frames
  nodes_len : st.replacer.node_store.length = st.num_frames
  rsize : st.replacer.replacer_size = st.num_frames
  frame_ids : ∀ i f, st.frames.get? i = some f → f.frame_id = i
  table_lt : ∀ q fid, alookup q st.page_table = some fid → fid < st.num_frames
  table_pid : ∀ q fid f, alookup q st.page_table = some fid →
    st.frames.get? fid = some f → f.page_id = q
  table_nonneg : ∀ q fid, alookup q st.page_table = some fid → 0 ≤ q
  table_exist : ∀ q fid node, alookup q st.page_table = some fid →
    st.replacer.node_store.get? fid = some node → node.Existence = true
  free_lt : ∀ fid ∈ st.free_frames, fid < st.num_frames
  free_pid : ∀ fid f, fid ∈ st.free_frames → st.frames.get? fid = some f →
    f.page_id = -1
  free_clean : ∀ fid f, fid ∈ st.free_frames → st.frames.get? fid = some f →
    f.is_dirty = false
  free_nodup : st.free_frames.Nodup
  evict_pin : ∀ i node f, st.replacer.node_store.get? i = some node →
    node.Evictable = true → st.frames.get? i = some f → f.pin_count = 0
  evict_table : ∀ i node f, st.replacer.node_store.get? i = some node →
    node.Evictable = true → st.frames.get? i = some f →
    alookup f.page_id st.page_table = some i
  evict_exist : ∀ i node, st.replacer.node_store.get? i = some node →
    node.Evictable = true → node.Existence = true

/-- A resident page's frame is never on the free list. -/
theorem WF.resident_not_free {st : BufferPoolManager} (hwf : WF st) {q : Int}
    {fid : Nat} (hq : alookup q st.page_table = some fid) : fid ∉ st.free_frames := by
  intro hmem
  have hlt : fid < st.num_frames := hwf.table_lt q fid hq
  rcases hf : st.frames.get? fid with _ | f
  · rw [List.get?_eq_none, hwf.frames_len] at hf
    omega
  · have h1 := hwf.table_pid q fid f hq hf
    have h2 := hwf.free_pid fid f hmem hf
    have h3 := hwf.table_nonneg q fid hq
    rw [h1] at h2
    omega

/-- The page table is injective: two pages never share a frame. -/
theorem WF.table_inj {st : BufferPoolManager} (hwf : WF st) {q1 q2 : Int}
    {fid : Nat} (h1 : alookup q1 st.page_table = some fid)
    (h2 : alookup q2 st.page_table = some fid) : q1 = q2 := by
  have hlt : fid < st.num_frames := hwf.table_lt q1 fid h1
  rcases hf : st.frames.get? fid with _ | f
  · exfalso
    rw [List.get?_eq_none, hwf.frames_len] at hf
    omega
  · have e1 := hwf.table_pid q1 fid f h1 hf
    have e2 := hwf.table_pid q2 fid f h2 hf
    rw [← e1, e2]

/-- The freshly constructed pool is wellformed. -/
theorem WF_new (n k : Nat) : WF (BufferPoolManager.new n k) := by
  have hframes : ∀ i f, ((List.range n).map FrameHeader.new).get? i = some f →
      f = FrameHeader.new i := by
    intro i f h
    rw [List.get?_map] at h
    rcases hr : (List.range n).get? i with _ | j
    · rw [hr] at h
      cases h
    · rw [hr] at h
      have hj : j = i := by
        have := List.get?_range (by
          have := lt_length_of_get?_some hr
          simpa using this)
        rw [this] at hr
        exact (Option.some.injEq _ _ ▸ hr).symm
      simp only [Option.map_some', Option.some.injEq] at h
      rw [← h, hj]
  have hnodes : ∀ i node,
      ((LRUKReplacer.new n k).node_store).get? i = some node →
      node.Evictable = false := by
    intro i node h
    unfold LRUKReplacer.new at h
    rw [List.get?_map] at h
    rcases hr : (List.range n).get? i with _ | j
    · rw [hr] at h
      cases h
    · rw [hr] at h
      simp only [Option.map_some', Option.some.injEq] at h
      rw [← h]
      rfl
  constructor
  · simp [BufferPoolManager.new]
  · simp [BufferPoolManager.new, LRUKReplacer.new]
  · rfl
  · intro i f h
    rw [hframes i f h]
    rfl
  · intro q fid h
    cases h
  · intro q fid f h
    cases h
  · intro q fid h
    cases h
  · intro q fid node h
    cases h
  · intro fid h
    simpa using List.mem_range.mp (by simpa [BufferPoolManager.new] using h)
  · intro fid f hmem hf
    rw [hframes fid f hf]
    rfl
  · intro fid f hmem hf
    rw [hframes fid f hf]
    rfl
  · simpa [BufferPoolManager.new] using List.nodup_range n
  · intro i node f hn hev hf
    rw [hnodes i node hn] at hev
    cases hev
  · intro i node f hn hev hf
    rw [hnodes i node hn] at hev
    cases hev
  · intro i node hn hev
    rw [hnodes i node hn] at hev
    cases hev

/-- Wellformedness transfers along equality of the relevant components. -/
theorem WF_of_eq {st st1 : BufferPoolManager} (hwf : WF st)
    (hf : st1.frames = st.frames) (ht : st1.page_table = st.page_table)
    (hfr : st1.free_frames = st.free_frames) (hr : st1.replacer = st.replacer)
    (hn : st1.num_frames = st.num_frames) : WF st1 := by
  constructor
  · rw [hf, hn]
    exact hwf.frames_len
  · rw [hr, hn]
    exact hwf.nodes_len
  · rw [hr, hn]
    exact hwf.rsize
  · rw [hf]
    exact hwf.frame_ids
  · rw [ht, hn]
    exact hwf.table_lt
  · rw [ht, hf]
    exact hwf.table_pid
  · rw [ht]
    exact hwf.table_nonneg
  · rw [ht, hr]
    exact hwf.table_exist
  · rw [hfr, hn]
    exact hwf.free_lt
  · rw [hfr, hf]
    exact hwf.free_pid
  · rw [hfr, hf]
    exact hwf.free_clean
  · rw [hfr]
    exact hwf.free_nodup
  · rw [hr, hf]
    exact hwf.evict_pin
  · rw [hr, hf, ht]
    exact hwf.evict_table
  · rw [hr]
    exact hwf.evict_exist

/-- Wellformedness is preserved by a frame update that keeps the frame id,
page id and pin count and never dirties a clean frame. -/
theorem WF_frames_mod {st st1 : BufferPoolManager} (hwf : WF st)
    {g : FrameHeader → FrameHeader} {fid : Nat}
    (hgid : ∀ f, (g f).frame_id = f.frame_id)
    (hgpid : ∀ f, (g f).page_id = f.page_id)
    (hgpin : ∀ f, (g f).pin_count = f.pin_count)
    (hgdirty : ∀ f, f.is_dirty = false → (g f).is_dirty = false)
    (hf : st1.frames = modifyIdx g st.frames fid)
    (ht : st1.page_table = st.page_table)
    (hfr : st1.free_frames = st.free_frames)
    (hr : st1.replacer = st.replacer)
    (hn : st1.num_frames = st.num_frames) : WF st1 := by
  have hget : ∀ j x, st1.frames.get? j = some x →
      (j ≠ fid ∧ st.frames.get? j = some x) ∨
      (j = fid ∧ ∃ y, st.frames.get? fid = some y ∧ x = g y) := by
    intro j x hx
    rw [hf] at hx
    exact get?_modifyIdx_cases hx
  constructor
  · rw [hf, hn, length_modifyIdx]
    exact hwf.frames_len
  · rw [hr, hn]
    exact hwf.nodes_len
  · rw [hr, hn]
    exact hwf.rsize
  · intro i f h
    rcases hget i f h with ⟨_, h2⟩ | ⟨_, y, hy, hxy⟩
    · exact hwf.frame_ids i f h2
    · rw [hxy, hgid]
      exact hwf.frame_ids i y (by rwa [‹i = fid›])
  · rw [ht, hn]
    exact hwf.table_lt
  · intro q fidq f hq hfq
    rw [ht] at hq
    rcases hget fidq f hfq with ⟨_, h2⟩ | ⟨heq, y, hy, hxy⟩
    · exact hwf.table_pid q fidq f hq h2
    · rw [hxy, hgpid]
      exact hwf.table_pid q fidq y hq (by rwa [heq])
  · rw [ht]
    exact hwf.table_nonneg
  · rw [ht, hr]
    exact hwf.table_exist
  · rw [hfr, hn]
    exact hwf.free_lt
  · intro fidq f hmem hfq
    rw [hfr] at hmem
    rcases hget fidq f hfq with ⟨_, h2⟩ | ⟨heq, y, hy, hxy⟩
    · exact hwf.free_pid fidq f hmem h2
    · rw [hxy, hgpid]
      exact hwf.free_pid fidq y hmem (by rwa [heq])
  · intro fidq f hmem hfq
    rw [hfr] at hmem
    rcases hget fidq f hfq with ⟨_, h2⟩ | ⟨heq, y, hy, hxy⟩
    · exact hwf.free_clean fidq f hmem h2
    · rw [hxy]
      exact hgdirty y (hwf.free_clean fidq y hmem (by rwa [heq]))
  · rw [hfr]
    exact hwf.free_nodup
  · intro i node f hn2 hev hfq
    rw [hr] at hn2
    rcases hget i f hfq with ⟨_, h2⟩ | ⟨heq, y, hy, hxy⟩
    · exact hwf.evict_pin i node f hn2 hev h2
    · rw [hxy, hgpin]
      exact hwf.evict_pin i node y hn2 hev (by rwa [heq])
  · intro i node f hn2 hev hfq
    rw [hr] at hn2
    rw [ht]
    rcases hget i f hfq with ⟨_, h2⟩ | ⟨heq, y, hy, hxy⟩
    · exact hwf.evict_table i node f hn2 hev h2
    · rw [hxy, hgpid]
      exact hwf.evict_table i node y hn2 hev (by rwa [heq])
  · rw [hr]
    exact hwf.evict_exist

/-- Pinning a resident page preserves wellformedness. -/
theorem WF_pinFrame {st st4 : BufferPoolManager} {fid : Nat} {pid : Int}
    {dirty : Bool} (hwf : WF st) (hq : alookup pid st.page_table = some fid)
    (h : st.PinFrame fid pid dirty = some st4) : WF st4 := by
  obtain ⟨node, hget, hlt, hnum, hnpid, htab, hfree, hdisk, hframes, hrsz, hrlen,
    hnodefid, hnodeother⟩ := pinFrame_success h
  have hframe_cases : ∀ j x, st4.frames.get? j = some x →
      (j ≠ fid ∧ st.frames.get? j = some x) ∨
      (j = fid ∧ ∃ y, st.frames.get? fid = some y ∧
        x = { y with pin_count := inc64 y.pin_count, page_id := pid,
                     is_dirty := y.is_dirty || dirty }) := by
    intro j x hx
    rw [hframes] at hx
    exact get?_modifyIdx_cases hx
  have hnode_cases : ∀ j x, st4.replacer.node_store.get? j = some x →
      (j ≠ fid ∧ st.replacer.node_store.get? j = some x) ∨
      (j = fid ∧ x = (node.SetEvictable false).Access st.replacer.current_timestamp) := by
    intro j x hx
    by_cases hj : j = fid
    · subst hj
      rw [hnodefid] at hx
      exact Or.inr ⟨rfl, by injection hx.symm⟩
    · rw [hnodeother j hj] at hx
      exact Or.inl ⟨hj, hx⟩
  constructor
  · rw [hnum, hframes, length_modifyIdx]
    exact hwf.frames_len
  · rw [hnum, hrlen]
    exact hwf.nodes_len
  · rw [hnum, hrsz]
    exact hwf.rsize
  · intro i f h2
    rcases hframe_cases i f h2 with ⟨_, h3⟩ | ⟨heq, y, hy, hxy⟩
    · exact hwf.frame_ids i f h3
    · subst heq
      rw [hxy]
      exact hwf.frame_ids i y hy
  · rw [htab, hnum]
    exact hwf.table_lt
  · intro q fidq f hq2 hf2
    rw [htab] at hq2
    rcases hframe_cases fidq f hf2 with ⟨_, h3⟩ | ⟨heq, y, hy, hxy⟩
    · exact hwf.table_pid q fidq f hq2 h3
    · subst heq
      rw [hxy]
      exact hwf.table_inj hq hq2
  · rw [htab]
    exact hwf.table_nonneg
  · intro q fidq node2 hq2 hn2
    rw [htab] at hq2
    rcases hnode_cases fidq node2 hn2 with ⟨_, h3⟩ | ⟨heq, hx⟩
    · exact hwf.table_exist q fidq node2 hq2 h3
    · rw [hx]
      exact pin_access_existence node st.replacer.current_timestamp
  · rw [hfree, hnum]
    exact hwf.free_lt
  · intro fidq f hmem hf2
    rw [hfree] at hmem
    rcases hframe_cases fidq f hf2 with ⟨_, h3⟩ | ⟨heq, y, hy, hxy⟩
    · exact hwf.free_pid fidq f hmem h3
    · subst heq
      exact absurd hmem (hwf.resident_not_free hq)
  · intro fidq f hmem hf2
    rw [hfree] at hmem
    rcases hframe_cases fidq f hf2 with ⟨_, h3⟩ | ⟨heq, y, hy, hxy⟩
    · exact hwf.free_clean fidq f hmem h3
    · subst heq
      exact absurd hmem (hwf.resident_not_free hq)
  · rw [hfree]
    exact hwf.free_nodup
  · intro i node2 f hn2 hev hf2
    rcases hnode_cases i node2 hn2 with ⟨hne, h3⟩ | ⟨heq, hx⟩
    · rcases hframe_cases i f hf2 with ⟨_, h4⟩ | ⟨heq2, y, hy, hxy⟩
      · exact hwf.evict_pin i node2 f h3 hev h4
      · exact absurd heq2 hne
    · rw [hx, pin_access_evictable] at hev
      cases hev
  · intro i node2 f hn2 hev hf2
    rw [htab]
    rcases hnode_cases i node2 hn2 with ⟨hne, h3⟩ | ⟨heq, hx⟩
    · rcases hframe_cases i f hf2 with ⟨_, h4⟩ | ⟨heq2, y, hy, hxy⟩
      · exact hwf.evict_table i node2 f h3 hev h4
      · exact absurd heq2 hne
    · rw [hx, pin_access_evictable] at hev
      cases hev
  · intro i node2 hn2 hev
    rcases hnode_cases i node2 hn2 with ⟨_, h3⟩ | ⟨heq, hx⟩
    · exact hwf.evict_exist i node2 h3 hev
    · rw [hx, pin_access_evictable] at hev
      cases hev

/-- Dropping a guard preserves wellformedness. -/
theorem WF_dropGuard {st st1 : BufferPoolManager} {pid : Int} (hwf : WF st)
    (h : st.DropGuard pid = some st1) : WF st1 := by
  rcases dropGuard_success h with ⟨_, heq⟩ | ⟨fid, frame, hq, hf, hcases⟩
  · rw [heq]
    exact hwf
  rcases hcases with ⟨_, heq⟩ | ⟨hpin, hframes, htab, hfree, hdisk, hnum, hnpid, hrep⟩
  · rw [heq]
    exact hwf
  have hpidf : frame.page_id = pid := hwf.table_pid pid fid frame hq hf
  have hframe_cases : ∀ j x, st1.frames.get? j = some x →
      (j ≠ fid ∧ st.frames.get? j = some x) ∨
      (j = fid ∧ x = { frame with pin_count := frame.pin_count - 1 }) := by
    intro j x hx
    rw [hframes] at hx
    rcases get?_modifyIdx_cases hx with ⟨hne, h2⟩ | ⟨heq2, y, hy, hxy⟩
    · exact Or.inl ⟨hne, h2⟩
    · rw [hf] at hy
      injection hy with hy2
      subst hy2
      exact Or.inr ⟨heq2, hxy⟩
  have hnode_cases : ∀ j x, st1.replacer.node_store.get? j = some x →
      (st.replacer.node_store.get? j = some x) ∨
      (j = fid ∧ ∃ node, st.replacer.node_store.get? fid = some node ∧
        x = node.SetEvictable true) := by
    intro j x hx
    rcases hrep with ⟨_, hsame⟩ | ⟨hpin1, node, hget, hlt, hsz, hlen, hts, hat, hother⟩
    · rw [hsame] at hx
      exact Or.inl hx
    · by_cases hj : j = fid
      · subst hj
        rw [hat] at hx
        injection hx with hx2
        exact Or.inr ⟨rfl, node, hget, hx2.symm⟩
      · rw [hother j hj] at hx
        exact Or.inl hx
  have hrlen : st1.replacer.node_store.length = st.replacer.node_store.length := by
    rcases hrep with ⟨_, hsame⟩ | ⟨_, node, _, _, _, hlen, _, _, _⟩
    · rw [hsame]
    · exact hlen
  have hrsz : st1.replacer.replacer_size = st.replacer.replacer_size := by
    rcases hrep with ⟨_, hsame⟩ | ⟨_, node, _, _, hsz, _, _, _, _⟩
    · rw [hsame]
    · exact hsz
  constructor
  · rw [hnum, hframes, length_modifyIdx]
    exact hwf.frames_len
  · rw [hnum, hrlen]
    exact hwf.nodes_len
  · rw [hnum, hrsz]
    exact hwf.rsize
  · intro i f h2
    rcases hframe_cases i f h2 with ⟨_, h3⟩ | ⟨heq2, hxy⟩
    · exact hwf.frame_ids i f h3
    · subst heq2
      rw [hxy]
      exact hwf.frame_ids i frame hf
  · rw [htab, hnum]
    exact hwf.table_lt
  · intro q fidq f hq2 hf2
    rw [htab] at hq2
    rcases hframe_cases fidq f hf2 with ⟨_, h3⟩ | ⟨heq2, hxy⟩
    · exact hwf.table_pid q fidq f hq2 h3
    · subst heq2
      rw [hxy]
      exact hwf.table_pid q fidq frame hq2 hf
  · rw [htab]
    exact hwf.table_nonneg
  · intro q fidq node2 hq2 hn2
    rw [htab] at hq2
    rcases hnode_cases fidq node2 hn2 with h3 | ⟨heq2, node, hget, hx⟩
    · exact hwf.table_exist q fidq node2 hq2 h3
    · subst heq2
      rw [hx, set_evictable_existence]
      exact hwf.table_exist q fidq node hq2 hget
  · rw [hfree, hnum]
    exact hwf.free_lt
  · intro fidq f hmem hf2
    rw [hfree] at hmem
    rcases hframe_cases fidq f hf2 with ⟨_, h3⟩ | ⟨heq2, hxy⟩
    · exact hwf.free_pid fidq f hmem h3
    · subst heq2
      exact absurd hmem (hwf.resident_not_free hq)
  · intro fidq f hmem hf2
    rw [hfree] at hmem
    rcases hframe_cases fidq f hf2 with ⟨_, h3⟩ | ⟨heq2, hxy⟩
    · exact hwf.free_clean fidq f hmem h3
    · subst heq2
      exact absurd hmem (hwf.resident_not_free hq)
  · rw [hfree]
    exact hwf.free_nodup
  · intro i node2 f hn2 hev hf2
    rcases hframe_cases i f hf2 with ⟨hne, h4⟩ | ⟨heqi, hxy⟩
    · have h3 : st.replacer.node_store.get? i = some node2 := by
        rcases hrep with ⟨_, hsame⟩ | ⟨_, node, _, _, _, _, _, hat, hother⟩
        · rw [hsame] at hn2
          exact hn2
        · rw [hother i hne] at hn2
          exact hn2
      exact hwf.evict_pin i node2 f h3 hev h4
    · rcases hrep with ⟨hpin1, hsame⟩ | ⟨hpin1, _⟩
      · rw [hsame] at hn2
        rw [heqi] at hn2 hf2
        exact absurd (hwf.evict_pin fid node2 frame (heqi ▸ hn2) hev hf) hpin
      · rw [hxy]
        exact hpin1
  · intro i node2 f hn2 hev hf2
    rw [htab]
    rcases hframe_cases i f hf2 with ⟨hne, h4⟩ | ⟨heqi, hxy⟩
    · have h3 : st.replacer.node_store.get? i = some node2 := by
        rcases hrep with ⟨_, hsame⟩ | ⟨_, node, _, _, _, _, _, hat, hother⟩
        · rw [hsame] at hn2
          exact hn2
        · rw [hother i hne] at hn2
          exact hn2
      exact hwf.evict_table i node2 f h3 hev h4
    · rw [heqi, hxy]
      show alookup frame.page_id st.page_table = some fid
      rw [hpidf]
      exact hq
  · intro i node2 hn2 hev
    rcases hnode_cases i node2 hn2 with h3 | ⟨heq2, node, hget, hx⟩
    · exact hwf.evict_exist i node2 h3 hev
    · rw [hx, set_evictable_existence]
      exact hwf.table_exist pid fid node hq hget

/-- Final step of a miss-path acquisition: pinning the chosen frame under a
freshly inserted page-table binding restores wellformedness, given the
intermediate state's relation to the original wellformed state. -/
theorem WF_miss_finish {st st3 st4 : BufferPoolManager} {fid : Nat} {pid : Int}
    {dirty : Bool} {tblr : List (Int × Nat)}
    (hwf : WF st)
    (hpid0 : 0 ≤ pid)
    (hfidlt : fid < st.num_frames)
    (hnum : st3.num_frames = st.num_frames)
    (hflen : st3.frames.length = st.frames.length)
    (hfoff : ∀ j, j ≠ fid → st3.frames.get? j = st.frames.get? j)
    (hfids : ∀ i f, st3.frames.get? i = some f → f.frame_id = i)
    (htab : st3.page_table = (pid, fid) :: tblr)
    (htbl1 : ∀ q fidq, alookup q tblr = some fidq →
      alookup q st.page_table = some fidq ∧ fidq ≠ fid)
    (htbl2 : ∀ q fidq, alookup q st.page_table = some fidq → fidq ≠ fid →
      alookup q tblr = some fidq)
    (hfree1 : ∀ j ∈ st3.free_frames, j ∈ st.free_frames ∧ j ≠ fid)
    (hfreend : st3.free_frames.Nodup)
    (hroff : ∀ j, j ≠ fid →
      st3.replacer.node_store.get? j = st.replacer.node_store.get? j)
    (hrlen : st3.replacer.node_store.length = st.replacer.node_store.length)
    (hrsz : st3.replacer.replacer_size = st.replacer.replacer_size)
    (hmiss : alookup pid st.page_table = none)
    (hpf : st3.PinFrame fid pid dirty = some st4) : WF st4 := by
  obtain ⟨node3, hget3, hlt3, hnum4, hnpid4, htab4, hfree4, hdisk4, hframes4, hrsz4,
    hrlen4, hnodefid4, hnodeother4⟩ := pinFrame_success hpf
  have hframe_cases : ∀ j x, st4.frames.get? j = some x →
      (j ≠ fid ∧ st.frames.get? j = some x) ∨
      (j = fid ∧ x.page_id = pid ∧ x.frame_id = fid) := by
    intro j x hx
    rw [hframes4] at hx
    rcases get?_modifyIdx_cases hx with ⟨hne, h2⟩ | ⟨heq2, y, hy, hxy⟩
    · rw [hfoff j hne] at h2
      exact Or.inl ⟨hne, h2⟩
    · refine Or.inr ⟨heq2, by rw [hxy], ?_⟩
      rw [hxy]
      show y.frame_id = fid
      exact hfids fid y hy
  have hnode_cases : ∀ j x, st4.replacer.node_store.get? j = some x →
      (j ≠ fid ∧ st.replacer.node_store.get? j = some x) ∨
      (j = fid ∧ x.Evictable = false ∧ x.Existence = true) := by
    intro j x hx
    by_cases hj : j = fid
    · subst hj
      rw [hnodefid4] at hx
      injection hx with hx2
      exact Or.inr ⟨rfl, by rw [← hx2]; rfl, by rw [← hx2]; rfl⟩
    · rw [hnodeother4 j hj, hroff j hj] at hx
      exact Or.inl ⟨hj, hx⟩
  have htab4c : st4.page_table = (pid, fid) :: tblr := by rw [htab4, htab]
  have htab_cases : ∀ q fidq, alookup q st4.page_table = some fidq →
      (q = pid ∧ fidq = fid) ∨
      (q ≠ pid ∧ fidq ≠ fid ∧ alookup q st.page_table = some fidq) := by
    intro q fidq hq
    rw [htab4c, alookup_cons] at hq
    by_cases hqp : pid = q
    · rw [if_pos hqp] at hq
      injection hq with hq2
      exact Or.inl ⟨hqp.symm, hq2.symm⟩
    · rw [if_neg hqp] at hq
      obtain ⟨h1, h2⟩ := htbl1 q fidq hq
      exact Or.inr ⟨fun he => hqp he.symm, h2, h1⟩
  constructor
  · rw [hnum4, hnum, hframes4, length_modifyIdx, hflen]
    exact hwf.frames_len
  · rw [hnum4, hnum, hrlen4, hrlen]
    exact hwf.nodes_len
  · rw [hnum4, hnum, hrsz4, hrsz]
    exact hwf.rsize
  · intro i f h2
    rcases hframe_cases i f h2 with ⟨_, h3⟩ | ⟨heq2, _, hid⟩
    · exact hwf.frame_ids i f h3
    · rw [heq2]
      exact hid
  · intro q fidq hq
    rw [hnum4, hnum]
    rcases htab_cases q fidq hq with ⟨_, he⟩ | ⟨_, _, h3⟩
    · rw [he]
      exact hfidlt
    · exact hwf.table_lt q fidq h3
  · intro q fidq f hq hf2
    rcases htab_cases q fidq hq with ⟨heq, he⟩ | ⟨hne1, hne2, h3⟩
    · subst heq
      subst he
      rcases hframe_cases fidq f hf2 with ⟨hne, _⟩ | ⟨_, hpid, _⟩
      · exact absurd rfl hne
      · exact hpid
    · rcases hframe_cases fidq f hf2 with ⟨_, h4⟩ | ⟨heq2, _, _⟩
      · exact hwf.table_pid q fidq f h3 h4
      · exact absurd heq2 hne2
  · intro q fidq hq
    rcases htab_cases q fidq hq with ⟨heq, _⟩ | ⟨_, _, h3⟩
    · rw [heq]
      exact hpid0
    · exact hwf.table_nonneg q fidq h3
  · intro q fidq node2 hq hn2
    rcases htab_cases q fidq hq with ⟨heq, he⟩ | ⟨_, hne2, h3⟩
    · subst he
      rcases hnode_cases fidq node2 hn2 with ⟨hne, _⟩ | ⟨_, _, hex⟩
      · exact absurd rfl hne
      · exact hex
    · rcases hnode_cases fidq node2 hn2 with ⟨_, h4⟩ | ⟨heq2, _, _⟩
      · exact hwf.table_exist q fidq node2 h3 h4
      · exact absurd heq2 hne2
  · intro j hmem
    rw [hfree4] at hmem
    rw [hnum4, hnum]
    exact hwf.free_lt j (hfree1 j hmem).1
  · intro j f hmem hf2
    rw [hfree4] at hmem
    obtain ⟨hmem0, hne⟩ := hfree1 j hmem
    rcases hframe_cases j f hf2 with ⟨_, h3⟩ | ⟨heq2, _, _⟩
    · exact hwf.free_pid j f hmem0 h3
    · exact absurd heq2 hne
  · intro j f hmem hf2
    rw [hfree4] at hmem
    obtain ⟨hmem0, hne⟩ := hfree1 j hmem
    rcases hframe_cases j f hf2 with ⟨_, h3⟩ | ⟨heq2, _, _⟩
    · exact hwf.free_clean j f hmem0 h3
    · exact absurd heq2 hne
  · rw [hfree4]
    exact hfreend
  · intro i node2 f hn2 hev hf2
    rcases hnode_cases i node2 hn2 with ⟨hne, h3⟩ | ⟨_, hnev, _⟩
    · rcases hframe_cases i f hf2 with ⟨_, h4⟩ | ⟨heq2, _, _⟩
      · exact hwf.evict_pin i node2 f h3 hev h4
      · exact absurd heq2 hne
    · rw [hnev] at hev
      cases hev
  · intro i node2 f hn2 hev hf2
    rcases hnode_cases i node2 hn2 with ⟨hne, h3⟩ | ⟨_, hnev, _⟩
    · rcases hframe_cases i f hf2 with ⟨_, h4⟩ | ⟨heq2, _, _⟩
      · have hold := hwf.evict_table i node2 f h3 hev h4
        rw [htab4c, alookup_cons]
        have hfpid : f.page_id ≠ pid := by
          intro hc
          rw [hc] at hold
          rw [hmiss] at hold
          cases hold
        rw [if_neg (fun he => hfpid he.symm)]
        exact htbl2 f.page_id i hold hne
      · exact absurd heq2 hne
    · rw [hnev] at hev
      cases hev
  · intro i node2 hn2 hev
    rcases hnode_cases i node2 hn2 with ⟨_, h3⟩ | ⟨_, hnev, _⟩
    · exact hwf.evict_exist i node2 h3 hev
    · rw [hnev] at hev
      cases hev

theorem WF.alookup_neg {st : BufferPoolManager} (hwf : WF st) {q : Int}
    (hq : q < 0) : alookup q st.page_table = none := by
  rcases h : alookup q st.page_table with _ | fid
  · rfl
  · have := hwf.table_nonneg q fid h
    omega

/-- A successful acquisition preserves wellformedness. -/
theorem WF_acquire {st st4 : BufferPoolManager} {pid : Int} {dirty : Bool}
    {fid : Nat} (hwf : WF st)
    (h : st.AcquirePage pid dirty = some (some (fid, st4))) : WF st4 := by
  rcases acquire_success_cases h with ⟨hq, hpf⟩ | ⟨hmiss, st1, frame, st2, st3, hffe,
    hf, hflush, hsw, hpf⟩
  · exact WF_pinFrame hwf hq hpf
  rcases findFreeOrEvict_success hffe with ⟨hlast, hst1⟩ | ⟨hfreeE, hev1, hst1⟩
  · -- free-list case
    subst hst1
    have hf0 : st.frames.get? fid = some frame := hf
    have hmem : fid ∈ st.free_frames := mem_of_getLast?_some hlast
    have hclean : frame.is_dirty = false := hwf.free_clean fid frame hmem hf0
    have hst2 : st2 = { st with free_frames := st.free_frames.dropLast } := by
      rcases hflush with ⟨_, h2⟩ | ⟨hdirty, _⟩
      · exact h2
      · rw [hclean] at hdirty
        cases hdirty
    subst hst2
    obtain ⟨hpid0, frame2, hf2, hst3⟩ := swapIn_success hsw
    have hf2e : frame2 = frame := by
      have : st.frames.get? fid = some frame2 := hf2
      rw [hf0] at this
      injection this with h2
      exact h2.symm
    subst hf2e
    have hpidneg : frame2.page_id = -1 := hwf.free_pid fid frame2 hmem hf0
    have htab3 : st3.page_table = (pid, fid) :: st.page_table := by
      rw [hst3]
      show ainsert pid fid (aerase frame2.page_id st.page_table) = _
      rw [hpidneg, aerase_of_alookup_none (hwf.alookup_neg (by norm_num))]
      unfold ainsert
      rw [aerase_of_alookup_none hmiss]
    refine WF_miss_finish hwf hpid0 (hwf.free_lt fid hmem) ?_ ?_ ?_ ?_ htab3 ?_ ?_ ?_ ?_
      ?_ ?_ ?_ hmiss hpf
    · rw [hst3]
    · rw [hst3]
      show (modifyIdx _ st.frames fid).length = _
      rw [length_modifyIdx]
    · intro j hj
      rw [hst3]
      show (modifyIdx _ st.frames fid).get? j = _
      exact get?_modifyIdx_ne _ _ (fun he => hj he.symm)
    · intro i f h2
      rw [hst3] at h2
      rcases get?_modifyIdx_cases h2 with ⟨_, h3⟩ | ⟨heq2, y, hy, hxy⟩
      · exact hwf.frame_ids i f h3
      · subst heq2
        rw [hxy]
        exact hwf.frame_ids i y hy
    · intro q fidq hq2
      refine ⟨hq2, ?_⟩
      intro he
      subst he
      exact (hwf.resident_not_free hq2) hmem
    · intro q fidq hq2 _
      exact hq2
    · intro j hj
      rw [hst3] at hj
      have hj2 : j ∈ st.free_frames.dropLast := hj
      refine ⟨mem_of_mem_dropLast hj2, ?_⟩
      intro he
      subst he
      exact getLast_not_mem_dropLast hwf.free_nodup hlast hj2
    · rw [hst3]
      exact nodup_dropLast hwf.free_nodup
    · intro j _
      rw [hst3]
    · rw [hst3]
    · rw [hst3]
  · -- eviction case
    subst hst1
    have hf0 : st.frames.get? fid = some frame := hf
    obtain ⟨node, hget, hevict, _⟩ := (evict_characterization st.replacer).2 fid hev1
    have hfidlt : fid < st.num_frames := by
      have := lt_length_of_get?_some hget
      rw [hwf.nodes_len] at this
      exact this
    have hptab : alookup frame.page_id st.page_table = some fid :=
      hwf.evict_table fid node frame hget hevict hf0
    have heff := evict_effects hev1
    -- uniform facts about the post-flush state st2
    have hst2_tab : st2.page_table = st.page_table := by
      rcases hflush with ⟨_, h2⟩ | ⟨hdirty, bb, hfl⟩
      · rw [h2]
      · rcases flushPage_success hfl with ⟨_, hnone, _⟩ | ⟨_, fid2, frame2, hq2, hf2,
          hpid2, hsteq⟩
        · have : alookup frame.page_id st.page_table = none := hnone
          rw [this] at hptab
          cases hptab
        · rw [hsteq]
    have hst2_free : st2.free_frames = st.free_frames := by
      rcases hflush with ⟨_, h2⟩ | ⟨hdirty, bb, hfl⟩
      · rw [h2]
      · rcases flushPage_success hfl with ⟨_, hnone, _⟩ | ⟨_, fid2, frame2, hq2, hf2,
          hpid2, hsteq⟩
        · have : alookup frame.page_id st.page_table = none := hnone
          rw [this] at hptab
          cases hptab
        · rw [hsteq]
    have hst2_rep : st2.replacer = (st.replacer.Evict).2 := by
      rcases hflush with ⟨_, h2⟩ | ⟨hdirty, bb, hfl⟩
      · rw [h2]
      · rcases flushPage_success hfl with ⟨_, hnone, _⟩ | ⟨_, fid2, frame2, hq2, hf2,
          hpid2, hsteq⟩
        · have : alookup frame.page_id st.page_table = none := hnone
          rw [this] at hptab
          cases hptab
        · rw [hsteq]
    have hst2_num : st2.num_frames = st.num_frames := by
      rcases hflush with ⟨_, h2⟩ | ⟨hdirty, bb, hfl⟩
      · rw [h2]
      · rcases flushPage_success hfl with ⟨_, hnone, _⟩ | ⟨_, fid2, frame2, hq2, hf2,
          hpid2, hsteq⟩
        · have : alookup frame.page_id st.page_table = none := hnone
          rw [this] at hptab
          cases hptab
        · rw [hsteq]
    have hst2_flen : st2.frames.length = st.frames.length := by
      rcases hflush with ⟨_, h2⟩ | ⟨hdirty, bb, hfl⟩
      · rw [h2]
      · rcases flushPage_success hfl with ⟨_, hnone, _⟩ | ⟨_, fid2, frame2, hq2, hf2,
          hpid2, hsteq⟩
        · have : alookup frame.page_id st.page_table = none := hnone
          rw [this] at hptab
          cases hptab
        · rw [hsteq]
          show (modifyIdx _ _ fid2).length = _
          rw [length_modifyIdx]
    have hst2_foff : ∀ j, j ≠ fid → st2.frames.get? j = st.frames.get? j := by
      intro j hj
      rcases hflush with ⟨_, h2⟩ | ⟨hdirty, bb, hfl⟩
      · rw [h2]
      · rcases flushPage_success hfl with ⟨_, hnone, _⟩ | ⟨_, fid2, frame2, hq2, hf2,
          hpid2, hsteq⟩
        · have : alookup frame.page_id st.page_table = none := hnone
          rw [this] at hptab
          cases hptab
        · have hq2e : alookup frame.page_id st.page_table = some fid2 := hq2
          rw [hptab] at hq2e
          injection hq2e with hq2e2
          subst hq2e2
          rw [hsteq]
          show (modifyIdx _ st.frames fid).get? j = _
          exact get?_modifyIdx_ne _ _ (fun he => hj he.symm)
    have hst2_fat : ∃ frameX, st2.frames.get? fid = some frameX ∧
        frameX.page_id = frame.page_id ∧ frameX.frame_id = frame.frame_id := by
      rcases hflush with ⟨_, h2⟩ | ⟨hdirty, bb, hfl⟩
      · rw [h2]
        exact ⟨frame, hf0, rfl, rfl⟩
      · rcases flushPage_success hfl with ⟨_, hnone, _⟩ | ⟨_, fid2, frame2, hq2, hf2,
          hpid2, hsteq⟩
        · have : alookup frame.page_id st.page_table = none := hnone
          rw [this] at hptab
          cases hptab
        · have hq2e : alookup frame.page_id st.page_table = some fid2 := hq2
          rw [hptab] at hq2e
          injection hq2e with hq2e2
          subst hq2e2
          have hf2e : st.frames.get? fid = some frame2 := hf2
          rw [hf0] at hf2e
          injection hf2e with hf2e2
          subst hf2e2
          rw [hsteq]
          refine ⟨{ frame with is_dirty := false }, ?_, rfl, rfl⟩
          show (modifyIdx _ st.frames fid).get? fid = _
          rw [get?_modifyIdx_self, hf0]
          rfl
    obtain ⟨hpid0, frameX, hfX, hst3⟩ := swapIn_success hsw
    obtain ⟨frameY, hfY, hYpid, hYid⟩ := hst2_fat
    have hXY : frameX = frameY := by
      rw [hfY] at hfX
      injection hfX with h2
      exact h2.symm
    subst hXY
    have htab3 : st3.page_table = (pid, fid) :: aerase frame.page_id st.page_table := by
      rw [hst3, hst2_tab, hYpid]
      unfold ainsert
      have : alookup pid (aerase frame.page_id st.page_table) = none := by
        by_cases hpq : frame.page_id = pid
        · rw [hpq, alookup_aerase_self]
        · rw [alookup_aerase_ne hpq]
          exact hmiss
      rw [aerase_of_alookup_none this]
    refine WF_miss_finish hwf hpid0 hfidlt ?_ ?_ ?_ ?_ htab3 ?_ ?_ ?_ ?_ ?_ ?_ ?_
      hmiss hpf
    · rw [hst3, hst2_num]
    · rw [hst3]
      show (modifyIdx _ st2.frames fid).length = _
      rw [length_modifyIdx, hst2_flen]
    · intro j hj
      rw [hst3]
      show (modifyIdx _ st2.frames fid).get? j = _
      rw [get?_modifyIdx_ne _ _ (fun he => hj he.symm)]
      exact hst2_foff j hj
    · intro i f h2
      rw [hst3] at h2
      have h2e : (modifyIdx (fun f => { f with data := st2.disk.readPage pid })
          st2.frames fid).get? i = some f := h2
      rcases get?_modifyIdx_cases h2e with ⟨hne, h3⟩ | ⟨heq2, y, hy, hxy⟩
      · rw [hst2_foff i hne] at h3
        exact hwf.frame_ids i f h3
      · subst heq2
        rw [hfY] at hy
        injection hy with hy2
        subst hy2
        rw [hxy]
        show frameX.frame_id = i
        rw [hYid]
        exact hwf.frame_ids i frame hf0
    · intro q fidq hq2
      obtain ⟨hqne, hq0⟩ := alookup_aerase_some hq2
      refine ⟨hq0, ?_⟩
      intro he
      subst he
      exact hqne (hwf.table_inj hq0 hptab)
    · intro q fidq hq0 hne
      have hqne : frame.page_id ≠ q := by
        intro he
        rw [← he] at hq0
        rw [hptab] at hq0
        injection hq0 with h2
        exact hne h2.symm
      rw [alookup_aerase_ne hqne]
      exact hq0
    · intro j hj
      rw [hst3] at hj
      have hj2 : j ∈ st2.free_frames := hj
      rw [hst2_free, hfreeE] at hj2
      cases hj2
    · rw [hst3]
      show st2.free_frames.Nodup
      rw [hst2_free, hfreeE]
      exact List.nodup_nil
    · intro j hj
      rw [hst3]
      show st2.replacer.node_store.get? j = _
      rw [hst2_rep, heff]
      show (modifyIdx LRUKNode.Evict st.replacer.node_store fid).get? j = _
      exact get?_modifyIdx_ne _ _ (fun he => hj he.symm)
    · rw [hst3]
      show st2.replacer.node_store.length = _
      rw [hst2_rep, heff]
      show (modifyIdx LRUKNode.Evict st.replacer.node_store fid).length = _
      rw [length_modifyIdx]
    · rw [hst3]
      show st2.replacer.replacer_size = _
      rw [hst2_rep, heff]

/-- A successful DeletePage preserves wellformedness. -/
theorem WF_deletePage {st st1 : BufferPoolManager} {pid : Int} {b : Bool}
    (hwf : WF st) (h : st.DeletePage pid = some (b, st1)) : WF st1 := by
  rcases deletePage_success h with ⟨_, _, heq⟩ | ⟨fid, frame, hq, hf, hcases⟩
  · rw [heq]
    exact hwf
  rcases hcases with ⟨_, _, heq⟩ | ⟨_, hpin, stf, hflush, r1, hrm, hst1⟩
  · rw [heq]
    exact hwf
  have hfid : frame.frame_id = fid := hwf.frame_ids fid frame hf
  have hfidlt : fid < st.num_frames := hwf.table_lt pid fid hq
  have hpidf : frame.page_id = pid := hwf.table_pid pid fid frame hq hf
  -- uniform facts about the post-flush state stf
  have hcore : stf.page_table = st.page_table ∧ stf.free_frames = st.free_frames ∧
      stf.replacer = st.replacer ∧ stf.num_frames = st.num_frames ∧
      stf.frames.length = st.frames.length ∧
      (∀ j, j ≠ fid → stf.frames.get? j = st.frames.get? j) ∧
      (∃ frameX, stf.frames.get? fid = some frameX ∧ frameX.frame_id = fid) := by
    rcases hflush with ⟨_, h2⟩ | ⟨hdirty, bb, hfl⟩
    · rw [h2]
      exact ⟨rfl, rfl, rfl, rfl, rfl, fun j _ => rfl, frame, hf, hfid⟩
    · rcases flushPage_success hfl with ⟨_, hnone, _⟩ | ⟨_, fid2, frame2, hq2, hf2,
        hpid2, hsteq⟩
      · rw [hpidf, hq] at hnone
        cases hnone
      · have hq2e : alookup frame.page_id st.page_table = some fid2 := hq2
        rw [hpidf, hq] at hq2e
        injection hq2e with hq2e2
        subst hq2e2
        rw [hf] at hf2
        injection hf2 with hf2e
        subst hf2e
        rw [hsteq]
        refine ⟨rfl, rfl, rfl, rfl, length_modifyIdx _ _ _, ?_, ?_⟩
        · intro j hj
          exact get?_modifyIdx_ne _ _ (fun he => hj he.symm)
        · refine ⟨{ frame with is_dirty := false }, ?_, hfid⟩
          rw [get?_modifyIdx_self, hf]
          rfl
  obtain ⟨hstf_tab, hstf_free, hstf_rep, hstf_num, hstf_flen, hstf_foff,
    frameX, hfX, hXid⟩ := hcore
  -- characterize the Remove result
  rw [hfid] at hrm
  have hr1 : (∀ j, j ≠ fid → r1.node_store.get? j = st.replacer.node_store.get? j) ∧
      (∀ x, r1.node_store.get? fid = some x → x.Evictable = false) ∧
      r1.node_store.length = st.replacer.node_store.length ∧
      r1.replacer_size = st.replacer.replacer_size := by
    rcases remove_ok_cases hrm with ⟨hle, heq⟩ | ⟨_, nodeR, hgetR, hsub⟩
    · rw [hstf_rep, hwf.rsize] at hle
      omega
    · rcases hsub with ⟨hnex, heq⟩ | ⟨hex, hev, hsz, hk, hts, hcs, hlen, hat, hother⟩
      · subst heq
        rw [hstf_rep] at hgetR ⊢
        refine ⟨fun j _ => rfl, ?_, rfl, rfl⟩
        intro x hx
        rw [hgetR] at hx
        injection hx with hx2
        subst hx2
        by_cases hevx : nodeR.Evictable = true
        · have := hwf.evict_exist fid nodeR hgetR hevx
          rw [hnex] at this
          cases this
        · simpa using hevx
      · rw [hstf_rep] at hother hlen hsz
        refine ⟨fun j hj => hother j hj, ?_, hlen, hsz⟩
        intro x hx
        rw [hat] at hx
        injection hx with hx2
        subst hx2
        rfl
  obtain ⟨hr1_off, hr1_at, hr1_len, hr1_sz⟩ := hr1
  have hfnotfree : fid ∉ st.free_frames := hwf.resident_not_free hq
  -- st1 component descriptions
  have h1tab : st1.page_table = aerase pid st.page_table := by
    rw [hst1, hstf_tab]
  have h1free : st1.free_frames = st.free_frames ++ [fid] := by
    rw [hst1, hstf_free, hfid]
  have h1frames : st1.frames = modifyIdx FrameHeader.Reset stf.frames fid := by
    rw [hst1]
  have h1rep : st1.replacer = r1 := by rw [hst1]
  have h1num : st1.num_frames = st.num_frames := by rw [hst1, hstf_num]
  have hframe_cases : ∀ j x, st1.frames.get? j = some x →
      (j ≠ fid ∧ st.frames.get? j = some x) ∨
      (j = fid ∧ x = frameX.Reset) := by
    intro j x hx
    rw [h1frames] at hx
    rcases get?_modifyIdx_cases hx with ⟨hne, h2⟩ | ⟨heq2, y, hy, hxy⟩
    · rw [hstf_foff j hne] at h2
      exact Or.inl ⟨hne, h2⟩
    · rw [hfX] at hy
      injection hy with hy2
      subst hy2
      exact Or.inr ⟨heq2, hxy⟩
  have htab_cases : ∀ q fidq, alookup q st1.page_table = some fidq →
      q ≠ pid ∧ fidq ≠ fid ∧ alookup q st.page_table = some fidq := by
    intro q fidq hq2
    rw [h1tab] at hq2
    obtain ⟨hqne, hq0⟩ := alookup_aerase_some hq2
    refine ⟨hqne, ?_, hq0⟩
    intro he
    subst he
    exact hqne (hwf.table_inj hq0 hq)
  constructor
  · rw [h1num, h1frames, length_modifyIdx, hstf_flen]
    exact hwf.frames_len
  · rw [h1num, h1rep, hr1_len]
    exact hwf.nodes_len
  · rw [h1num, h1rep, hr1_sz]
    exact hwf.rsize
  · intro i f h2
    rcases hframe_cases i f h2 with ⟨_, h3⟩ | ⟨heq2, hxy⟩
    · exact hwf.frame_ids i f h3
    · rw [heq2, hxy]
      show frameX.frame_id = fid
      exact hXid
  · intro q fidq hq2
    rw [h1num]
    exact hwf.table_lt q fidq (htab_cases q fidq hq2).2.2
  · intro q fidq f hq2 hf2
    obtain ⟨_, hne2, hq0⟩ := htab_cases q fidq hq2
    rcases hframe_cases fidq f hf2 with ⟨_, h3⟩ | ⟨heq2, _⟩
    · exact hwf.table_pid q fidq f hq0 h3
    · exact absurd heq2 hne2
  · intro q fidq hq2
    exact hwf.table_nonneg q fidq (htab_cases q fidq hq2).2.2
  · intro q fidq node2 hq2 hn2
    obtain ⟨_, hne2, hq0⟩ := htab_cases q fidq hq2
    rw [h1rep, hr1_off fidq hne2] at hn2
    exact hwf.table_exist q fidq node2 hq0 hn2
  · intro j hj
    rw [h1free] at hj
    rw [h1num]
    rcases List.mem_append.mp hj with hj2 | hj2
    · exact hwf.free_lt j hj2
    · rw [List.mem_singleton.mp hj2]
      exact hfidlt
  · intro j f hj hf2
    rw [h1free] at hj
    rcases List.mem_append.mp hj with hj2 | hj2
    · have hne : j ≠ fid := fun he => hfnotfree (he ▸ hj2)
      rcases hframe_cases j f hf2 with ⟨_, h3⟩ | ⟨heq2, _⟩
      · exact hwf.free_pid j f hj2 h3
      · exact absurd heq2 hne
    · rw [List.mem_singleton.mp hj2] at hf2
      rcases hframe_cases fid f hf2 with ⟨hne, _⟩ | ⟨_, hxy⟩
      · exact absurd rfl hne
      · rw [hxy]
        rfl
  · intro j f hj hf2
    rw [h1free] at hj
    rcases List.mem_append.mp hj with hj2 | hj2
    · have hne : j ≠ fid := fun he => hfnotfree (he ▸ hj2)
      rcases hframe_cases j f hf2 with ⟨_, h3⟩ | ⟨heq2, _⟩
      · exact hwf.free_clean j f hj2 h3
      · exact absurd heq2 hne
    · rw [List.mem_singleton.mp hj2] at hf2
      rcases hframe_cases fid f hf2 with ⟨hne, _⟩ | ⟨_, hxy⟩
      · exact absurd rfl hne
      · rw [hxy]
        rfl
  · rw [h1free]
    exact nodup_append_singleton hwf.free_nodup hfnotfree
  · intro i node2 f hn2 hev hf2
    rw [h1rep] at hn2
    by_cases hi : i = fid
    · subst hi
      rw [hr1_at node2 hn2] at hev
      cases hev
    · rw [hr1_off i hi] at hn2
      rcases hframe_cases i f hf2 with ⟨_, h3⟩ | ⟨heq2, _⟩
      · exact hwf.evict_pin i node2 f hn2 hev h3
      · exact absurd heq2 hi
  · intro i node2 f hn2 hev hf2
    rw [h1rep] at hn2
    by_cases hi : i = fid
    · subst hi
      rw [hr1_at node2 hn2] at hev
      cases hev
    · rw [hr1_off i hi] at hn2
      rcases hframe_cases i f hf2 with ⟨_, h3⟩ | ⟨heq2, _⟩
      · have hold := hwf.evict_table i node2 f hn2 hev h3
        rw [h1tab]
        have hfq : f.page_id ≠ pid := by
          intro he
          rw [he, hq] at hold
          injection hold with h4
          exact hi h4.symm
        rw [alookup_aerase_ne (fun he => hfq he.symm)]
        exact hold
      · exact absurd heq2 hi
  · intro i node2 hn2 hev
    rw [h1rep] at hn2
    by_cases hi : i = fid
    · subst hi
      rw [hr1_at node2 hn2] at hev
      cases hev
    · rw [hr1_off i hi] at hn2
      exact hwf.evict_exist i node2 hn2 hev

/-- A successful FlushPage preserves wellformedness. -/
theorem WF_flushPage {st st1 : BufferPoolManager} {pid : Int} {b : Bool}
    (hwf : WF st) (h : st.FlushPage pid = some (b, st1)) : WF st1 := by
  rcases flushPage_success h with ⟨_, _, heq⟩ | ⟨_, fid, frame, hq, hf, hpid2, heq⟩
  · rw [heq]
    exact hwf
  · subst heq
    exact @WF_frames_mod st _ hwf (fun f => { f with is_dirty := false }) fid
      (fun f => rfl) (fun f => rfl) (fun f => rfl) (fun f _ => rfl) rfl rfl rfl rfl rfl

/-- WriteData preserves wellformedness. -/
theorem WF_writeData {st : BufferPoolManager} (pid : Int) (bs : List Nat)
    (hwf : WF st) : WF (st.WriteData pid bs) := by
  unfold BufferPoolManager.WriteData
  rcases hq : alookup pid st.page_table with _ | fid
  · exact hwf
  · exact @WF_frames_mod st _ hwf (fun f => { f with data := bs }) fid
      (fun f => rfl) (fun f => rfl) (fun f => rfl) (fun f h2 => h2) rfl rfl rfl rfl rfl

/-- Every successful step preserves wellformedness. -/
theorem step_preserves_WF {st st1 : BufferPoolManager} {op : BPMOp}
    (hwf : WF st) (h : step st op = some st1) : WF st1 := by
  cases op with
  | newPage =>
    simp only [step, Option.some.injEq] at h
    subst h
    exact WF_of_eq hwf rfl rfl rfl rfl rfl
  | checkedReadPage pid =>
    simp only [step] at h
    rcases hc : st.CheckedReadPage pid with _ | oo
    · rw [hc] at h
      cases h
    · rw [hc] at h
      rcases oo with _ | p
      · simp only [Option.some.injEq] at h
        subst h
        exact hwf
      · obtain ⟨fid, stx⟩ := p
        simp only [Option.some.injEq] at h
        subst h
        rw [checkedReadPage_eq_acquire] at hc
        exact WF_acquire hwf hc
  | checkedWritePage pid =>
    simp only [step] at h
    rcases hc : st.CheckedWritePage pid with _ | oo
    · rw [hc] at h
      cases h
    · rw [hc] at h
      rcases oo with _ | p
      · simp only [Option.some.injEq] at h
        subst h
        exact hwf
      · obtain ⟨fid, stx⟩ := p
        simp only [Option.some.injEq] at h
        subst h
        rw [checkedWritePage_eq_acquire] at hc
        exact WF_acquire hwf hc
  | writeData pid bs =>
    simp only [step, Option.some.injEq] at h
    subst h
    exact WF_writeData pid bs hwf
  | dropGuard pid =>
    exact WF_dropGuard hwf h
  | flushPage pid =>
    simp only [step] at h
    rcases hc : st.FlushPage pid with _ | p
    · rw [hc] at h
      cases h
    · obtain ⟨b, stx⟩ := p
      rw [hc] at h
      simp only [Option.some.injEq] at h
      subst h
      exact WF_flushPage hwf hc
  | deletePage pid =>
    simp only [step] at h
    rcases hc : st.DeletePage pid with _ | p
    · rw [hc] at h
      cases h
    · obtain ⟨b, stx⟩ := p
      rw [hc] at h
      simp only [Option.some.injEq] at h
      subst h
      exact WF_deletePage hwf hc

/-- Wellformedness holds along every successful run. -/
theorem runOps_WF : ∀ {ops : List BPMOp} {st st1 : BufferPoolManager},
    WF st → runOps st ops = some st1 → WF st1
  | [], st, st1, hwf, h => by
    simp only [runOps, Option.some.injEq] at h
    subst h
    exact hwf
  | op :: rest, st, st1, hwf, h => by
    simp only [runOps] at h
    rcases hs : step st op with _ | st2
    · rw [hs] at h
      cases h
    · rw [hs] at h
      exact runOps_WF (step_preserves_WF hwf hs) h

/-- C5: in every state reachable by any sequence of buffer-pool operations
from a fresh pool, a frame whose pin count is greater than zero is never
returned by the replacer's evict(): any returned victim has its evictable flag
set, and its frame's pin count is zero. -/
theorem c5_evict_never_returns_pinned (n k : Nat) (ops : List BPMOp)
    (st : BufferPoolManager)
    (hrun : runOps (BufferPoolManager.new n k) ops = some st) :
    ∀ f, (st.replacer.Evict).1 = some f →
      (∃ node, st.replacer.node_store.get? f = some node ∧ node.Evictable = true) ∧
      (∃ frame, st.frames.get? f = some frame ∧ frame.pin_count = 0) := by
  have hwf : WF st := runOps_WF (WF_new n k) hrun
  intro f hev
  obtain ⟨node, hget, hevict, _⟩ := (evict_characterization st.replacer).2 f hev
  have hlt : f < st.frames.length := by
    have := lt_length_of_get?_some hget
    rw [hwf.nodes_len] at this
    rw [hwf.frames_len]
    exact this
  rcases hf : st.frames.get? f with _ | frame
  · rw [List.get?_eq_none] at hf
    omega
  · exact ⟨⟨node, hget, hevict⟩, frame, rfl,
      hwf.evict_pin f node frame hget hevict hf⟩

/-- Concrete reachable pool state for the C5 witness: a one-frame pool after
acquiring a write guard on page 0 and dropping it. -/
def c5WitnessState : BufferPoolManager :=
  (runOps (BufferPoolManager.new 1 1)
    [BPMOp.checkedWritePage 0, BPMOp.dropGuard 0]).getD (BufferPoolManager.new 1 1)

theorem c5_evict_never_returns_pinned_witness :
    (runOps (BufferPoolManager.new 1 1)
      [BPMOp.checkedWritePage 0, BPMOp.dropGuard 0] = some c5WitnessState) ∧
    ((c5WitnessState.replacer.Evict).1 = some 0) ∧
    ((∃ node, c5WitnessState.replacer.node_store.get? 0 = some node ∧
        node.Evictable = true) ∧
      (∃ frame, c5WitnessState.frames.get? 0 = some frame ∧ frame.pin_count = 0)) :=
  ⟨rfl, rfl,
    c5_evict_never_returns_pinned 1 1 [BPMOp.checkedWritePage 0, BPMOp.dropGuard 0]
      c5WitnessState rfl 0 rfl⟩

/-- The page ids returned by m consecutive NewPage calls from a state. -/
def newPageList (st : BufferPoolManager) : Nat → List Int
  | 0 => []
  | Nat.succ m => (st.NewPage).1 :: newPageList (st.NewPage).2 m

/-- As long as the counter does not cross the wrap point, m consecutive
NewPage calls return the m consecutive integers starting at the counter. -/
theorem newPageList_eq (m : Nat) :
    ∀ st : BufferPoolManager,
      -(2147483648 : Int) ≤ st.next_page_id →
      st.next_page_id + (m : Int) ≤ 2147483648 →
      newPageList st m = (List.range m).map (fun i => st.next_page_id + Int.ofNat i) := by
  induction m with
  | zero => intro st _ _; rfl
  | succ m ih =>
    intro st h1 h2
    rcases Nat.eq_zero_or_pos m with hm0 | hmpos
    · subst hm0
      show [st.next_page_id] = [st.next_page_id + Int.ofNat 0]
      norm_num
    · have hwrap : ((st.NewPage).2).next_page_id = st.next_page_id + 1 := by
        show wrap32 (st.next_page_id + 1) = st.next_page_id + 1
        apply wrap32_eq_self
        · omega
        · push_cast at h2
          omega
      have htail : List.map ((fun i => st.next_page_id + Int.ofNat i) ∘ Nat.succ)
          (List.range m) =
          List.map (fun i => ((st.NewPage).2).next_page_id + Int.ofNat i)
            (List.range m) := by
        apply List.map_congr_left
        intro a _
        show st.next_page_id + Int.ofNat (a + 1) =
          ((st.NewPage).2).next_page_id + Int.ofNat a
        rw [hwrap]
        have hsucc : Int.ofNat (a + 1) = Int.ofNat a + 1 := rfl
        rw [hsucc]
        ring
      rw [newPageList, ih _ (by rw [hwrap]; omega)
        (by rw [hwrap]; push_cast at h2 ⊢; omega),
        List.range_succ_eq_map, List.map_cons, List.map_map, htail]
      show st.next_page_id :: _ = (st.next_page_id + Int.ofNat 0) :: _
      norm_num

/-- The pool state after m consecutive NewPage calls. -/
def newPageIter (st : BufferPoolManager) : Nat → BufferPoolManager
  | 0 => st
  | Nat.succ m => newPageIter (st.NewPage).2 m

theorem newPageList_length : ∀ (m : Nat) (st : BufferPoolManager),
    (newPageList st m).length = m
  | 0, _ => rfl
  | Nat.succ m, st => by
    show ((st.NewPage).1 :: newPageList (st.NewPage).2 m).length = Nat.succ m
    rw [List.length_cons, newPageList_length m]

theorem newPageList_append : ∀ (a b : Nat) (st : BufferPoolManager),
    newPageList st (a + b) =
      newPageList st a ++ newPageList (newPageIter st a) b
  | 0, b, st => by
    rw [Nat.zero_add]
    rfl
  | Nat.succ a, b, st => by
    rw [Nat.succ_add a b]
    show (st.NewPage).1 :: newPageList (st.NewPage).2 (a + b) =
      ((st.NewPage).1 :: newPageList (st.NewPage).2 a) ++
        newPageList (newPageIter st (Nat.succ a)) b
    rw [List.cons_append]
    exact congrArg (List.cons (st.NewPage).1)
      (newPageList_append a b (st.NewPage).2)

theorem newPageList_one (st : BufferPoolManager) :
    (newPageList st 1).get? 0 = some st.next_page_id := rfl

/-- Closed form of the counter after m calls, including the first wrap. -/
theorem newPageIter_next : ∀ (m : Nat) (st : BufferPoolManager),
    -(2147483648 : Int) ≤ st.next_page_id →
    st.next_page_id < 2147483648 →
    st.next_page_id + (m : Int) ≤ 2147483648 →
    (newPageIter st m).next_page_id = wrap32 (st.next_page_id + (m : Int))
  | 0, st, h1, h0, _ => by
    show st.next_page_id = wrap32 (st.next_page_id + ((0 : Nat) : Int))
    have hz : st.next_page_id + ((0 : Nat) : Int) = st.next_page_id := by
      push_cast
      ring
    rw [hz, wrap32_eq_self h1 h0]
  | Nat.succ m, st, h1, h0, h2 => by
    have hstep : newPageIter st (Nat.succ m) = newPageIter (st.NewPage).2 m := rfl
    have hnext : ((st.NewPage).2).next_page_id = wrap32 (st.next_page_id + 1) := rfl
    by_cases hlt : st.next_page_id + 1 < 2147483648
    · have hnext2 : ((st.NewPage).2).next_page_id = st.next_page_id + 1 := by
        rw [hnext, wrap32_eq_self (by omega) hlt]
      rw [hstep, newPageIter_next m (st.NewPage).2 (by rw [hnext2]; omega)
        (by rw [hnext2]; exact hlt)
        (by rw [hnext2]; push_cast at h2 ⊢; omega), hnext2]
      congr 1
      push_cast
      ring
    · have hm0 : m = 0 := by
        push_cast at h2
        omega
      subst hm0
      rw [hstep]
      show ((st.NewPage).2).next_page_id =
        wrap32 (st.next_page_id + ((Nat.succ 0 : Nat) : Int))
      rw [hnext]
      norm_num

/-- Counterexample to the original claim: the atomic page_id_t counter wraps
two's-complement, so call number 2^31 (counting from zero) on a fresh pool
returns -2^31 instead of 2^31 — the returned ids are not unboundedly strictly
increasing consecutive integers. -/
theorem c8_new_page_wrap_counterexample :
    ¬ (∀ (n k m : Nat),
        newPageList (BufferPoolManager.new n k) m =
          (List.range m).map Int.ofNat) := by
  intro hall
  have h := hall 1 1 2147483649
  have hsplit : newPageList (BufferPoolManager.new 1 1) 2147483649 =
      newPageList (BufferPoolManager.new 1 1) 2147483648 ++
        newPageList (newPageIter (BufferPoolManager.new 1 1) 2147483648) 1 := by
    have hs := newPageList_append 2147483648 1 (BufferPoolManager.new 1 1)
    rw [show (2147483648 : Nat) + 1 = 2147483649 from rfl] at hs
    exact hs
  have hlen : (newPageList (BufferPoolManager.new 1 1) 2147483648).length =
      2147483648 := newPageList_length 2147483648 _
  have hiter : (newPageIter (BufferPoolManager.new 1 1) 2147483648).next_page_id =
      -2147483648 := by
    rw [newPageIter_next 2147483648 (BufferPoolManager.new 1 1)
      (by show (-2147483648 : Int) ≤ 0; decide)
      (by show (0 : Int) < 2147483648; decide)
      (by show (0 : Int) + ((2147483648 : Nat) : Int) ≤ 2147483648; decide)]
    show wrap32 ((0 : Int) + ((2147483648 : Nat) : Int)) = -2147483648
    decide
  have hval : (newPageList (BufferPoolManager.new 1 1) 2147483649).get?
      2147483648 = some (-2147483648) := by
    rw [hsplit, List.get?_append_right hlen.le, hlen]
    rw [show (2147483648 : Nat) - 2147483648 = 0 from rfl]
    rw [newPageList_one, hiter]
  have hr : ((List.range 2147483649).map Int.ofNat).get? 2147483648 =
      some 2147483648 := by
    rw [List.get?_map, List.get?_range (by norm_num)]
    rfl
  rw [h, hr] at hval
  injection hval with hval2
  exact absurd hval2 (by decide)

/-- C8 (amended): new_page() never fails (it is a total function of the
state), ensures disk capacity for the returned identifier, and returns the
next-page counter before post-incrementing it with two's-complement wrap at
the width of page_id_t; consequently any run of at most 2^31 consecutive
calls starting from a fresh pool returns exactly 0, 1, 2, ... with no gaps,
while longer runs wrap to negative ids. -/
theorem c8_new_page_monotonic_consecutive :
    (∀ st : BufferPoolManager,
      (st.NewPage).1 = st.next_page_id ∧
      ((st.NewPage).2).next_page_id = wrap32 (st.next_page_id + 1) ∧
      (st.NewPage).1 < ((st.NewPage).2).disk.capacity) ∧
    (∀ (n k m : Nat), m ≤ 2147483648 →
      newPageList (BufferPoolManager.new n k) m =
        (List.range m).map Int.ofNat) := by
  constructor
  · intro st
    refine ⟨rfl, rfl, ?_⟩
    show st.next_page_id < max st.disk.capacity (st.next_page_id + 1)
    exact lt_of_lt_of_le (by omega) (le_max_right _ _)
  · intro n k m hm
    rw [newPageList_eq m (BufferPoolManager.new n k)
      (by show (-2147483648 : Int) ≤ 0; decide)
      (by show (0 : Int) + (m : Int) ≤ 2147483648; omega)]
    apply List.map_congr_left
    intro a _
    show (0 : Int) + Int.ofNat a = Int.ofNat a
    exact zero_add _

/-- Witness for the amended statement: the first identifier on a fresh pool
is 0 and three consecutive calls return 0, 1, 2. -/
theorem c8_new_page_monotonic_consecutive_witness :
    ((BufferPoolManager.new 2 1).NewPage).1 = 0 ∧
    newPageList (BufferPoolManager.new 2 1) 3 = [0, 1, 2] := by
  obtain ⟨h1, h2⟩ := c8_new_page_monotonic_consecutive
  refine ⟨(h1 (BufferPoolManager.new 2 1)).1, ?_⟩
  rw [h2 2 1 3 (by decide)]
  rfl

/-- C10: FlushAllPages reaches the UNIMPLEMENTED abort on every state: it
never returns normally and therefore never flushes any frame. -/
theorem c10_flush_all_pages_always_aborts :
    ∀ st : BufferPoolManager, st.FlushAllPages = none ∧
      ∀ st2, st.FlushAllPages ≠ some st2 := by
  intro st
  exact ⟨rfl, fun st2 h => by cases h⟩

/-- PinFrame always succeeds on an in-range frame id with a present node. -/
theorem pinFrame_total {st : BufferPoolManager} {fid : Nat} {node : LRUKNode}
    (hlt : fid < st.replacer.replacer_size)
    (hnode : st.replacer.node_store.get? fid = some node)
    (pid : Int) (dirty : Bool) :
    ∃ st4, st.PinFrame fid pid dirty = some st4 := by
  have hse : ∃ r1, st.replacer.SetEvictable (fid : Int) false = .ok r1 := by
    unfold LRUKReplacer.SetEvictable
    rw [if_neg (coe_nat_range_not hlt), Int.toNat_ofNat, hnode]
    simp only
    by_cases hflag : node.Evictable = false
    · rw [if_pos hflag]
      exact ⟨_, rfl⟩
    · rw [if_neg hflag]
      exact ⟨_, rfl⟩
  obtain ⟨r1, hr1⟩ := hse
  obtain ⟨_, _, _, hsz, _, _, _, _⟩ := setEvictable_ok_cases hr1
  have hra : ∃ r2, r1.RecordAccess (fid : Int) = .ok r2 := by
    unfold LRUKReplacer.RecordAccess
    rw [if_neg (coe_nat_range_not (by rw [hsz]; exact hlt))]
    exact ⟨_, rfl⟩
  obtain ⟨r2, hr2⟩ := hra
  unfold BufferPoolManager.PinFrame
  rw [hr1]
  simp only
  rw [hr2]
  exact ⟨_, rfl⟩

/-- SwapIn computes to its explicit successor on a valid page and frame. -/
theorem swapIn_eq {st : BufferPoolManager} {pid : Int} {fid : Nat}
    {frame : FrameHeader} (hpid : 0 ≤ pid) (hf : st.frames.get? fid = some frame) :
    st.SwapIn pid fid = some { st with
      frames := modifyIdx (fun f => { f with data := st.disk.readPage pid })
        st.frames fid,
      page_table := ainsert pid fid (aerase frame.page_id st.page_table) } := by
  unfold BufferPoolManager.SwapIn
  rw [if_neg (by omega), hf]

/-- On a miss with a nonempty free list, acquisition succeeds using the back
of the free list, which it pops. -/
theorem acquire_miss_free {st : BufferPoolManager} {pid : Int} (dirty : Bool)
    (hwf : WF st) (hpid : 0 ≤ pid)
    (hmiss : alookup pid st.page_table = none)
    {fid : Nat} (hlast : st.free_frames.getLast? = some fid) :
    ∃ st4, st.AcquirePage pid dirty = some (some (fid, st4)) ∧
      st4.free_frames = st.free_frames.dropLast ∧
      (∀ frame, st.frames.get? fid = some frame → frame.is_dirty = true →
        st4.disk.readPage frame.page_id = frame.data) := by
  have hmem : fid ∈ st.free_frames := mem_of_getLast?_some hlast
  have hfidlt : fid < st.num_frames := hwf.free_lt fid hmem
  rcases hf : st.frames.get? fid with _ | frame
  · exfalso
    rw [List.get?_eq_none, hwf.frames_len] at hf
    omega
  rcases hnode : st.replacer.node_store.get? fid with _ | node
  · exfalso
    rw [List.get?_eq_none, hwf.nodes_len] at hnode
    omega
  have hclean : frame.is_dirty = false := hwf.free_clean fid frame hmem hf
  have h1 : st.FindFreeOrEvict =
      some (fid, { st with free_frames := st.free_frames.dropLast }) := by
    unfold BufferPoolManager.FindFreeOrEvict BufferPoolManager.GetFreeFrame
    rw [hlast]
  have hf1 : ({ st with free_frames := st.free_frames.dropLast } :
      BufferPoolManager).frames.get? fid = some frame := hf
  have hsw := swapIn_eq hpid hf1
  obtain ⟨st4, hpf⟩ := @pinFrame_total ({ st with
      frames := modifyIdx (fun f => { f with data := st.disk.readPage pid })
        st.frames fid,
      page_table := ainsert pid fid (aerase frame.page_id st.page_table),
      free_frames := st.free_frames.dropLast } : BufferPoolManager) _ _
    (by rw [hwf.rsize]; exact hfidlt) (hnode) pid dirty
  refine ⟨st4, ?_, ?_, ?_⟩
  · unfold BufferPoolManager.AcquirePage BufferPoolManager.GetFrame
    rw [hmiss]
    simp only
    rw [h1]
    simp only
    rw [hf1]
    simp only
    rw [hclean]
    simp only [Bool.false_eq_true, if_false]
    rw [hsw]
    simp only
    rw [hpf]
  · obtain ⟨_, _, _, _, _, _, hfree, _, _⟩ := pinFrame_success hpf
    rw [hfree]
  · intro frame2 hf2 hdirty
    injection hf2 with hf2e
    subst hf2e
    rw [hclean] at hdirty
    cases hdirty

/-- On a miss with an empty free list and an evictable victim, acquisition
succeeds using the victim frame, flushing it first when dirty. -/
theorem acquire_miss_evict {st : BufferPoolManager} {pid : Int} (dirty : Bool)
    (hwf : WF st) (hpid : 0 ≤ pid)
    (hmiss : alookup pid st.page_table = none)
    (hfree : st.free_frames = [])
    {fid : Nat} (hev : (st.replacer.Evict).1 = some fid) :
    ∃ st4, st.AcquirePage pid dirty = some (some (fid, st4)) ∧
      (∀ frame, st.frames.get? fid = some frame → frame.is_dirty = true →
        st4.disk.readPage frame.page_id = frame.data) := by
  obtain ⟨node, hget, hevict, _⟩ := (evict_characterization st.replacer).2 fid hev
  have hfidlt : fid < st.num_frames := by
    have := lt_length_of_get?_some hget
    rw [hwf.nodes_len] at this
    exact this
  rcases hf : st.frames.get? fid with _ | frame
  · exfalso
    rw [List.get?_eq_none, hwf.frames_len] at hf
    omega
  have hptab : alookup frame.page_id st.page_table = some fid :=
    hwf.evict_table fid node frame hget hevict hf
  have hpair : st.replacer.Evict = (some fid, (st.replacer.Evict).2) := by
    rw [← hev]
  have h1 : st.FindFreeOrEvict =
      some (fid, { st with replacer := (st.replacer.Evict).2 }) := by
    unfold BufferPoolManager.FindFreeOrEvict BufferPoolManager.GetFreeFrame
    rw [hfree]
    simp only [List.getLast?]
    rw [hpair]
  have hf1 : ({ st with replacer := (st.replacer.Evict).2 } :
      BufferPoolManager).frames.get? fid = some frame := hf
  have hnodelt : fid < (st.replacer.Evict).2.replacer_size := by
    rw [evict_effects hev]
    show fid < st.replacer.replacer_size
    rw [hwf.rsize]
    exact hfidlt
  have hnodeget : (st.replacer.Evict).2.node_store.get? fid = some node.Evict := by
    rw [evict_effects hev]
    show (modifyIdx LRUKNode.Evict st.replacer.node_store fid).get? fid = _
    rw [get?_modifyIdx_self, hget]
    rfl
  by_cases hdirty : frame.is_dirty = true
  · have hfl : ({ st with replacer := (st.replacer.Evict).2 } :
        BufferPoolManager).FlushPage frame.page_id =
        some (true,
          { st with
              replacer := (st.replacer.Evict).2,
              disk := st.disk.writePage frame.page_id frame.data,
              frames := modifyIdx (fun f => { f with is_dirty := false })
                st.frames fid }) := by
      unfold BufferPoolManager.FlushPage
      have hpt : alookup frame.page_id
          ({ st with replacer := (st.replacer.Evict).2 } :
            BufferPoolManager).page_table = some fid := hptab
      rw [hpt]
      simp only
      rw [hf1]
      simp
    have hf2 : ({ st with
          replacer := (st.replacer.Evict).2,
          disk := st.disk.writePage frame.page_id frame.data,
          frames := modifyIdx (fun f => { f with is_dirty := false })
            st.frames fid } : BufferPoolManager).frames.get? fid =
        some { frame with is_dirty := false } := by
      show (modifyIdx _ st.frames fid).get? fid = _
      rw [get?_modifyIdx_self, hf]
      rfl
    have hsw := swapIn_eq hpid hf2
    obtain ⟨st4, hpf⟩ := @pinFrame_total ({ st with
        replacer := (st.replacer.Evict).2,
        disk := st.disk.writePage frame.page_id frame.data,
        frames := modifyIdx (fun f => { f with data :=
            (st.disk.writePage frame.page_id frame.data).readPage pid })
          (modifyIdx (fun f => { f with is_dirty := false }) st.frames fid) fid,
        page_table := ainsert pid fid (aerase ({ frame with is_dirty := false } :
            FrameHeader).page_id st.page_table) } : BufferPoolManager) _ _
      hnodelt hnodeget pid dirty
    refine ⟨st4, ?_, ?_⟩
    · unfold BufferPoolManager.AcquirePage BufferPoolManager.GetFrame
      rw [hmiss]
      simp only
      rw [h1]
      simp only
      rw [hf1]
      simp only
      rw [hdirty]
      simp only [if_true]
      rw [hfl]
      simp only [Option.map_some']
      rw [hsw]
      simp only
      rw [hpf]
    · intro frame2 hfr2 hdirty2
      injection hfr2 with he
      subst he
      obtain ⟨_, _, _, _, _, _, _, hdisk4, _⟩ := pinFrame_success hpf
      rw [hdisk4]
      show ((st.disk.writePage frame.page_id frame.data).readPage frame.page_id) = _
      unfold Disk.readPage Disk.writePage
      simp only
      rw [alookup_ainsert_self]
      rfl
  · have hsw := swapIn_eq hpid hf1
    obtain ⟨st4, hpf⟩ := @pinFrame_total ({ st with
        replacer := (st.replacer.Evict).2,
        frames := modifyIdx (fun f => { f with data := st.disk.readPage pid })
          st.frames fid,
        page_table := ainsert pid fid (aerase frame.page_id st.page_table) } :
        BufferPoolManager) _ _
      hnodelt hnodeget pid dirty
    refine ⟨st4, ?_, ?_⟩
    · unfold BufferPoolManager.AcquirePage BufferPoolManager.GetFrame
      rw [hmiss]
      simp only
      rw [h1]
      simp only
      rw [hf1]
      simp only
      rw [show frame.is_dirty = false by simpa using hdirty]
      simp only [Bool.false_eq_true, if_false]
      rw [hsw]
      simp only
      rw [hpf]
    · intro frame2 hfr2 hdirty2
      injection hfr2 with he
      subst he
      rw [hdirty2] at hdirty
      exact absurd rfl hdirty

/-- On a miss with an empty free list and no evictable victim, acquisition
reports out of memory. -/
theorem acquire_miss_oom {st : BufferPoolManager} {pid : Int} (dirty : Bool)
    (hmiss : alookup pid st.page_table = none)
    (hfree : st.free_frames = [])
    (hev : (st.replacer.Evict).1 = none) :
    st.AcquirePage pid dirty = some none := by
  have hpair : st.replacer.Evict = (none, (st.replacer.Evict).2) := by
    rw [← hev]
  unfold BufferPoolManager.AcquirePage BufferPoolManager.GetFrame
  rw [hmiss]
  simp only
  unfold BufferPoolManager.FindFreeOrEvict BufferPoolManager.GetFreeFrame
  rw [hfree]
  simp only [List.getLast?]
  rw [hpair]

/-- C4: on a page-acquisition miss, CheckedReadPage and CheckedWritePage
obtain the target frame by first popping the back of the free list; only with
an empty free list do they ask the replacer to evict; if neither yields a
frame they return the out-of-memory none; and a dirty chosen frame has its
current page flushed to disk before the new page is swapped in (the final disk
holds the old frame contents under the old page id). -/
theorem c4_miss_acquisition_policy (st : BufferPoolManager) (pid : Int)
    (hwf : WF st) (hpid : 0 ≤ pid) (hmiss : st.GetFrame pid = none) :
    (∀ fid, st.free_frames.getLast? = some fid →
      (∃ st4, st.CheckedWritePage pid = some (some (fid, st4)) ∧
        st4.free_frames = st.free_frames.dropLast ∧
        (∀ frame, st.frames.get? fid = some frame → frame.is_dirty = true →
          st4.disk.readPage frame.page_id = frame.data)) ∧
      (∃ st4, st.CheckedReadPage pid = some (some (fid, st4)) ∧
        st4.free_frames = st.free_frames.dropLast ∧
        (∀ frame, st.frames.get? fid = some frame → frame.is_dirty = true →
          st4.disk.readPage frame.page_id = frame.data))) ∧
    (st.free_frames = [] → (st.replacer.Evict).1 = none →
      st.CheckedWritePage pid = some none ∧ st.CheckedReadPage pid = some none) ∧
    (∀ fid, st.free_frames = [] → (st.replacer.Evict).1 = some fid →
      (∃ st4, st.CheckedWritePage pid = some (some (fid, st4)) ∧
        (∀ frame, st.frames.get? fid = some frame → frame.is_dirty = true →
          st4.disk.readPage frame.page_id = frame.data)) ∧
      (∃ st4, st.CheckedReadPage pid = some (some (fid, st4)) ∧
        (∀ frame, st.frames.get? fid = some frame → frame.is_dirty = true →
          st4.disk.readPage frame.page_id = frame.data))) := by
  have hmiss2 : alookup pid st.page_table = none := hmiss
  refine ⟨?_, ?_, ?_⟩
  · intro fid hlast
    obtain ⟨s1, h1, hfree1, hd1⟩ := acquire_miss_free true hwf hpid hmiss2 hlast
    obtain ⟨s2, h2, hfree2, hd2⟩ := acquire_miss_free false hwf hpid hmiss2 hlast
    refine ⟨⟨s1, ?_, hfree1, hd1⟩, ⟨s2, ?_, hfree2, hd2⟩⟩
    · rw [checkedWritePage_eq_acquire]
      exact h1
    · rw [checkedReadPage_eq_acquire]
      exact h2
  · intro hfree hev
    constructor
    · rw [checkedWritePage_eq_acquire]
      exact acquire_miss_oom true hmiss2 hfree hev
    · rw [checkedReadPage_eq_acquire]
      exact acquire_miss_oom false hmiss2 hfree hev
  · intro fid hfree hev
    obtain ⟨s1, h1, hd1⟩ := acquire_miss_evict true hwf hpid hmiss2 hfree hev
    obtain ⟨s2, h2, hd2⟩ := acquire_miss_evict false hwf hpid hmiss2 hfree hev
    refine ⟨⟨s1, ?_, hd1⟩, ⟨s2, ?_, hd2⟩⟩
    · rw [checkedWritePage_eq_acquire]
      exact h1
    · rw [checkedReadPage_eq_acquire]
      exact h2

theorem c4_miss_acquisition_policy_witness :
    (0 ≤ (5 : Int)) ∧ ((BufferPoolManager.new 2 1).GetFrame 5 = none) ∧
    (∀ fid, (BufferPoolManager.new 2 1).free_frames.getLast? = some fid →
      (∃ st4, (BufferPoolManager.new 2 1).CheckedWritePage 5 =
          some (some (fid, st4)) ∧
        st4.free_frames = (BufferPoolManager.new 2 1).free_frames.dropLast ∧
        (∀ frame, (BufferPoolManager.new 2 1).frames.get? fid = some frame →
          frame.is_dirty = true → st4.disk.readPage frame.page_id = frame.data)) ∧
      (∃ st4, (BufferPoolManager.new 2 1).CheckedReadPage 5 =
          some (some (fid, st4)) ∧
        st4.free_frames = (BufferPoolManager.new 2 1).free_frames.dropLast ∧
        (∀ frame, (BufferPoolManager.new 2 1).frames.get? fid = some frame →
          frame.is_dirty = true → st4.disk.readPage frame.page_id = frame.data))) :=
  ⟨by decide, rfl,
    (c4_miss_acquisition_policy (BufferPoolManager.new 2 1) 5 (WF_new 2 1)
      (by decide) rfl).1⟩

/-- C6: delete_page returns true without changing state when the page is not
resident; returns false and changes nothing when the page is resident with a
positive pin count; and otherwise flushes the frame if dirty, pushes the frame
id onto the free list, asks the scheduler to deallocate the page, removes the
frame from the replacer, erases the page-table entry, resets the frame header,
and returns true. In a wellformed state a resident unpinned frame's node is
present, so the hypothesis that it is evictable matches every reachable
state. -/
theorem c6_delete_page (st : BufferPoolManager) (pid : Int) (hwf : WF st) :
    (st.GetFrame pid = none → st.DeletePage pid = some (true, st)) ∧
    (∀ fid frame, st.GetFrame pid = some fid → st.frames.get? fid = some frame →
      frame.pin_count ≠ 0 → st.DeletePage pid = some (false, st)) ∧
    (∀ fid frame node, st.GetFrame pid = some fid →
      st.frames.get? fid = some frame → frame.pin_count = 0 →
      st.replacer.node_store.get? fid = some node → node.Evictable = true →
      ∃ st2, st.DeletePage pid = some (true, st2) ∧
        (frame.is_dirty = true → st2.disk.readPage pid = frame.data) ∧
        st2.free_frames = st.free_frames ++ [fid] ∧
        st2.disk.deallocated = pid :: st.disk.deallocated ∧
        (∀ node2, st2.replacer.node_store.get? fid = some node2 →
          node2.Evictable = false ∧ node2.history = []) ∧
        alookup pid st2.page_table = none ∧
        st2.frames.get? fid = some frame.Reset) := by
  refine ⟨?_, ?_, ?_⟩
  · intro hq
    unfold BufferPoolManager.DeletePage
    rw [hq]
  · intro fid frame hq hf hpin
    unfold BufferPoolManager.DeletePage
    rw [hq]
    simp only
    rw [hf]
    simp only
    rw [if_pos hpin]
  · intro fid frame node hq hf hpin hnode hev
    have hfid : frame.frame_id = fid := hwf.frame_ids fid frame hf
    have hpidf : frame.page_id = pid := hwf.table_pid pid fid frame hq hf
    have hexist : node.Existence = true := hwf.table_exist pid fid node hq hnode
    have hfidlt : fid < st.num_frames := hwf.table_lt pid fid hq
    have hrm : ∀ r : LRUKReplacer, r = st.replacer →
        r.Remove (frame.frame_id : Int) = .ok { st.replacer with
          node_store := modifyIdx LRUKNode.Evict st.replacer.node_store fid,
          curr_size := dec64 st.replacer.curr_size } := by
      intro r hr
      subst hr
      unfold LRUKReplacer.Remove
      rw [hfid]
      rw [if_neg (coe_nat_range_not (by rw [hwf.rsize]; exact hfidlt)),
        Int.toNat_ofNat, hnode]
      simp only
      rw [if_neg (by rw [hexist]; simp), if_neg (by rw [hev]; simp)]
    have hq2 : alookup pid st.page_table = some fid := hq
    unfold BufferPoolManager.DeletePage BufferPoolManager.GetFrame
    rw [hq2]
    simp only
    rw [hf]
    simp only
    rw [if_neg (by omega)]
    by_cases hdirty : frame.is_dirty = true
    · rw [hdirty]
      simp only [if_true]
      have hfl : st.FlushPage frame.page_id = some (true,
          { st with
              disk := st.disk.writePage frame.page_id frame.data,
              frames := modifyIdx (fun f => { f with is_dirty := false })
                st.frames fid }) := by
        unfold BufferPoolManager.FlushPage
        rw [hpidf, hq2]
        simp only
        rw [hf]
        simp [hpidf]
      rw [hfl]
      simp only [Option.map_some']
      rw [hrm _ rfl]
      simp only
      refine ⟨_, rfl, ?_, ?_, rfl, ?_, ?_, ?_⟩
      · intro _
        show ((st.disk.writePage frame.page_id frame.data).DeallocatePage
          pid).readPage pid = frame.data
        unfold Disk.readPage Disk.writePage Disk.DeallocatePage
        simp only
        rw [hpidf, alookup_ainsert_self]
        rfl
      · show st.free_frames ++ [frame.frame_id] = st.free_frames ++ [fid]
        rw [hfid]
      · intro node2 hn2
        have : (modifyIdx LRUKNode.Evict st.replacer.node_store fid).get? fid
            = some node2 := hn2
        rw [get?_modifyIdx_self, hnode] at this
        injection this with h2
        subst h2
        exact ⟨rfl, rfl⟩
      · exact alookup_aerase_self pid _
      · show (modifyIdx FrameHeader.Reset
          (modifyIdx (fun f => { f with is_dirty := false }) st.frames fid)
          fid).get? fid = some frame.Reset
        rw [get?_modifyIdx_self, get?_modifyIdx_self, hf]
        rfl
    · rw [show frame.is_dirty = false by simpa using hdirty]
      simp only [Bool.false_eq_true, if_false]
      rw [hrm _ rfl]
      simp only
      refine ⟨_, rfl, ?_, ?_, rfl, ?_, ?_, ?_⟩
      · intro hcontra
        exact hcontra.elim
      · show st.free_frames ++ [frame.frame_id] = st.free_frames ++ [fid]
        rw [hfid]
      · intro node2 hn2
        have : (modifyIdx LRUKNode.Evict st.replacer.node_store fid).get? fid
            = some node2 := hn2
        rw [get?_modifyIdx_self, hnode] at this
        injection this with h2
        subst h2
        exact ⟨rfl, rfl⟩
      · exact alookup_aerase_self pid _
      · show (modifyIdx FrameHeader.Reset st.frames fid).get? fid =
          some frame.Reset
        rw [get?_modifyIdx_self, hf]
        rfl

/-- Witness for the delete_page characterization at a concrete reachable state:
page 0 resides in frame 0 with pin count 0 and a dirty frame, its replacer node
is evictable, and deleting it succeeds with the frame returned to the free
list, the page deallocated and the page-table entry erased. -/
theorem c6_delete_page_witness :
    ∃ st2, c5WitnessState.DeletePage 0 = some (true, st2) ∧
      st2.free_frames = c5WitnessState.free_frames ++ [0] ∧
      st2.disk.deallocated = 0 :: c5WitnessState.disk.deallocated ∧
      alookup 0 st2.page_table = none := by
  obtain ⟨-, -, h3⟩ :=
    c6_delete_page c5WitnessState 0 (runOps_WF (WF_new 1 1)
      (show runOps (BufferPoolManager.new 1 1)
        [BPMOp.checkedWritePage 0, BPMOp.dropGuard 0] = some c5WitnessState
        from rfl))
  obtain ⟨st2, hdel, -, hfree, hdeall, -, htab, -⟩ :=
    h3 0
      { frame_id := 0, data := List.replicate 4096 0, pin_count := 0,
        is_dirty := true, page_id := 0 }
      { k := 1, fid := Int.ofNat 0, history := [0], is_evictable := true,
        exist := true }
      rfl rfl rfl rfl rfl
  exact ⟨st2, hdel, hfree, hdeall, htab⟩

/-- Page p holds content B in a pool state: when resident, the frame buffer
holds B and, when the frame is clean, the disk copy agrees; when not resident,
the disk copy holds B. -/
def ContentIs (st : BufferPoolManager) (p : Int) (B : List Nat) : Prop :=
  (∀ fid f, alookup p st.page_table = some fid → st.frames.get? fid = some f →
    f.data = B ∧ (f.is_dirty = false → st.disk.readPage p = B)) ∧
  (alookup p st.page_table = none → st.disk.readPage p = B)

/-- An operation that neither rewrites nor deletes page p itself; every other
operation, including acquisitions that evict p's frame, is allowed. -/
def SafeFor (p : Int) : BPMOp → Bool
  | BPMOp.writeData q _ => decide (q ≠ p)
  | BPMOp.deletePage q => decide (q ≠ p)
  | _ => true

theorem readPage_writePage_self (d : Disk) (p : Int) (b : List Nat) :
    (d.writePage p b).readPage p = b := by
  unfold Disk.readPage Disk.writePage
  simp only
  rw [alookup_ainsert_self]
  rfl

theorem readPage_writePage_ne (d : Disk) {q p : Int} (b : List Nat) (h : q ≠ p) :
    (d.writePage q b).readPage p = d.readPage p := by
  unfold Disk.readPage Disk.writePage
  simp only
  rw [alookup_ainsert_ne h]

theorem or_eq_false_left {a b : Bool} (h : (a || b) = false) : a = false := by
  cases a
  · rfl
  · cases h

/-- ContentIs transfers to a state whose page-table entry for p, disk content
at p, and resident frame (up to the data and dirty bits) are unchanged. -/
theorem ContentIs_mono {st st1 : BufferPoolManager} {p : Int} {B : List Nat}
    (hC : ContentIs st p B)
    (ht : alookup p st1.page_table = alookup p st.page_table)
    (hd : st1.disk.readPage p = st.disk.readPage p)
    (hf : ∀ fid f1, alookup p st.page_table = some fid →
      st1.frames.get? fid = some f1 →
      ∃ f, st.frames.get? fid = some f ∧ f1.data = f.data ∧
        (f1.is_dirty = false → f.is_dirty = false)) :
    ContentIs st1 p B := by
  obtain ⟨h1, h2⟩ := hC
  constructor
  · intro fid f1 hq hg
    rw [ht] at hq
    obtain ⟨f, hgf, hdata, hdirty⟩ := hf fid f1 hq hg
    obtain ⟨hda, hdi⟩ := h1 fid f hq hgf
    refine ⟨hdata.trans hda, ?_⟩
    intro hcl
    rw [hd]
    exact hdi (hdirty hcl)
  · intro hq
    rw [ht] at hq
    rw [hd]
    exact h2 hq

theorem flushPage_table {st st1 : BufferPoolManager} {q : Int} {b : Bool}
    (h : st.FlushPage q = some (b, st1)) : st1.page_table = st.page_table := by
  rcases flushPage_success h with ⟨-, -, heq⟩ | ⟨-, fid, frame, hq, hf, hpid, heq⟩ <;>
    rw [heq]

/-- Flushing any page preserves ContentIs: flushing p itself copies its bytes
to disk, flushing another page leaves p's frame and disk copy alone. -/
theorem ContentIs_flushPage {st st1 : BufferPoolManager} {q : Int} {b : Bool}
    {p : Int} {B : List Nat}
    (hinj : ∀ q2 fid, alookup q2 st.page_table = some fid →
      alookup p st.page_table = some fid → q2 = p)
    (hC : ContentIs st p B)
    (h : st.FlushPage q = some (b, st1)) : ContentIs st1 p B := by
  rcases flushPage_success h with ⟨-, -, heq⟩ | ⟨-, fid, frame, hq, hf, hpid, heq⟩
  · rw [heq]
    exact hC
  · have ht1 : st1.page_table = st.page_table := by rw [heq]
    have hd1 : st1.disk = st.disk.writePage q frame.data := by rw [heq]
    have hfr1 : st1.frames = modifyIdx (fun f => { f with is_dirty := false })
        st.frames fid := by rw [heq]
    by_cases hqp : q = p
    · subst hqp
      obtain ⟨hdata, -⟩ := hC.1 fid frame hq hf
      constructor
      · intro fid' f1 hq' hg'
        rw [ht1, hq] at hq'
        injection hq' with hfid'
        subst hfid'
        rw [hfr1, get?_modifyIdx_self, hf] at hg'
        simp only [Option.map_some', Option.some.injEq] at hg'
        subst hg'
        refine ⟨hdata, fun hcl => ?_⟩
        rw [hd1, readPage_writePage_self]
        exact hdata
      · intro hq'
        rw [ht1, hq] at hq'
        cases hq'
    · apply ContentIs_mono hC
      · rw [ht1]
      · rw [hd1]
        exact readPage_writePage_ne st.disk frame.data hqp
      · intro fid_p f1 hp hg1
        have hne : fid ≠ fid_p := fun hcontra => hqp (hinj q fid hq (hcontra ▸ hp))
        rw [hfr1, get?_modifyIdx_ne _ _ hne] at hg1
        exact ⟨f1, hg1, rfl, fun hcl => hcl⟩

/-- Writing through a guard on a different page preserves ContentIs for p. -/
theorem ContentIs_writeData {st : BufferPoolManager} {p q : Int} {b B : List Nat}
    (hwf : WF st) (hC : ContentIs st p B) (hqp : q ≠ p) :
    ContentIs (st.WriteData q b) p B := by
  unfold BufferPoolManager.WriteData
  rcases hq : alookup q st.page_table with _ | fidq
  · exact hC
  · simp only
    apply ContentIs_mono hC
    · rfl
    · rfl
    · intro fid_p f1 hp hg1
      have hne : fidq ≠ fid_p := fun hcontra => hqp (hwf.table_inj (hcontra ▸ hq) hp)
      have hg2 : (modifyIdx (fun f => { f with data := b }) st.frames fidq).get?
          fid_p = some f1 := hg1
      rw [get?_modifyIdx_ne _ _ hne] at hg2
      exact ⟨f1, hg2, rfl, fun hcl => hcl⟩

/-- Dropping any guard preserves ContentIs: only pin counts and the replacer
change. -/
theorem ContentIs_dropGuard {st st1 : BufferPoolManager} {q p : Int}
    {B : List Nat} (hC : ContentIs st p B) (h : st.DropGuard q = some st1) :
    ContentIs st1 p B := by
  rcases dropGuard_success h with ⟨-, heq⟩ | ⟨fid, frame, hq, hf, hcases⟩
  · rw [heq]
    exact hC
  · rcases hcases with ⟨-, heq⟩ | ⟨-, hframes, htab, -, hdisk, -, -, -⟩
    · rw [heq]
      exact hC
    · apply ContentIs_mono hC
      · rw [htab]
      · rw [hdisk]
      · intro fid_p f1 hp hg1
        rw [hframes] at hg1
        rcases get?_modifyIdx_cases hg1 with ⟨-, hget⟩ | ⟨heq2, f0, hget, hf1⟩
        · exact ⟨f1, hget, rfl, fun hcl => hcl⟩
        · refine ⟨f0, ?_, ?_, ?_⟩
          · rw [heq2]
            exact hget
          · rw [hf1]
          · intro hcl
            rw [hf1] at hcl
            exact hcl

/-- Deleting a different page preserves ContentIs for p. -/
theorem ContentIs_deletePage {st st1 : BufferPoolManager} {q p : Int} {b : Bool}
    {B : List Nat} (hwf : WF st) (hC : ContentIs st p B) (hqp : q ≠ p)
    (h : st.DeletePage q = some (b, st1)) : ContentIs st1 p B := by
  rcases deletePage_success h with ⟨-, -, heq⟩ | ⟨fid, frame, hq, hf, hcases⟩
  · rw [heq]
    exact hC
  · rcases hcases with ⟨-, -, heq⟩ | ⟨-, -, stf, hflush, r1, -, heq⟩
    · rw [heq]
      exact hC
    · have hpidq : frame.page_id = q := hwf.table_pid q fid frame hq hf
      have hCf : ContentIs stf p B := by
        rcases hflush with ⟨-, heqf⟩ | ⟨-, bb, hfl⟩
        · rw [heqf]
          exact hC
        · exact ContentIs_flushPage (fun q2 f2 h1 h2 => hwf.table_inj h1 h2) hC hfl
      have htabf : stf.page_table = st.page_table := by
        rcases hflush with ⟨-, heqf⟩ | ⟨-, bb, hfl⟩
        · rw [heqf]
        · exact flushPage_table hfl
      subst heq
      apply ContentIs_mono hCf
      · show alookup p (aerase q stf.page_table) = _
        exact alookup_aerase_ne hqp _
      · show (stf.disk.DeallocatePage q).readPage p = _
        rfl
      · intro fid_p f1 hp hg1
        have hne : fid ≠ fid_p := by
          intro hcontra
          subst hcontra
          rw [htabf] at hp
          exact hqp (hwf.table_inj hq hp)
        have hg2 : (modifyIdx FrameHeader.Reset stf.frames fid).get? fid_p =
            some f1 := hg1
        rw [get?_modifyIdx_ne _ _ hne] at hg2
        exact ⟨f1, hg2, rfl, fun hcl => hcl⟩

/-- After a successful acquisition the requested page is resident in the
returned frame, and a dirty acquisition leaves the frame marked dirty. -/
theorem acquire_resident {st st4 : BufferPoolManager} {q : Int} {dirty : Bool}
    {fid : Nat} (hwf : WF st)
    (h : st.AcquirePage q dirty = some (some (fid, st4))) :
    alookup q st4.page_table = some fid ∧
    ∃ f, st4.frames.get? fid = some f ∧ (dirty = true → f.is_dirty = true) := by
  rcases acquire_success_cases h with ⟨hq, hpf⟩ | ⟨hmiss, st1, frame, st2, st3,
    hffe, hfr, hflush, hsw, hpf⟩
  · obtain ⟨node, -, hlt, -, -, htab, -, -, hframes, -, -, -, -⟩ :=
      pinFrame_success hpf
    have hlt2 : fid < st.frames.length := by
      rw [hwf.frames_len, ← hwf.rsize]
      exact hlt
    rcases hf0 : st.frames.get? fid with _ | f0
    · rw [List.get?_eq_none] at hf0
      omega
    · refine ⟨by rw [htab]; exact hq, ?_⟩
      refine ⟨{ f0 with pin_count := inc64 f0.pin_count, page_id := q, is_dirty := f0.is_dirty || dirty }, ?_, ?_⟩
      · rw [hframes, get?_modifyIdx_self, hf0]
        rfl
      · intro hdt
        show (f0.is_dirty || dirty) = true
        rw [hdt]
        exact Bool.or_true _
  · obtain ⟨-, frame3, hfr3, hst3⟩ := swapIn_success hsw
    subst hst3
    obtain ⟨node, -, -, -, -, htab4, -, -, hframes4, -, -, -, -⟩ :=
      pinFrame_success hpf
    have htabs : st4.page_table =
        ainsert q fid (aerase frame3.page_id st2.page_table) := htab4
    have hframess : st4.frames = modifyIdx (fun f =>
        { f with pin_count := inc64 f.pin_count, page_id := q,
                 is_dirty := f.is_dirty || dirty })
        (modifyIdx (fun f => { f with data := st2.disk.readPage q })
          st2.frames fid) fid := hframes4
    refine ⟨?_, ?_⟩
    · rw [htabs, alookup_ainsert_self]
    · refine ⟨{ frame3 with data := st2.disk.readPage q, pin_count := inc64 frame3.pin_count, page_id := q, is_dirty := frame3.is_dirty || dirty }, ?_, ?_⟩
      · rw [hframess, get?_modifyIdx_self, get?_modifyIdx_self, hfr3]
        rfl
      · intro hdt
        show ((({ frame3 with data := st2.disk.readPage q } : FrameHeader)).is_dirty
          || dirty) = true
        rw [hdt]
        exact Bool.or_true _

/-- A successful page acquisition preserves the content of every page: a hit
only pins, a miss flushes a dirty victim before overwriting its frame so the
dirty bytes reach disk, and a reload of the page itself reads them back. -/
theorem ContentIs_acquire {st st4 : BufferPoolManager} {q : Int} {dirty : Bool}
    {fid : Nat} {p : Int} {B : List Nat} (hwf : WF st) (hC : ContentIs st p B)
    (h : st.AcquirePage q dirty = some (some (fid, st4))) : ContentIs st4 p B := by
  rcases acquire_success_cases h with ⟨hq, hpf⟩ | ⟨hmiss, st1, frame, st2, st3,
    hffe, hfr, hflush, hsw, hpf⟩
  · obtain ⟨node, -, -, -, -, htab, -, hdisk, hframes, -, -, -, -⟩ :=
      pinFrame_success hpf
    apply ContentIs_mono hC
    · rw [htab]
    · rw [hdisk]
    · intro fid_p f1 hp hg1
      rw [hframes] at hg1
      rcases get?_modifyIdx_cases hg1 with ⟨-, hget⟩ | ⟨heq2, f0, hget, hf1⟩
      · exact ⟨f1, hget, rfl, fun hcl => hcl⟩
      · refine ⟨f0, ?_, ?_, ?_⟩
        · rw [heq2]
          exact hget
        · rw [hf1]
        · intro hcl
          rw [hf1] at hcl
          have hcl2 : (f0.is_dirty || dirty) = false := hcl
          exact or_eq_false_left hcl2
  · rcases findFreeOrEvict_success hffe with ⟨hlast, hst1⟩ | ⟨hfree0, hev, hst1⟩
    · subst hst1
      have hfr' : st.frames.get? fid = some frame := hfr
      have hmem : fid ∈ st.free_frames := mem_of_getLast?_some hlast
      have hclean : frame.is_dirty = false := hwf.free_clean fid frame hmem hfr'
      have hpidneg : frame.page_id = -1 := hwf.free_pid fid frame hmem hfr'
      have hst2 : st2 = { st with free_frames := st.free_frames.dropLast } := by
        rcases hflush with ⟨-, h2⟩ | ⟨hd, -⟩
        · exact h2
        · rw [hclean] at hd
          cases hd
      subst hst2
      obtain ⟨-, frame3, hfr3, hst3⟩ := swapIn_success hsw
      have hframe3 : frame3 = frame := by
        have hfr3' : st.frames.get? fid = some frame3 := hfr3
        rw [hfr'] at hfr3'
        injection hfr3' with h3
        exact h3.symm
      rw [hframe3] at hst3
      subst hst3
      obtain ⟨node, -, -, -, -, htab4, -, hdisk4, hframes4, -, -, -, -⟩ :=
        pinFrame_success hpf
      have htabs : st4.page_table =
          ainsert q fid (aerase frame.page_id st.page_table) := htab4
      have hdisks : st4.disk = st.disk := hdisk4
      have hframess : st4.frames = modifyIdx (fun f =>
          { f with pin_count := inc64 f.pin_count, page_id := q,
                   is_dirty := f.is_dirty || dirty })
          (modifyIdx (fun f => { f with data := st.disk.readPage q })
            st.frames fid) fid := hframes4
      by_cases hqp : q = p
      · subst hqp
        have hB : st.disk.readPage q = B := hC.2 hmiss
        constructor
        · intro fid' f1 hq' hg'
          rw [htabs, alookup_ainsert_self] at hq'
          injection hq' with hfid'
          subst hfid'
          rw [hframess, get?_modifyIdx_self, get?_modifyIdx_self, hfr'] at hg'
          simp only [Option.map_some', Option.some.injEq] at hg'
          subst hg'
          refine ⟨hB, fun _ => ?_⟩
          rw [hdisks]
          exact hB
        · intro hq'
          rw [htabs, alookup_ainsert_self] at hq'
          cases hq'
      · apply ContentIs_mono hC
        · rw [htabs, alookup_ainsert_ne hqp, hpidneg]
          by_cases hp1 : p = -1
          · subst hp1
            rw [alookup_aerase_self, hwf.alookup_neg (by norm_num)]
          · exact alookup_aerase_ne (fun hcontra => hp1 hcontra.symm) _
        · rw [hdisks]
        · intro fid_p f1 hp hg1
          have hne : fid ≠ fid_p := by
            intro hcontra
            subst hcontra
            exact hwf.resident_not_free hp hmem
          rw [hframess, get?_modifyIdx_ne _ _ hne, get?_modifyIdx_ne _ _ hne]
            at hg1
          exact ⟨f1, hg1, rfl, fun hcl => hcl⟩
    · subst hst1
      have hfr' : st.frames.get? fid = some frame := hfr
      obtain ⟨node, hnode, hevict, -⟩ := (evict_characterization st.replacer).2 fid hev
      have hq0res : alookup frame.page_id st.page_table = some fid :=
        hwf.evict_table fid node frame hnode hevict hfr'
      have hst2facts :
          st2.page_table = st.page_table ∧
          (∀ j, j ≠ fid → st2.frames.get? j = st.frames.get? j) ∧
          (∃ frame2, st2.frames.get? fid = some frame2 ∧
            frame2.page_id = frame.page_id) ∧
          (frame.page_id ≠ p → st2.disk.readPage p = st.disk.readPage p) ∧
          (frame.page_id = p → st2.disk.readPage p = B) := by
        rcases hflush with ⟨hcl, hst2⟩ | ⟨hdirty, bb, hfl⟩
        · subst hst2
          refine ⟨rfl, fun j _ => rfl, ⟨frame, hfr, rfl⟩, fun _ => rfl, ?_⟩
          intro hq0p
          rw [hq0p] at hq0res
          exact (hC.1 fid frame hq0res hfr').2 hcl
        · rcases flushPage_success hfl with ⟨-, hnone, -⟩ |
            ⟨-, fid2, frame2, hq2, hf2, -, heq2⟩
          · exact absurd (show alookup frame.page_id st.page_table = none from
              hnone) (by rw [hq0res]; simp)
          · have hq2' : alookup frame.page_id st.page_table = some fid2 := hq2
            rw [hq0res] at hq2'
            injection hq2' with hfid2
            subst hfid2
            have hf2' : st.frames.get? fid = some frame2 := hf2
            rw [hfr'] at hf2'
            injection hf2' with hframe2
            subst hframe2
            subst heq2
            refine ⟨rfl, ?_, ?_, ?_, ?_⟩
            · intro j hj
              show (modifyIdx (fun f => { f with is_dirty := false })
                st.frames fid).get? j = st.frames.get? j
              rw [get?_modifyIdx_ne _ _ (fun hc => hj hc.symm)]
            · refine ⟨{ frame with is_dirty := false }, ?_, rfl⟩
              show (modifyIdx (fun f => { f with is_dirty := false })
                st.frames fid).get? fid = some { frame with is_dirty := false }
              rw [get?_modifyIdx_self, hfr']
              rfl
            · intro hq0p
              show (st.disk.writePage frame.page_id frame.data).readPage p =
                st.disk.readPage p
              exact readPage_writePage_ne st.disk frame.data hq0p
            · intro hq0p
              have hdata : frame.data = B := by
                rw [hq0p] at hq0res
                exact (hC.1 fid frame hq0res hfr').1
              show (st.disk.writePage frame.page_id frame.data).readPage p = B
              rw [hq0p, hdata, readPage_writePage_self]
      obtain ⟨htab2, hoth2, ⟨frame2, hfid2, hpid2eq⟩, hdne, hdeq⟩ := hst2facts
      obtain ⟨-, frame3, hfr3, hst3⟩ := swapIn_success hsw
      have hframe3 : frame3 = frame2 := by
        rw [hfid2] at hfr3
        injection hfr3 with h3
        exact h3.symm
      rw [hframe3] at hst3
      subst hst3
      obtain ⟨node4, -, -, -, -, htab4, -, hdisk4, hframes4, -, -, -, -⟩ :=
        pinFrame_success hpf
      have htabs : st4.page_table =
          ainsert q fid (aerase frame2.page_id st2.page_table) := htab4
      have hdisks : st4.disk = st2.disk := hdisk4
      have hframess : st4.frames = modifyIdx (fun f =>
          { f with pin_count := inc64 f.pin_count, page_id := q,
                   is_dirty := f.is_dirty || dirty })
          (modifyIdx (fun f => { f with data := st2.disk.readPage q })
            st2.frames fid) fid := hframes4
      by_cases hqp : q = p
      · subst hqp
        have hq0p : frame.page_id ≠ q := by
          intro hcontra
          rw [hcontra, hmiss] at hq0res
          cases hq0res
        have hd2 : st2.disk.readPage q = B := by
          rw [hdne hq0p]
          exact hC.2 hmiss
        constructor
        · intro fid' f1 hq' hg'
          rw [htabs, alookup_ainsert_self] at hq'
          injection hq' with hfid'
          subst hfid'
          rw [hframess, get?_modifyIdx_self, get?_modifyIdx_self, hfid2] at hg'
          simp only [Option.map_some', Option.some.injEq] at hg'
          subst hg'
          refine ⟨hd2, fun _ => ?_⟩
          rw [hdisks]
          exact hd2
        · intro hq'
          rw [htabs, alookup_ainsert_self] at hq'
          cases hq'
      · by_cases hq0p : frame.page_id = p
        · have hd2 : st2.disk.readPage p = B := hdeq hq0p
          constructor
          · intro fid' f1 hq' hg'
            exfalso
            rw [htabs, alookup_ainsert_ne hqp, hpid2eq, hq0p,
              alookup_aerase_self] at hq'
            cases hq'
          · intro _
            rw [hdisks]
            exact hd2
        · apply ContentIs_mono hC
          · rw [htabs, alookup_ainsert_ne hqp, hpid2eq,
              alookup_aerase_ne hq0p, htab2]
          · rw [hdisks]
            exact hdne hq0p
          · intro fid_p f1 hp hg1
            have hne : fid ≠ fid_p := by
              intro hcontra
              subst hcontra
              exact hq0p (hwf.table_inj hq0res hp)
            rw [hframess, get?_modifyIdx_ne _ _ hne, get?_modifyIdx_ne _ _ hne,
              hoth2 _ (fun hc => hne hc.symm)] at hg1
            exact ⟨f1, hg1, rfl, fun hcl => hcl⟩

/-- After acquiring page p for writing and writing B through the guard, the
page holds content B: the frame buffer holds B and the frame is dirty, so the
clean-implies-disk-agreement obligation is vacuous. -/
theorem ContentIs_after_write {st st4 : BufferPoolManager} {p : Int} {fid : Nat}
    {B : List Nat} (hwf : WF st)
    (h : st.AcquirePage p true = some (some (fid, st4))) :
    ContentIs (st4.WriteData p B) p B := by
  obtain ⟨htab, f, hf, hdirty⟩ := acquire_resident hwf h
  have hdirty' : f.is_dirty = true := hdirty rfl
  unfold BufferPoolManager.WriteData
  rw [htab]
  simp only
  constructor
  · intro fid' f1 hq' hg'
    have hq2 : alookup p st4.page_table = some fid' := hq'
    rw [htab] at hq2
    injection hq2 with hfid
    subst hfid
    have hg2 : (modifyIdx (fun f => { f with data := B }) st4.frames fid).get?
        fid = some f1 := hg'
    rw [get?_modifyIdx_self, hf] at hg2
    simp only [Option.map_some', Option.some.injEq] at hg2
    subst hg2
    refine ⟨rfl, ?_⟩
    intro hcl
    have hcl2 : f.is_dirty = false := hcl
    rw [hdirty'] at hcl2
    cases hcl2
  · intro hq'
    have hq2 : alookup p st4.page_table = none := hq'
    rw [htab] at hq2
    cases hq2

/-- One successful step that neither rewrites nor deletes page p preserves its
content. -/
theorem step_preserves_ContentIs {st st1 : BufferPoolManager} {op : BPMOp}
    {p : Int} {B : List Nat} (hwf : WF st) (hC : ContentIs st p B)
    (hsafe : SafeFor p op = true) (h : step st op = some st1) :
    ContentIs st1 p B := by
  cases op with
  | newPage =>
    simp only [step, Option.some.injEq] at h
    subst h
    apply ContentIs_mono hC
    · rfl
    · rfl
    · intro fid f1 hp hg1
      exact ⟨f1, hg1, rfl, fun hcl => hcl⟩
  | checkedReadPage q =>
    simp only [step] at h
    rcases hc : st.CheckedReadPage q with _ | oo
    · rw [hc] at h
      cases h
    · rw [hc] at h
      rcases oo with _ | pr
      · simp only [Option.some.injEq] at h
        subst h
        exact hC
      · obtain ⟨fid, stx⟩ := pr
        simp only [Option.some.injEq] at h
        subst h
        rw [checkedReadPage_eq_acquire] at hc
        exact ContentIs_acquire hwf hC hc
  | checkedWritePage q =>
    simp only [step] at h
    rcases hc : st.CheckedWritePage q with _ | oo
    · rw [hc] at h
      cases h
    · rw [hc] at h
      rcases oo with _ | pr
      · simp only [Option.some.injEq] at h
        subst h
        exact hC
      · obtain ⟨fid, stx⟩ := pr
        simp only [Option.some.injEq] at h
        subst h
        rw [checkedWritePage_eq_acquire] at hc
        exact ContentIs_acquire hwf hC hc
  | writeData q b =>
    simp only [step, Option.some.injEq] at h
    subst h
    exact ContentIs_writeData hwf hC (of_decide_eq_true hsafe)
  | dropGuard q =>
    exact ContentIs_dropGuard hC h
  | flushPage q =>
    simp only [step] at h
    rcases hc : st.FlushPage q with _ | pr
    · rw [hc] at h
      cases h
    · obtain ⟨b, stx⟩ := pr
      rw [hc] at h
      simp only [Option.some.injEq] at h
      subst h
      exact ContentIs_flushPage (fun q2 f2 h1 h2 => hwf.table_inj h1 h2) hC hc
  | deletePage q =>
    simp only [step] at h
    rcases hc : st.DeletePage q with _ | pr
    · rw [hc] at h
      cases h
    · obtain ⟨b, stx⟩ := pr
      rw [hc] at h
      simp only [Option.some.injEq] at h
      subst h
      exact ContentIs_deletePage hwf hC (of_decide_eq_true hsafe) hc

/-- Page content is preserved along every successful run of safe operations. -/
theorem runOps_ContentIs : ∀ {ops : List BPMOp} {st st1 : BufferPoolManager}
    {p : Int} {B : List Nat}, WF st → ContentIs st p B →
    (∀ op ∈ ops, SafeFor p op = true) → runOps st ops = some st1 →
    ContentIs st1 p B
  | [], st, st1, p, B, hwf, hC, hsafe, h => by
    simp only [runOps, Option.some.injEq] at h
    subst h
    exact hC
  | op :: rest, st, st1, p, B, hwf, hC, hsafe, h => by
    simp only [runOps] at h
    rcases hs : step st op with _ | st2
    · rw [hs] at h
      cases h
    · rw [hs] at h
      exact runOps_ContentIs (step_preserves_WF hwf hs)
        (step_preserves_ContentIs hwf hC (hsafe op (List.mem_cons_self op rest)) hs)
        (fun op2 hop2 => hsafe op2 (List.mem_cons_of_mem op hop2)) h

/-- C3: writing bytes B into page p through the guard issued by a successful
CheckedWritePage, dropping the guard, running any sequence of operations that
neither rewrites nor deletes p itself (arbitrary other acquisitions are
allowed, including ones that evict p's frame and reload it from disk), and
then acquiring p again through a successful CheckedReadPage yields a frame
whose buffer holds exactly B. -/
theorem c3_write_read_roundtrip (st st1 st3 st4 st5 : BufferPoolManager)
    (p : Int) (B : List Nat) (ops : List BPMOp) (fid1 fid2 : Nat)
    (hwf : WF st)
    (hw : st.CheckedWritePage p = some (some (fid1, st1)))
    (hdrop : (st1.WriteData p B).DropGuard p = some st3)
    (hsafe : ∀ op ∈ ops, SafeFor p op = true)
    (hrun : runOps st3 ops = some st4)
    (hr : st4.CheckedReadPage p = some (some (fid2, st5))) :
    ∃ f, st5.frames.get? fid2 = some f ∧ f.data = B := by
  rw [checkedWritePage_eq_acquire] at hw
  rw [checkedReadPage_eq_acquire] at hr
  have hwf1 : WF st1 := WF_acquire hwf hw
  have hC2 : ContentIs (st1.WriteData p B) p B := ContentIs_after_write hwf hw
  have hwf2 : WF (st1.WriteData p B) := WF_writeData p B hwf1
  have hC3 : ContentIs st3 p B := ContentIs_dropGuard hC2 hdrop
  have hwf3 : WF st3 := WF_dropGuard hwf2 hdrop
  have hC4 : ContentIs st4 p B := runOps_ContentIs hwf3 hC3 hsafe hrun
  have hwf4 : WF st4 := runOps_WF hwf3 hrun
  have hC5 : ContentIs st5 p B := ContentIs_acquire hwf4 hC4 hr
  obtain ⟨htab5, f, hf5, -⟩ := acquire_resident hwf4 hr
  exact ⟨f, hf5, (hC5.1 fid2 f htab5 hf5).1⟩

/-- Concrete trace for the round trip: a single-frame pool, so the
acquisition of page 5 in between must evict page 0 and the final read must
reload it from disk. -/
def c3St1 : BufferPoolManager :=
  match (BufferPoolManager.new 1 1).CheckedWritePage 0 with
  | some (some (_, s)) => s
  | _ => BufferPoolManager.new 1 1

def c3St3 : BufferPoolManager :=
  ((c3St1.WriteData 0 [170]).DropGuard 0).getD c3St1

def c3St4 : BufferPoolManager :=
  (runOps c3St3 [BPMOp.checkedWritePage 5, BPMOp.dropGuard 5]).getD c3St3

def c3St5 : BufferPoolManager :=
  match c3St4.CheckedReadPage 0 with
  | some (some (_, s)) => s
  | _ => c3St4

/-- Witness for the round trip: on a one-frame pool, write [170] to page 0,
drop the guard, acquire page 5 (evicting page 0 and flushing its bytes) and
drop that guard, then read page 0 back; the returned frame holds [170]. -/
theorem c3_write_read_roundtrip_witness :
    ∃ f, c3St5.frames.get? 0 = some f ∧ f.data = [170] :=
  c3_write_read_roundtrip (BufferPoolManager.new 1 1) c3St1 c3St3 c3St4 c3St5
    0 [170] [BPMOp.checkedWritePage 5, BPMOp.dropGuard 5] 0 0
    (WF_new 1 1) rfl rfl (by decide) rfl rfl

end Bustub
